import Mathlib

/-!
# LIEF PE Builder (`src/PE/Builder.cpp`): resource serializer, relocation encoder, build orchestration

Shallow embedding of `LIEF::PE::Builder`.

* `uint32_t` / `uint16_t` values are natural numbers; every C++ conversion or
  wrapping assignment is an explicit `% 2 ^ 32` / `% 2 ^ 16`.
* Byte buffers are `List Nat`; records are laid out little-endian, field after field.
* A store outside the bounds of a `std::vector` is undefined behaviour; the buffer
  handed through `construct_resources` is an `Option (List Nat)` and becomes `none`
  at the first such store (the cursor arithmetic is carried on regardless).
-/

namespace LIEF.PE

/-! ## Bytes and integer helpers -/

/-- Object representation of a `uint16_t` (little-endian host). -/
def le16 (v : Nat) : List Nat := [v % 256, v / 256 % 256]

/-- Object representation of a `uint32_t` (little-endian host). -/
def le32 (v : Nat) : List Nat :=
  [v % 256, v / 256 % 256, v / 65536 % 256, v / 16777216 % 256]

/-- Read back a little-endian number from bytes. -/
def fromLE : List Nat → Nat
  | [] => 0
  | b :: bs => b + 256 * fromLE bs

/-- Modelled from the spec: the helper `align(value, align_on)` of `LIEF/utils.hpp` is not
part of the examined file; the spec describes it as rounding `value` up to the next
`align_on` boundary (a value already on a boundary is kept, as is any value when
`align_on` is zero). -/
def align (value align_on : Nat) : Nat :=
  if 0 < align_on ∧ 0 < value % align_on then value + (align_on - value % align_on) else value

/-- The effect of `std::copy(src.begin(), src.end(), content->data() + off)`: the bytes
`[off, off + src.length)` of the buffer are replaced; the buffer never changes length.
A store that does not fit in the buffer is undefined behaviour (`none`). -/
def copy_to (content : Option (List Nat)) (off : Nat) (src : List Nat) : Option (List Nat) :=
  match content with
  | none => none
  | some buf =>
    if off + src.length ≤ buf.length then
      some (buf.take off ++ src ++ buf.drop (off + src.length))
    else none

/-! ## Resource tree (data model of spec §3) -/

/-- Attributes of a `ResourceDirectory`. -/
structure DirectoryAttributes where
  characteristics : Nat
  timeDateStamp : Nat
  majorVersion : Nat
  minorVersion : Nat
  numberOfNameEntries : Nat
  numberOfIDEntries : Nat

/-- Modelled from the spec: `ResourceNode` / `ResourceDirectory` / `ResourceData` are declared
outside the examined file. Spec §3: a tagged union with variants Directory (attributes and an
ordered sequence of children) and Data (content bytes, code page); every node carries an id and
a name (UTF-16 code units). -/
inductive ResourceNode where
  | directory (id : Nat) (name : List Nat) (attrs : DirectoryAttributes)
      (childs : List ResourceNode)
  | data (id : Nat) (name : List Nat) (content : List Nat) (codePage : Nat)

namespace ResourceNode

/-- Accessor `id()` / field `id_`. -/
def id : ResourceNode → Nat
  | directory i _ _ _ => i
  | data i _ _ _ => i

/-- Accessor `name()`. -/
def name : ResourceNode → List Nat
  | directory _ n _ _ => n
  | data _ n _ _ => n

/-- Accessor `childs()`: only a Directory holds children. -/
def childs : ResourceNode → List ResourceNode
  | directory _ _ _ cs => cs
  | data _ _ _ _ => []

/-- Whether `type() == RESOURCE_NODE_TYPES::DIRECTORY`. -/
def isDirectory : ResourceNode → Bool
  | directory _ _ _ _ => true
  | data _ _ _ _ => false

/-- The assignment `node->id_ = v`. -/
def setId (v : Nat) : ResourceNode → ResourceNode
  | directory _ n a cs => directory v n a cs
  | data _ n c p => data v n c p

end ResourceNode

/-! ## On-disk records of the resource format -/

/-- Modelled from the spec: `STRUCT_SIZES::ResourceDirectoryTableSize` is declared outside the
examined file; it is the fixed size of the directory-table record, whose six fields the
serializer fills in (two 32-bit and four 16-bit values). -/
def ResourceDirectoryTableSize : Nat := 16

/-- Modelled from the spec: `STRUCT_SIZES::ResourceDirectoryEntriesSize`, the fixed size of a
directory-entry record (two 32-bit values, NameID and RVA). -/
def ResourceDirectoryEntriesSize : Nat := 8

/-- Modelled from the spec: `STRUCT_SIZES::ResourceDataEntrySize`, the fixed size of a data-entry
record (four 32-bit values). -/
def ResourceDataEntrySize : Nat := 16

/-- Record `pe_resource_directory_table`. -/
structure pe_resource_directory_table where
  Characteristics : Nat
  TimeDateStamp : Nat
  MajorVersion : Nat
  MinorVersion : Nat
  NumberOfNameEntries : Nat
  NumberOfIDEntries : Nat

/-- Object representation of a `pe_resource_directory_table`. -/
def pe_resource_directory_table.bytes (r : pe_resource_directory_table) : List Nat :=
  le32 r.Characteristics ++ le32 r.TimeDateStamp ++ le16 r.MajorVersion ++ le16 r.MinorVersion
    ++ le16 r.NumberOfNameEntries ++ le16 r.NumberOfIDEntries

/-- Record `pe_resource_directory_entries`. -/
structure pe_resource_directory_entries where
  NameID : Nat
  RVA : Nat

/-- Object representation of a `pe_resource_directory_entries`. -/
def pe_resource_directory_entries.bytes (r : pe_resource_directory_entries) : List Nat :=
  le32 r.NameID ++ le32 r.RVA

/-- Record `pe_resource_data_entry`. -/
structure pe_resource_data_entry where
  DataRVA : Nat
  Size : Nat
  Codepage : Nat
  Reserved : Nat

/-- Object representation of a `pe_resource_data_entry`. -/
def pe_resource_data_entry.bytes (r : pe_resource_data_entry) : List Nat :=
  le32 r.DataRVA ++ le32 r.Size ++ le32 r.Codepage ++ le32 r.Reserved

/-! ## `Builder::compute_resources_size` (lines 252–270) -/

/-- The three `uint32_t` accumulators `*headerSize`, `*dataSize`, `*nameSize`. -/
structure ResourceSizes where
  headerSize : Nat
  dataSize : Nat
  nameSize : Nat

mutual
/-- `Builder::compute_resources_size`: the accumulators after the call on `node`. -/
def compute_resources_size (node : ResourceNode) (acc : ResourceSizes) : ResourceSizes :=
  match node with
  | .directory _ name _ childs =>
    let nameSize :=
      if name ≠ [] then (acc.nameSize + (2 + name.length * 2 + 1)) % 2 ^ 32 else acc.nameSize
    let headerSize := (acc.headerSize + ResourceDirectoryTableSize) % 2 ^ 32
    let headerSize := (headerSize + ResourceDirectoryEntriesSize) % 2 ^ 32
    compute_resources_size_childs childs
      { headerSize := headerSize, dataSize := acc.dataSize, nameSize := nameSize }
  | .data _ name content _ =>
    let nameSize :=
      if name ≠ [] then (acc.nameSize + (2 + name.length * 2 + 1)) % 2 ^ 32 else acc.nameSize
    let headerSize := (acc.headerSize + ResourceDataEntrySize) % 2 ^ 32
    let headerSize := (headerSize + ResourceDirectoryEntriesSize) % 2 ^ 32
    let dataSize := (acc.dataSize + (content.length + 1)) % 2 ^ 32
    { headerSize := headerSize, dataSize := dataSize, nameSize := nameSize }
/-- The loop `for (auto& child : node->childs())` of `compute_resources_size`. -/
def compute_resources_size_childs (childs : List ResourceNode) (acc : ResourceSizes) :
    ResourceSizes :=
  match childs with
  | [] => acc
  | child :: rest => compute_resources_size_childs rest (compute_resources_size child acc)
end

/-! ## `Builder::construct_resources` (lines 276–393) -/

/-- The state `construct_resources` works on through its pointer arguments: the buffer
`*content` and the three cursors. -/
structure BuildState where
  content : Option (List Nat)
  offsetToHeader : Nat
  offsetToData : Nat
  offsetToName : Nat

/-- Line 318, the test `static_cast<uint32_t>(child->id_) & 0x80000000`: whether an id carries
the named flag. -/
def namedFlag (id : Nat) : Bool := (id % 2 ^ 32) &&& 0x80000000 ≠ 0

/-- Lines 318–339, the `if` on the named flag inside the child loop: the name of `child`
is flushed at `*offsetToName` (16-bit length, then the code units), `*offsetToName` advances
and the child gets its new id (returned as the first component). -/
def construct_name (child : ResourceNode) (st : BuildState) : Nat × BuildState :=
  if namedFlag child.id then
    let name := child.name
    let id := (0x80000000 ||| st.offsetToName) % 2 ^ 32
    let content := copy_to st.content st.offsetToName (le16 (name.length % 2 ^ 16))
    let content := copy_to content (st.offsetToName + 2) (name.flatMap le16)
    (id, { st with content := content,
                   offsetToName := (st.offsetToName + (name.length * 2 + 2 + 1)) % 2 ^ 32 })
  else (child.id, st)

/-- Lines 341–364: the `pe_resource_directory_entries` record built for a child whose
(possibly rewritten) id is `id`, with `*offsetToHeader` as it stands before the recursion. -/
def entryHeader (isDirectory : Bool) (id offsetToHeader : Nat) : pe_resource_directory_entries :=
  { NameID := id % 2 ^ 32,
    RVA := if isDirectory then (0x80000000 ||| offsetToHeader) % 2 ^ 32
           else offsetToHeader % 2 ^ 32 }

/-- Lines 292–298: the `pe_resource_directory_table` record of a directory. -/
def rsrcHeader (attrs : DirectoryAttributes) : pe_resource_directory_table :=
  { Characteristics := attrs.characteristics % 2 ^ 32,
    TimeDateStamp := attrs.timeDateStamp % 2 ^ 32,
    MajorVersion := attrs.majorVersion % 2 ^ 16,
    MinorVersion := attrs.minorVersion % 2 ^ 16,
    NumberOfNameEntries := attrs.numberOfNameEntries % 2 ^ 16,
    NumberOfIDEntries := attrs.numberOfIDEntries % 2 ^ 16 }

/-- Lines 372–376: the `pe_resource_data_entry` record of a Data node. -/
def dataHeader (content : List Nat) (codePage baseRVA offsetToData : Nat) :
    pe_resource_data_entry :=
  { DataRVA := (baseRVA + offsetToData) % 2 ^ 32,
    Size := content.length % 2 ^ 32,
    Codepage := codePage % 2 ^ 32,
    Reserved := 0 }

mutual
/-- `Builder::construct_resources`: returns the node as rewritten and the state after the call.
(`depth` is only passed along by the source and is left out.) -/
def construct_resources (node : ResourceNode) (st : BuildState) (baseRVA : Nat) :
    ResourceNode × BuildState :=
  match node with
  | .directory id name attrs childs =>
    let content := copy_to st.content st.offsetToHeader
      ((rsrcHeader attrs).bytes.take ResourceDirectoryTableSize)
    let offsetToHeader := (st.offsetToHeader + ResourceDirectoryTableSize) % 2 ^ 32
    let currentOffset := offsetToHeader
    let offsetToHeader :=
      (offsetToHeader + childs.length * ResourceDirectoryEntriesSize) % 2 ^ 32
    let r := construct_resources_childs childs
      { st with content := content, offsetToHeader := offsetToHeader } currentOffset baseRVA
    (.directory id name attrs r.1, r.2)
  | .data id name content codePage =>
    let buf := copy_to st.content st.offsetToHeader
      ((dataHeader content codePage baseRVA st.offsetToData).bytes.take ResourceDataEntrySize)
    let offsetToHeader := (st.offsetToHeader + ResourceDirectoryTableSize) % 2 ^ 32
    let buf := copy_to buf st.offsetToData content
    let offsetToData := (st.offsetToData + (content.length + 1)) % 2 ^ 32
    (.data id name content codePage,
      { st with content := buf, offsetToHeader := offsetToHeader, offsetToData := offsetToData })
/-- The loop `for (ResourceNode* child : node->childs())` of `construct_resources`, with its
local cursor `currentOffset`. The recursive call never reads the id of the node it is called
on, so the id assigned at line 322 is put on the child returned by the recursion. -/
def construct_resources_childs (childs : List ResourceNode) (st : BuildState)
    (currentOffset baseRVA : Nat) : List ResourceNode × BuildState :=
  match childs with
  | [] => ([], st)
  | child :: rest =>
    let n := construct_name child st
    let st1 := n.2
    let content := copy_to st1.content currentOffset
      ((entryHeader child.isDirectory n.1 st1.offsetToHeader).bytes.take
        ResourceDirectoryEntriesSize)
    let currentOffset := (currentOffset + ResourceDirectoryEntriesSize) % 2 ^ 32
    let r := construct_resources child { st1 with content := content } baseRVA
    let rs := construct_resources_childs rest r.2 currentOffset baseRVA
    (r.1.setId n.1 :: rs.1, rs.2)
end

/-- Lines 225–236 of `Builder::build_resources`: size planning, allocation of the zero-filled
buffer grown to the file alignment, and the three region bases the cursors start from. -/
def build_resources_state (node : ResourceNode) (file_alignment : Nat) : BuildState :=
  let sz := compute_resources_size node { headerSize := 0, dataSize := 0, nameSize := 0 }
  let content := List.replicate ((sz.headerSize + sz.dataSize + sz.nameSize) % 2 ^ 32) 0
  let content_size_aligned := align content.length file_alignment
  let content := content ++ List.replicate (content_size_aligned - content.length) 0
  { content := some content,
    offsetToHeader := 0,
    offsetToName := sz.headerSize,
    offsetToData := (sz.headerSize + sz.nameSize) % 2 ^ 32 }

/-- Lines 225–236 and 244 of `Builder::build_resources`: the serialization of the tree into
the buffer allocated for it. `baseRVA` is the virtual address of the section that
`add_section` created for the buffer. -/
def build_resources_content (node : ResourceNode) (file_alignment baseRVA : Nat) :
    ResourceNode × BuildState :=
  construct_resources node (build_resources_state node file_alignment) baseRVA

/-! ## `Builder::build_relocation` (lines 163–214) -/

/-- Modelled from the spec: `Relocation` / `RelocationEntry` are declared outside the examined
file. Spec §3: a block is a page RVA and an ordered sequence of entries; an entry is the 16-bit
value returned by `entry.data()`, opaque to the encoder. -/
structure Relocation where
  virtual_address : Nat
  entries : List Nat

/-- Record `pe_base_relocation_block` (8 bytes: PageRVA and BlockSize, four bytes each). -/
structure pe_base_relocation_block where
  PageRVA : Nat
  BlockSize : Nat

/-- Object representation of a `pe_base_relocation_block`. -/
def pe_base_relocation_block.bytes (r : pe_base_relocation_block) : List Nat :=
  le32 r.PageRVA ++ le32 r.BlockSize

/-- Lines 167–171: the block header built for `relocation`. -/
def relocation_header (relocation : Relocation) : pe_base_relocation_block :=
  let block_size := (relocation.entries.length * 2 + 8) % 2 ^ 32
  { PageRVA := relocation.virtual_address % 2 ^ 32,
    BlockSize := align block_size 4 % 2 ^ 32 }

/-- One iteration of the loop over `relocations()` (lines 165–189): `content` after the block
of `relocation` has been appended to it. -/
def build_relocation_block (content : List Nat) (relocation : Relocation) : List Nat :=
  let content := content ++ (relocation_header relocation).bytes
  let content := relocation.entries.foldl (fun c entry => c ++ le16 (entry % 2 ^ 16)) content
  content ++ List.replicate (align content.length 4 - content.length) 0

/-- Lines 164–189: `content` when the loop over all blocks is over, before the padding to the
file alignment. -/
def build_relocation_blocks (relocations : List Relocation) : List Nat :=
  relocations.foldl build_relocation_block []

/-- Lines 164–209: the content given to the new relocation section. -/
def build_relocation_content (relocations : List Relocation) (file_alignment : Nat) : List Nat :=
  let content := build_relocation_blocks relocations
  let size_aligned := align content.length file_alignment
  content ++ List.replicate (size_aligned - content.length) 0

/-! ## The structural model (`Binary`) and the output sink -/

/-- Modelled from the spec: PE `Section` (declared outside the examined file), spec §3. The
accessors `offset()` and `pointerto_raw_data()` are kept apart as the source reads both.
`name_tail i` is the byte that lies `i` bytes after the terminator of `name().c_str()` in the
storage of the name: `operator<<(const Section&)` reads 8 bytes from `c_str()` whatever the
length of the name (lines 497–499), so for a name shorter than 7 bytes it reads such bytes;
the source does not determine them. -/
structure Section where
  name : String
  name_tail : Nat → Nat
  virtual_address : Nat
  virtual_size : Nat
  size : Nat
  offset : Nat
  pointerto_raw_data : Nat
  pointerto_relocation : Nat
  pointerto_line_numbers : Nat
  numberof_relocations : Nat
  numberof_line_numbers : Nat
  characteristics : Nat
  content : List Nat

/-- The constructor `Section{name}`: a section with that name and nothing else; `name_tail`
is what the storage of the new name holds after the terminator. -/
def Section.named (name : String) (name_tail : Nat → Nat) : Section :=
  { name := name, name_tail := name_tail,
    virtual_address := 0, virtual_size := 0, size := 0, offset := 0,
    pointerto_raw_data := 0, pointerto_relocation := 0, pointerto_line_numbers := 0,
    numberof_relocations := 0, numberof_line_numbers := 0, characteristics := 0, content := [] }

/-- Modelled from the spec: `DataDirectory` descriptor, spec §3: {RVA, size}. -/
structure DataDirectory where
  RVA : Nat
  size : Nat

/-- Modelled from the spec: `DosHeader` (declared outside the examined file), with the fields
read by `operator<<(const DosHeader&)`. -/
structure DosHeader where
  magic : Nat
  used_bytes_in_the_last_page : Nat
  file_size_in_pages : Nat
  numberof_relocation : Nat
  header_size_in_paragraphs : Nat
  minimum_extra_paragraphs : Nat
  maximum_extra_paragraphs : Nat
  initial_relative_ss : Nat
  initial_sp : Nat
  checksum : Nat
  initial_ip : Nat
  initial_relative_cs : Nat
  addressof_relocation_table : Nat
  overlay_number : Nat
  reserved : List Nat
  oem_id : Nat
  oem_info : Nat
  reserved2 : List Nat
  addressof_new_exeheader : Nat

/-- Modelled from the spec: file `Header` (declared outside the examined file), with the fields
read by `operator<<(const Header&)`. -/
structure Header where
  signature : List Nat
  machine : Nat
  time_date_stamp : Nat
  pointerto_symbol_table : Nat
  numberof_symbols : Nat
  sizeof_optional_header : Nat
  characteristics : Nat

/-- Modelled from the spec: `OptionalHeader`; only `file_alignment()` is read by the examined
file, the record itself is written by an external collaborator from `payload`. -/
structure OptionalHeader where
  file_alignment : Nat
  payload : List Nat

/-- The declared bitness of the model. -/
inductive PE_TYPE where
  | PE32
  | PE32_PLUS

/-- The kinds of synthesized sections passed to `add_section`. -/
inductive SECTION_TYPES where
  | RELOCATION
  | RESOURCE

/-- Modelled from the spec: the structural model `Binary` (spec §3 and §6): headers, ordered
data-directory descriptors, ordered sections, optional resource-tree root, ordered relocation
blocks and the has-feature predicates. -/
structure Binary where
  type : PE_TYPE
  dos_header : DosHeader
  header : Header
  optional_header : OptionalHeader
  data_directories : List DataDirectory
  sections : List Section
  resources : Option ResourceNode
  relocations : List Relocation
  has_tls : Bool
  has_relocations : Bool
  has_resources : Bool
  has_imports : Bool

/-- The external collaborators of the builder (spec §1, §4.1): code that the examined file
calls but does not contain. They are parameters of the embedding.
`add_section` returns the model with the section inserted and the position of the new section
in `sections` (the C++ method returns a reference to it).
`name_tail name` stands for the bytes that the storage of a string newly built with the content
`name` holds after its terminator (the standard library does not determine them). -/
structure Collaborators where
  build_tls : PE_TYPE → Binary → Binary
  build_import_table : PE_TYPE → Bool → Binary → Binary
  build_optional_header : PE_TYPE → OptionalHeader → List Nat
  add_section : Binary → Section → SECTION_TYPES → Binary × Nat
  name_tail : String → Nat → Nat

/-- Modelled from the spec: the output sink `ios_` (spec §2): an in-memory, randomly-seekable,
growable byte buffer with a write cursor. -/
structure vector_iostream where
  raw : List Nat
  pos : Nat

namespace vector_iostream

/-- Operation `seekp(p)`. -/
def seekp (s : vector_iostream) (p : Nat) : vector_iostream := { s with pos := p }

/-- Operation `tellp()`. -/
def tellp (s : vector_iostream) : Nat := s.pos

/-- Operation `write(bytes)`: write at the cursor, growing the buffer (zero-filled) when the
write ends beyond its end; the cursor moves past the bytes written. -/
def write (s : vector_iostream) (bytes : List Nat) : vector_iostream :=
  let raw := s.raw ++ List.replicate (s.pos + bytes.length - s.raw.length) 0
  { raw := raw.take s.pos ++ bytes ++ raw.drop (s.pos + bytes.length),
    pos := s.pos + bytes.length }

end vector_iostream

/-! ## Fixed records written by the `operator<<` overloads -/

/-- A fixed-size array of `n` 16-bit values filled from `xs`. -/
def fixed16 (n : Nat) (xs : List Nat) : List Nat :=
  ((xs.take n) ++ List.replicate (n - xs.length) 0).flatMap le16

/-- A fixed-size array of `n` bytes filled from `xs`. -/
def fixed8 (n : Nat) (xs : List Nat) : List Nat :=
  ((xs.take n) ++ List.replicate (n - xs.length) 0).map (fun b => b % 256)

/-- Record `pe_dos_header` (64 bytes). -/
structure pe_dos_header where
  Magic : Nat
  UsedBytesInTheLastPage : Nat
  FileSizeInPages : Nat
  NumberOfRelocationItems : Nat
  HeaderSizeInParagraphs : Nat
  MinimumExtraParagraphs : Nat
  MaximumExtraParagraphs : Nat
  InitialRelativeSS : Nat
  InitialSP : Nat
  Checksum : Nat
  InitialIP : Nat
  InitialRelativeCS : Nat
  AddressOfRelocationTable : Nat
  OverlayNumber : Nat
  Reserved : List Nat
  OEMid : Nat
  OEMinfo : Nat
  Reserved2 : List Nat
  AddressOfNewExeHeader : Nat

/-- Object representation of a `pe_dos_header`. -/
def pe_dos_header.bytes (r : pe_dos_header) : List Nat :=
  le16 r.Magic ++ le16 r.UsedBytesInTheLastPage ++ le16 r.FileSizeInPages
    ++ le16 r.NumberOfRelocationItems ++ le16 r.HeaderSizeInParagraphs
    ++ le16 r.MinimumExtraParagraphs ++ le16 r.MaximumExtraParagraphs
    ++ le16 r.InitialRelativeSS ++ le16 r.InitialSP ++ le16 r.Checksum ++ le16 r.InitialIP
    ++ le16 r.InitialRelativeCS ++ le16 r.AddressOfRelocationTable ++ le16 r.OverlayNumber
    ++ fixed16 4 r.Reserved ++ le16 r.OEMid ++ le16 r.OEMinfo ++ fixed16 10 r.Reserved2
    ++ le32 r.AddressOfNewExeHeader

/-- Record `pe_header` (24 bytes, signature included). -/
structure pe_header where
  signature : List Nat
  Machine : Nat
  NumberOfSections : Nat
  TimeDateStamp : Nat
  PointerToSymbolTable : Nat
  NumberOfSymbols : Nat
  SizeOfOptionalHeader : Nat
  Characteristics : Nat

/-- Object representation of a `pe_header`. -/
def pe_header.bytes (r : pe_header) : List Nat :=
  fixed8 4 r.signature ++ le16 r.Machine ++ le16 r.NumberOfSections ++ le32 r.TimeDateStamp
    ++ le32 r.PointerToSymbolTable ++ le32 r.NumberOfSymbols ++ le16 r.SizeOfOptionalHeader
    ++ le16 r.Characteristics

/-- Record `pe_data_directory` (8 bytes). -/
structure pe_data_directory where
  RelativeVirtualAddress : Nat
  Size : Nat

/-- Object representation of a `pe_data_directory`. -/
def pe_data_directory.bytes (r : pe_data_directory) : List Nat :=
  le32 r.RelativeVirtualAddress ++ le32 r.Size

/-- Record `pe_section` (40 bytes). -/
structure pe_section where
  Name : List Nat
  VirtualSize : Nat
  VirtualAddress : Nat
  SizeOfRawData : Nat
  PointerToRawData : Nat
  PointerToRelocations : Nat
  PointerToLineNumbers : Nat
  NumberOfRelocations : Nat
  NumberOfLineNumbers : Nat
  Characteristics : Nat

/-- Object representation of a `pe_section`. -/
def pe_section.bytes (r : pe_section) : List Nat :=
  fixed8 8 r.Name ++ le32 r.VirtualSize ++ le32 r.VirtualAddress ++ le32 r.SizeOfRawData
    ++ le32 r.PointerToRawData ++ le32 r.PointerToRelocations ++ le32 r.PointerToLineNumbers
    ++ le16 r.NumberOfRelocations ++ le16 r.NumberOfLineNumbers ++ le32 r.Characteristics

/-! ## The builder and `Builder::build` (lines 38–154, 405–512) -/

/-- What `build()` does, in program order: the calls of the four rebuild steps and the records
written by the `operator<<` overloads, each with the sink offset it is written at. -/
inductive Event where
  | build_tls
  | build_relocation
  | build_resources
  | build_import_table
  | dos_header (offset : Nat) (record : pe_dos_header)
  | header (offset : Nat) (record : pe_header)
  | optional_header (offset : Nat)
  | data_directory (offset : Nat) (record : pe_data_directory)
  | section_header (offset : Nat) (record : pe_section)
  | section_content (offset : Nat) (content : List Nat)

/-- The `Builder` object: the model it borrows, the five flags, the output sink, and the
history of what it has done so far. -/
structure Builder where
  binary_ : Binary
  build_imports_ : Bool
  patch_imports_ : Bool
  build_relocations_ : Bool
  build_tls_ : Bool
  build_resources_ : Bool
  ios_ : vector_iostream
  history : List Event

namespace Builder

/-- The constructor `Builder::Builder(Binary*)` (lines 38–45): every flag starts disabled. -/
def new (binary : Binary) : Builder :=
  { binary_ := binary, build_imports_ := false, patch_imports_ := false,
    build_relocations_ := false, build_tls_ := false, build_resources_ := false,
    ios_ := { raw := [], pos := 0 }, history := [] }

/-- Setter `build_imports(bool)`. -/
def set_build_imports (b : Builder) (flag : Bool) : Builder := { b with build_imports_ := flag }

/-- Setter `patch_imports(bool)`. -/
def set_patch_imports (b : Builder) (flag : Bool) : Builder := { b with patch_imports_ := flag }

/-- Setter `build_relocations(bool)`. -/
def set_build_relocations (b : Builder) (flag : Bool) : Builder :=
  { b with build_relocations_ := flag }

/-- Setter `build_tls(bool)`. -/
def set_build_tls (b : Builder) (flag : Bool) : Builder := { b with build_tls_ := flag }

/-- Setter `build_resources(bool)`. -/
def set_build_resources (b : Builder) (flag : Bool) : Builder :=
  { b with build_resources_ := flag }

/-- `Builder::build_relocation` (lines 163–214). -/
def build_relocation (ext : Collaborators) (b : Builder) : Builder :=
  let content := build_relocation_content b.binary_.relocations
    b.binary_.optional_header.file_alignment
  let new_relocation_section : Section :=
    { Section.named ".l5" (ext.name_tail ".l5") with
      characteristics := 0x42000040, content := content }
  { b with binary_ :=
      (ext.add_section b.binary_ new_relocation_section SECTION_TYPES.RELOCATION).1 }

/-- `Builder::build_resources` (lines 220–247), called with a resource root `node` present.
The section is created with the zero-filled buffer, `add_section` places it, the tree is
serialized with the virtual address of the placed section as `baseRVA`, and the section
receives the filled buffer. An out-of-bounds store in the serializer is undefined behaviour
(`none`). -/
def build_resources (ext : Collaborators) (b : Builder) (node : ResourceNode) : Option Builder :=
  let file_alignment := b.binary_.optional_header.file_alignment
  let sz := compute_resources_size node { headerSize := 0, dataSize := 0, nameSize := 0 }
  let content := List.replicate ((sz.headerSize + sz.dataSize + sz.nameSize) % 2 ^ 32) 0
  let content := content ++ List.replicate (align content.length file_alignment - content.length) 0
  let new_section_rsrc : Section :=
    { Section.named ".l2" (ext.name_tail ".l2") with
      characteristics := 0x40000040, content := content }
  let added := ext.add_section b.binary_ new_section_rsrc SECTION_TYPES.RESOURCE
  let baseRVA := ((added.1.sections[added.2]?).map Section.virtual_address).getD 0
  let r := build_resources_content node file_alignment baseRVA
  match r.2.content with
  | none => none
  | some filled =>
    some { b with binary_ :=
      { added.1 with
        resources := some r.1,
        sections := added.1.sections.modify (fun s => { s with content := filled }) added.2 } }

/-- `Builder::operator<<(const DosHeader&)` (lines 405–435): the record that is written. -/
def dosHeader (dos_header : DosHeader) : pe_dos_header :=
  { Magic := dos_header.magic % 2 ^ 16,
    UsedBytesInTheLastPage := dos_header.used_bytes_in_the_last_page % 2 ^ 16,
    FileSizeInPages := dos_header.file_size_in_pages % 2 ^ 16,
    NumberOfRelocationItems := dos_header.numberof_relocation % 2 ^ 16,
    HeaderSizeInParagraphs := dos_header.header_size_in_paragraphs % 2 ^ 16,
    MinimumExtraParagraphs := dos_header.minimum_extra_paragraphs % 2 ^ 16,
    MaximumExtraParagraphs := dos_header.maximum_extra_paragraphs % 2 ^ 16,
    InitialRelativeSS := dos_header.initial_relative_ss % 2 ^ 16,
    InitialSP := dos_header.initial_sp % 2 ^ 16,
    Checksum := dos_header.checksum % 2 ^ 16,
    InitialIP := dos_header.initial_ip % 2 ^ 16,
    InitialRelativeCS := dos_header.initial_relative_cs % 2 ^ 16,
    AddressOfRelocationTable := dos_header.addressof_relocation_table % 2 ^ 16,
    OverlayNumber := dos_header.overlay_number % 2 ^ 16,
    Reserved := dos_header.reserved,
    OEMid := dos_header.oem_id % 2 ^ 16,
    OEMinfo := dos_header.oem_info % 2 ^ 16,
    Reserved2 := dos_header.reserved2,
    AddressOfNewExeHeader := dos_header.addressof_new_exeheader % 2 ^ 16 }

/-- `Builder::operator<<(const DosHeader&)`: seek to 0 and write the record. -/
def put_DosHeader (b : Builder) (dos_header : DosHeader) : Builder :=
  let record := dosHeader dos_header
  let ios := b.ios_.seekp 0
  { b with ios_ := ios.write record.bytes,
           history := b.history ++ [Event.dos_header ios.tellp record] }

/-- `Builder::operator<<(const Header&)` (lines 438–460): the record that is written. The
section count and the signature are read from the model, not from the argument. -/
def header (b : Builder) (bHeader : Header) : pe_header :=
  { signature := b.binary_.header.signature,
    Machine := bHeader.machine % 2 ^ 16,
    NumberOfSections := b.binary_.sections.length % 2 ^ 16,
    TimeDateStamp := bHeader.time_date_stamp % 2 ^ 32,
    PointerToSymbolTable := bHeader.pointerto_symbol_table % 2 ^ 32,
    NumberOfSymbols := bHeader.numberof_symbols % 2 ^ 32,
    SizeOfOptionalHeader := bHeader.sizeof_optional_header % 2 ^ 16,
    Characteristics := bHeader.characteristics % 2 ^ 16 }

/-- `Builder::operator<<(const Header&)`: seek to the address of the new header recorded in
the model and write the record. -/
def put_Header (b : Builder) (bHeader : Header) : Builder :=
  let record := header b bHeader
  let address_next_header := b.binary_.dos_header.addressof_new_exeheader % 2 ^ 32
  let ios := b.ios_.seekp address_next_header
  { b with ios_ := ios.write record.bytes,
           history := b.history ++ [Event.header ios.tellp record] }

/-- `Builder::operator<<(const OptionalHeader&)` (lines 463–470): the width-specialized
collaborator writes the record at the cursor. -/
def put_OptionalHeader (ext : Collaborators) (b : Builder) (optional_header : OptionalHeader) :
    Builder :=
  { b with ios_ := b.ios_.write (ext.build_optional_header b.binary_.type optional_header),
           history := b.history ++ [Event.optional_header b.ios_.tellp] }

/-- `Builder::operator<<(const DataDirectory&)` (lines 473–482). -/
def put_DataDirectory (b : Builder) (data_directory : DataDirectory) : Builder :=
  let record : pe_data_directory :=
    { RelativeVirtualAddress := data_directory.RVA % 2 ^ 32, Size := data_directory.size % 2 ^ 32 }
  { b with ios_ := b.ios_.write record.bytes,
           history := b.history ++ [Event.data_directory b.ios_.tellp record] }

/-- `Builder::operator<<(const Section&)` (lines 485–512): the header record of a section.
Lines 497–499 copy `sizeof(header.Name)` = 8 bytes from `name().c_str()`: the bytes of the
name, then, when the name is shorter than 8 bytes, the terminator and the bytes that follow it
in the storage of the name. -/
def section_header (s : Section) : pe_section :=
  { Name := ((s.name.toUTF8.data.toList.map (fun c => c.toNat))
      ++ 0 :: (List.range 7).map s.name_tail).take 8,
    VirtualSize := s.virtual_size % 2 ^ 32,
    VirtualAddress := s.virtual_address % 2 ^ 32,
    SizeOfRawData := s.size % 2 ^ 32,
    PointerToRawData := s.pointerto_raw_data % 2 ^ 32,
    PointerToRelocations := s.pointerto_relocation % 2 ^ 32,
    PointerToLineNumbers := s.pointerto_line_numbers % 2 ^ 32,
    NumberOfRelocations := s.numberof_relocations % 2 ^ 16,
    NumberOfLineNumbers := s.numberof_line_numbers % 2 ^ 16,
    Characteristics := s.characteristics % 2 ^ 32 }

/-- `Builder::operator<<(const Section&)`: write the header record at the cursor, write the
content at the offset of the section (an oversized content only logs a warning), and put the
cursor back after the header record. -/
def put_Section (b : Builder) (s : Section) : Builder :=
  let record := section_header s
  let ios := b.ios_.write record.bytes
  let saved_offset := ios.tellp
  let ios2 := (ios.seekp s.offset).write s.content
  { b with ios_ := ios2.seekp saved_offset,
           history := b.history ++
             [Event.section_header b.ios_.tellp record, Event.section_content s.offset s.content] }

/-- Lines 94–101 of `Builder::build`: the TLS step (an external collaborator, specialized
by the address width of the model). -/
def build_step_tls (ext : Collaborators) (b : Builder) : Builder :=
  if b.binary_.has_tls && b.build_tls_ then
    { b with binary_ := ext.build_tls b.binary_.type b.binary_,
             history := b.history ++ [Event.build_tls] }
  else b

/-- Lines 103–106 of `Builder::build`: the relocation step. -/
def build_step_relocation (ext : Collaborators) (b : Builder) : Builder :=
  if b.binary_.has_relocations && b.build_relocations_ then
    build_relocation ext { b with history := b.history ++ [Event.build_relocation] }
  else b

/-- Lines 108–114 of `Builder::build`: the resource step, taken when the model has resources,
the resource root is not null and the flag is enabled. The `try`/`catch` around
`build_resources` has nothing to catch here (no modelled callee throws `not_found`). -/
def build_step_resources (ext : Collaborators) (b : Builder) : Option Builder :=
  match b.binary_.resources with
  | some node =>
    if b.binary_.has_resources && b.build_resources_ then
      build_resources ext { b with history := b.history ++ [Event.build_resources] } node
    else some b
  | none => some b

/-- Lines 116–123 of `Builder::build`: the import step (an external collaborator). -/
def build_step_imports (ext : Collaborators) (b : Builder) : Builder :=
  if b.binary_.has_imports && b.build_imports_ then
    { b with binary_ := ext.build_import_table b.binary_.type b.patch_imports_ b.binary_,
             history := b.history ++ [Event.build_import_table] }
  else b

/-- Lines 94–123 of `Builder::build`: the four conditional rebuild steps, in program order. -/
def build_steps (ext : Collaborators) (b : Builder) : Option Builder :=
  (build_step_resources ext (build_step_relocation ext (build_step_tls ext b))).map
    (build_step_imports ext)

/-- Lines 125–146 of `Builder::build`: headers, data directories with the zero terminator,
then every section. -/
def build_writes (ext : Collaborators) (b : Builder) : Builder :=
  let b := put_DosHeader b b.binary_.dos_header
  let b := put_Header b b.binary_.header
  let b := put_OptionalHeader ext b b.binary_.optional_header
  let b := b.binary_.data_directories.foldl put_DataDirectory b
  let last_one : DataDirectory := { RVA := 0, size := 0 }
  let b := put_DataDirectory b last_one
  b.binary_.sections.foldl put_Section b

/-- `Builder::build` (lines 90–154). -/
def build (ext : Collaborators) (b : Builder) : Option Builder :=
  (build_steps ext b).map (build_writes ext)

end Builder

/-! ## Layout measures (used to state and prove the properties below)

Exact byte counts, as natural numbers without wrap-around, of what the two passes
add to their cursors. -/

mutual
/-- Header bytes that `construct_resources` advances `*offsetToHeader` by on a node. -/
def headerBytes : ResourceNode → Nat
  | .directory _ _ _ childs =>
    ResourceDirectoryTableSize + childs.length * ResourceDirectoryEntriesSize
      + headerBytesL childs
  | .data _ _ _ _ => ResourceDirectoryTableSize
/-- Header bytes consumed by the subtrees of a list of children. -/
def headerBytesL : List ResourceNode → Nat
  | [] => 0
  | child :: rest => headerBytes child + headerBytesL rest
end

mutual
/-- Number of nodes of a tree. -/
def nodeCount : ResourceNode → Nat
  | .directory _ _ _ childs => 1 + nodeCountL childs
  | .data _ _ _ _ => 1
/-- Number of nodes of a list of trees. -/
def nodeCountL : List ResourceNode → Nat
  | [] => 0
  | child :: rest => nodeCount child + nodeCountL rest
end

mutual
/-- Data-region bytes of a tree: content length plus one pad byte per Data node. -/
def dataBytes : ResourceNode → Nat
  | .directory _ _ _ childs => dataBytesL childs
  | .data _ _ content _ => content.length + 1
/-- Data-region bytes of a list of trees. -/
def dataBytesL : List ResourceNode → Nat
  | [] => 0
  | child :: rest => dataBytes child + dataBytesL rest
end

/-- Name-region bytes that the child loop of `construct_resources` advances `*offsetToName`
by for one child: `2 * length + 3` when the child's id carries the named flag. -/
def nameRecordBytes (child : ResourceNode) : Nat :=
  if namedFlag child.id then child.name.length * 2 + 2 + 1 else 0

mutual
/-- Name-region bytes that `construct_resources` consumes below a node (the node's own name
is written by the loop of its parent). -/
def nameBytes : ResourceNode → Nat
  | .directory _ _ _ childs => nameBytesL childs
  | .data _ _ _ _ => 0
/-- Name-region bytes consumed by the child loop over a list of children. -/
def nameBytesL : List ResourceNode → Nat
  | [] => 0
  | child :: rest => nameRecordBytes child + nameBytes child + nameBytesL rest
end

mutual
/-- Name-region bytes that `compute_resources_size` counts for a tree: `2 * length + 3` for
every node with a non-empty name, the root included. -/
def plannedNameBytes : ResourceNode → Nat
  | .directory _ name _ childs =>
    (if name ≠ [] then 2 + name.length * 2 + 1 else 0) + plannedNameBytesL childs
  | .data _ name _ _ => if name ≠ [] then 2 + name.length * 2 + 1 else 0
/-- Name-region bytes counted for a list of trees. -/
def plannedNameBytesL : List ResourceNode → Nat
  | [] => 0
  | child :: rest => plannedNameBytes child + plannedNameBytesL rest
end

/-! ## The relocation encoding in the words of spec §4.3 -/

/-- `n` rounded up to a multiple of `a` ("rounded up to a 4-byte boundary"). -/
def roundUp (n a : Nat) : Nat := (n + a - 1) / a * a

/-- The encoding of one relocation block as spec §4.3 words it: the header {PageRVA,
BlockSize} as two 4-byte little-endian values, BlockSize being `entryCount × 2 + 8` rounded
up to a multiple of 4; each entry as 2 little-endian bytes; zero bytes up to a 4-byte
boundary. -/
def encodeRelocationBlock (r : Relocation) : List Nat :=
  le32 r.virtual_address ++ le32 (roundUp (r.entries.length * 2 + 8) 4)
    ++ r.entries.flatMap le16
    ++ List.replicate
        (roundUp (8 + r.entries.length * 2) 4 - (8 + r.entries.length * 2)) 0

/-! ## Reading the history of a build -/

/-- Whether an event is the call of one of the four rebuild steps. -/
def Event.isStep : Event → Bool
  | .build_tls => true
  | .build_relocation => true
  | .build_resources => true
  | .build_import_table => true
  | _ => false

/-- Whether an event is a write of the header, data-directory or section writers. -/
def Event.isWrite (e : Event) : Bool := !e.isStep

/-- The file-header records written, in order. -/
def written_headers (history : List Event) : List pe_header :=
  history.filterMap fun e =>
    match e with
    | .header _ record => some record
    | _ => none

/-- Example collaborators: `add_section` places the section at virtual address 0x1000 and
appends it; the storage of a new name holds the bytes 0x45, 0x46, ... after its terminator; the
other collaborators do nothing. -/
def example_collaborators : Collaborators :=
  { name_tail := fun _ i => 0x45 + i,
    build_tls := fun _ m => m,
    build_import_table := fun _ _ m => m,
    build_optional_header := fun _ o => o.payload,
    add_section := fun m s _ =>
      ({ m with sections := m.sections ++ [{ s with virtual_address := 0x1000 }] },
        m.sections.length) }

/-- Example section. -/
def example_section : Section :=
  { Section.named ".text" (fun i => 0x45 + i) with
                               virtual_address := 0x400, size := 4, offset := 0x200,
                               pointerto_raw_data := 0x200, content := [1, 2, 3, 4] }

/-- Example model with `sections` as its section table: it has relocations (one block) and a
resource tree (one directory with two Data children). -/
def example_binary (sections : List Section) : Binary :=
  { type := PE_TYPE.PE32,
    dos_header :=
      { magic := 0x5A4D, used_bytes_in_the_last_page := 0, file_size_in_pages := 0,
        numberof_relocation := 0, header_size_in_paragraphs := 0,
        minimum_extra_paragraphs := 0, maximum_extra_paragraphs := 0,
        initial_relative_ss := 0, initial_sp := 0, checksum := 0, initial_ip := 0,
        initial_relative_cs := 0, addressof_relocation_table := 0, overlay_number := 0,
        reserved := [0, 0, 0, 0], oem_id := 0, oem_info := 0,
        reserved2 := [0, 0, 0, 0, 0, 0, 0, 0, 0, 0], addressof_new_exeheader := 0x80 },
    header :=
      { signature := [0x50, 0x45, 0, 0], machine := 0x14C, time_date_stamp := 0,
        pointerto_symbol_table := 0, numberof_symbols := 0, sizeof_optional_header := 0,
        characteristics := 0 },
    optional_header := { file_alignment := 512, payload := [] },
    data_directories := [{ RVA := 0, size := 0 }],
    sections := sections,
    resources := some
      (.directory 0 [] ⟨0, 0, 0, 0, 0, 2⟩ [.data 1 [] [0xAA] 0, .data 2 [] [0xBB, 0xCC] 0]),
    relocations := [{ virtual_address := 0x1000, entries := [0x3010, 0x3018] }],
    has_tls := false, has_relocations := true, has_resources := true, has_imports := false }

/-- Relation: `b2` is `b1` after some writes other than the file header: same model, same
flags, and a history extended by such write events only. -/
def WritesOnly (b1 b2 : Builder) : Prop :=
  b2.binary_ = b1.binary_ ∧ b2.build_imports_ = b1.build_imports_ ∧
  b2.patch_imports_ = b1.patch_imports_ ∧ b2.build_relocations_ = b1.build_relocations_ ∧
  b2.build_tls_ = b1.build_tls_ ∧ b2.build_resources_ = b1.build_resources_ ∧
  ∃ evs, b2.history = b1.history ++ evs ∧ (∀ e ∈ evs, e.isWrite = true) ∧
    written_headers evs = []

/-- Relation: `b2` has the flags and the output sink of `b1`. -/
def SameSettings (b1 b2 : Builder) : Prop :=
  b2.build_imports_ = b1.build_imports_ ∧ b2.patch_imports_ = b1.patch_imports_ ∧
  b2.build_relocations_ = b1.build_relocations_ ∧ b2.build_tls_ = b1.build_tls_ ∧
  b2.build_resources_ = b1.build_resources_ ∧ b2.ios_ = b1.ios_

/-- The section that `build_relocation` hands to `add_section` for the model `m`. -/
def new_relocation_section (ext : Collaborators) (m : Binary) : Section :=
  { Section.named ".l5" (ext.name_tail ".l5") with
    characteristics := 0x42000040,
    content := build_relocation_content m.relocations m.optional_header.file_alignment }

/-- Example builder: the example model with one section, only the relocation flag enabled. -/
def example_builder : Builder :=
  (Builder.new (example_binary [example_section])).set_build_relocations true

/-! ## The stores of the serializer, in program order -/

/-- The three regions of the resource buffer. -/
inductive RegionKind where
  | header
  | name
  | data
  deriving DecidableEq

/-- One store into the buffer: the region its cursor belongs to, the buffer offset, and the
bytes copied there. -/
structure Store where
  region : RegionKind
  offset : Nat
  bytes : List Nat

/-- The end offset of a store. -/
def Store.stop (s : Store) : Nat := s.offset + s.bytes.length

/-- Carrying out a list of stores on a buffer, first to last. -/
def replay (stores : List Store) (content : Option (List Nat)) : Option (List Nat) :=
  stores.foldl (fun c s => copy_to c s.offset s.bytes) content

/-- The stores of `construct_name`: the 16-bit length and the code units of the name. -/
def name_stores (child : ResourceNode) (st : BuildState) : List Store :=
  if namedFlag child.id then
    [{ region := .name, offset := st.offsetToName,
       bytes := le16 (child.name.length % 2 ^ 16) },
     { region := .name, offset := st.offsetToName + 2, bytes := child.name.flatMap le16 }]
  else []

mutual
/-- The stores of `construct_resources` on a node, in program order (the recursion and the
states are those of `construct_resources`). -/
def stores (node : ResourceNode) (st : BuildState) (baseRVA : Nat) : List Store :=
  match node with
  | .directory _ _ attrs childs =>
    let content := copy_to st.content st.offsetToHeader
      ((rsrcHeader attrs).bytes.take ResourceDirectoryTableSize)
    let offsetToHeader := (st.offsetToHeader + ResourceDirectoryTableSize) % 2 ^ 32
    let currentOffset := offsetToHeader
    let offsetToHeader :=
      (offsetToHeader + childs.length * ResourceDirectoryEntriesSize) % 2 ^ 32
    { region := .header, offset := st.offsetToHeader,
      bytes := (rsrcHeader attrs).bytes.take ResourceDirectoryTableSize } ::
    stores_childs childs
      { st with content := content, offsetToHeader := offsetToHeader } currentOffset baseRVA
  | .data _ _ content codePage =>
    [{ region := .header, offset := st.offsetToHeader,
       bytes := (dataHeader content codePage baseRVA st.offsetToData).bytes.take
        ResourceDataEntrySize },
     { region := .data, offset := st.offsetToData, bytes := content }]
/-- The stores of the child loop of `construct_resources`, in program order. -/
def stores_childs (childs : List ResourceNode) (st : BuildState) (currentOffset baseRVA : Nat) :
    List Store :=
  match childs with
  | [] => []
  | child :: rest =>
    let n := construct_name child st
    let st1 := n.2
    let entry := (entryHeader child.isDirectory n.1 st1.offsetToHeader).bytes.take
      ResourceDirectoryEntriesSize
    let content := copy_to st1.content currentOffset entry
    let r := construct_resources child { st1 with content := content } baseRVA
    name_stores child st ++
    ({ region := .header, offset := currentOffset, bytes := entry } ::
     (stores child { st1 with content := content } baseRVA ++
      stores_childs rest r.2 ((currentOffset + ResourceDirectoryEntriesSize) % 2 ^ 32)
        baseRVA))
end

/-- Reading `n` bytes of a buffer at `off`; `none` when the range is not inside the buffer. -/
def readAt (buf : List Nat) (off n : Nat) : Option (List Nat) :=
  if off + n ≤ buf.length then some ((buf.drop off).take n) else none

/-- Two stores that touch no common byte. -/
def Store.Disjoint (s t : Store) : Prop := s.stop ≤ t.offset ∨ t.stop ≤ s.offset

/-! ## Layout hypotheses -/

/-- The cursors of `st` leave room for the subtree `n`: the header bytes of `n` end at or
before `N0`, where the name region starts; its name bytes end at or before `D0`, where the data
region starts; its data bytes end at or before `L`; and `L` fits in 32 bits. -/
def Layout (N0 D0 L : Nat) (n : ResourceNode) (st : BuildState) : Prop :=
  st.offsetToHeader + headerBytes n ≤ N0 ∧ N0 ≤ st.offsetToName ∧
  st.offsetToName + nameBytes n ≤ D0 ∧ D0 ≤ st.offsetToData ∧
  st.offsetToData + dataBytes n ≤ L ∧ L < 2 ^ 32

/-- The same for the child loop: the entry slots `[currentOffset, currentOffset + 8 * length)`
lie before the header cursor, and the subtrees of the children have room. -/
def LayoutL (N0 D0 L : Nat) (cs : List ResourceNode) (st : BuildState) (currentOffset : Nat) :
    Prop :=
  currentOffset + cs.length * ResourceDirectoryEntriesSize ≤ st.offsetToHeader ∧
  st.offsetToHeader + headerBytesL cs ≤ N0 ∧ N0 ≤ st.offsetToName ∧
  st.offsetToName + nameBytesL cs ≤ D0 ∧ D0 ≤ st.offsetToData ∧
  st.offsetToData + dataBytesL cs ≤ L ∧ L < 2 ^ 32

/-- A store lies in the part of its region that belongs to the subtree `n` serialized from
the cursors of `st`. -/
def Store.InNode (w : Store) (n : ResourceNode) (st : BuildState) : Prop :=
  (w.region = .header →
    st.offsetToHeader ≤ w.offset ∧ w.stop ≤ st.offsetToHeader + headerBytes n) ∧
  (w.region = .name →
    st.offsetToName ≤ w.offset ∧ w.stop ≤ st.offsetToName + nameBytes n) ∧
  (w.region = .data →
    st.offsetToData ≤ w.offset ∧ w.stop ≤ st.offsetToData + dataBytes n)

/-- A store lies in the part of its region that belongs to the child loop over `cs`: the entry
slots or the subtrees of the children for a header store. -/
def Store.InChilds (w : Store) (cs : List ResourceNode) (st : BuildState)
    (currentOffset : Nat) : Prop :=
  (w.region = .header →
    (currentOffset ≤ w.offset ∧
      w.stop ≤ currentOffset + cs.length * ResourceDirectoryEntriesSize) ∨
    (st.offsetToHeader ≤ w.offset ∧ w.stop ≤ st.offsetToHeader + headerBytesL cs)) ∧
  (w.region = .name →
    st.offsetToName ≤ w.offset ∧ w.stop ≤ st.offsetToName + nameBytesL cs) ∧
  (w.region = .data →
    st.offsetToData ≤ w.offset ∧ w.stop ≤ st.offsetToData + dataBytesL cs)

/-- The state in which the child loop of a directory starts (lines 301–312): the table record
is stored, the header cursor is past the table and the entry slots. -/
def loop_state (attrs : DirectoryAttributes) (childs : List ResourceNode) (st : BuildState) :
    BuildState :=
  { st with
    content := (copy_to st.content st.offsetToHeader
      ((rsrcHeader attrs).bytes.take ResourceDirectoryTableSize)),
    offsetToHeader := ((st.offsetToHeader + ResourceDirectoryTableSize) % 2 ^ 32
      + childs.length * ResourceDirectoryEntriesSize) % 2 ^ 32 }

/-- The state in which `construct_resources` is called on `child` by the loop (lines 353 and
365): the name is flushed and the directory entry is stored at `currentOffset`. -/
def call_state (child : ResourceNode) (st : BuildState) (currentOffset : Nat) : BuildState :=
  { (construct_name child st).2 with
    content := (copy_to (construct_name child st).2.content currentOffset
      ((entryHeader child.isDirectory (construct_name child st).1
        (construct_name child st).2.offsetToHeader).bytes.take ResourceDirectoryEntriesSize)) }

/-! ## The id/name invariant and the calls of the serializer -/

/-- Spec §3, the invariant on one node: the id carries the named flag exactly when the name
is non-empty. -/
def flag_agrees (n : ResourceNode) : Bool := namedFlag n.id == !n.name.isEmpty

mutual
/-- Every node strictly below `n` satisfies the id/name invariant. -/
def names_agree : ResourceNode → Bool
  | .directory _ _ _ childs => names_agreeL childs
  | .data _ _ _ _ => true
/-- Every node of the trees in the list satisfies the id/name invariant. -/
def names_agreeL : List ResourceNode → Bool
  | [] => true
  | child :: rest => flag_agrees child && names_agree child && names_agreeL rest
end

/-- The data-model invariant of spec §3 on a whole tree, root included. -/
def id_name_invariant (n : ResourceNode) : Bool := flag_agrees n && names_agree n

mutual
/-- `P` holds of every call `construct_resources(node, state)` and `Q` of every iteration
`(child, state, currentOffset)` of the child loop that happen while `construct_resources`
serializes a node from a state: the call itself, the iterations of its loop, and, recursively,
the calls made by the loop, each with the state in which it happens. -/
def ForallCalls (P : ResourceNode → BuildState → Prop) (Q : ResourceNode → BuildState → Nat → Prop)
    (baseRVA : Nat) : ResourceNode → BuildState → Prop
  | .directory id name attrs childs, st =>
    P (.directory id name attrs childs) st ∧
    ForallCallsL P Q baseRVA childs (loop_state attrs childs st)
      ((st.offsetToHeader + ResourceDirectoryTableSize) % 2 ^ 32)
  | .data id name content codePage, st => P (.data id name content codePage) st
/-- The calls and iterations of the child loop over a list of children. -/
def ForallCallsL (P : ResourceNode → BuildState → Prop)
    (Q : ResourceNode → BuildState → Nat → Prop) (baseRVA : Nat) :
    List ResourceNode → BuildState → Nat → Prop
  | [], _, _ => True
  | child :: rest, st, currentOffset =>
    Q child st currentOffset ∧
    ForallCalls P Q baseRVA child (call_state child st currentOffset) ∧
    ForallCallsL P Q baseRVA rest
      (construct_resources child (call_state child st currentOffset) baseRVA).2
      ((currentOffset + ResourceDirectoryEntriesSize) % 2 ^ 32)
end

/-- The three size totals of a tree, computed without wrap-around, add up to less than
2^32. -/
def SizesFit (n : ResourceNode) : Prop :=
  24 * nodeCount n + plannedNameBytes n + dataBytes n < 2 ^ 32

/-- What C2 says of one call of `construct_resources`, for the final buffer `buf`: when the
node is a Data node, its data-entry record is in the buffer at the header cursor of the call,
the DataRVA of that record minus `baseRVA` (32-bit arithmetic) is the data cursor of the call,
the buffer holds the content at that offset, one zero pad byte follows the content, and the
call leaves the data cursor just past the pad byte (where the content of the next Data node
begins). -/
def DataPlaced (buf : List Nat) (baseRVA : Nat) (node : ResourceNode) (st : BuildState) : Prop :=
  ∀ id name content codePage, node = .data id name content codePage →
    readAt buf st.offsetToHeader ResourceDataEntrySize
      = some (dataHeader content codePage baseRVA st.offsetToData).bytes ∧
    ((dataHeader content codePage baseRVA st.offsetToData).DataRVA + 2 ^ 32
      - baseRVA % 2 ^ 32) % 2 ^ 32 = st.offsetToData ∧
    readAt buf st.offsetToData content.length = some content ∧
    buf[st.offsetToData + content.length]? = some 0 ∧
    (construct_resources node st baseRVA).2.offsetToData
      = st.offsetToData + content.length + 1

/-- The directory-entry store of one iteration of the child loop. -/
def entry_store (child : ResourceNode) (st : BuildState) (currentOffset : Nat) : Store :=
  { region := .header, offset := currentOffset,
    bytes := (entryHeader child.isDirectory (construct_name child st).1
      (construct_name child st).2.offsetToHeader).bytes.take ResourceDirectoryEntriesSize }

/-- What C3 says of one iteration of the child loop, for a buffer `buf`: when the id of the
child carries the named flag, the buffer holds at the name cursor the 16-bit length of the
name (reduced modulo 2^16) and, two bytes further, the code units of the name in order, two
little-endian bytes each. -/
def NamePlaced (buf : List Nat) (child : ResourceNode) (st : BuildState) : Prop :=
  namedFlag child.id = true →
    readAt buf st.offsetToName 2 = some (le16 (child.name.length % 2 ^ 16)) ∧
    readAt buf (st.offsetToName + 2) (2 * child.name.length) = some (child.name.flatMap le16)

/-! ## A reader of the PE resource format -/

/-- Reading a little-endian 16-bit value at `off`. -/
def read16 (buf : List Nat) (off : Nat) : Option Nat := (readAt buf off 2).map fromLE

/-- Reading a little-endian 32-bit value at `off`. -/
def read32 (buf : List Nat) (off : Nat) : Option Nat := (readAt buf off 4).map fromLE

/-- The UTF-16 code units held by a sequence of bytes, two little-endian bytes each. -/
def decode16 : List Nat → List Nat
  | lo :: hi :: rest => (lo + 256 * hi) :: decode16 rest
  | _ => []

/-- Reading a name: a 16-bit length followed by that many UTF-16 code units. -/
def read_name (buf : List Nat) (off : Nat) : Option (List Nat) :=
  (read16 buf off).bind fun length => (readAt buf (off + 2) (2 * length)).map decode16

/-- Reading `count` directory entries from `off` on. Each entry is a NameID and an RVA; a
NameID with the top bit set is the offset (low 31 bits) of the name of the child; an RVA with
the top bit set says that the child is a directory; the low 31 bits of the RVA are the offset
of the record of the child, read by `read_child`. -/
def read_entries (read_child : Nat → List Nat → Bool → Nat → Option ResourceNode)
    (buf : List Nat) : Nat → Nat → Option (List ResourceNode)
  | _, 0 => some []
  | off, count + 1 =>
    (read32 buf off).bind fun NameID =>
    (read32 buf (off + 4)).bind fun RVA =>
    (if 2 ^ 31 ≤ NameID then read_name buf (NameID % 2 ^ 31) else some []).bind fun name =>
    (read_child NameID name (decide (2 ^ 31 ≤ RVA)) (RVA % 2 ^ 31)).bind fun child =>
    (read_entries read_child buf (off + 8) count).map fun rest => child :: rest

/-- Modelled from the spec: the independent reader of spec §8, in the words of the PE resource
format: a directory table at an offset, NumberOfNameEntries + NumberOfIDEntries entries after
it, and a data entry whose content is read at DataRVA - baseRVA (32-bit arithmetic) with the
recorded Size. The id and the name of a node come from the entry that leads to it. `fuel`
bounds the depth that is followed. -/
def read_node (fuel : Nat) (buf : List Nat) (baseRVA : Nat) (id : Nat) (name : List Nat)
    (isDirectory : Bool) (off : Nat) : Option ResourceNode :=
  match fuel with
  | 0 => none
  | fuel + 1 =>
    if isDirectory then
      (read32 buf off).bind fun characteristics =>
      (read32 buf (off + 4)).bind fun timeDateStamp =>
      (read16 buf (off + 8)).bind fun majorVersion =>
      (read16 buf (off + 10)).bind fun minorVersion =>
      (read16 buf (off + 12)).bind fun numberOfNameEntries =>
      (read16 buf (off + 14)).bind fun numberOfIDEntries =>
      (read_entries (read_node fuel buf baseRVA) buf (off + 16)
        (numberOfNameEntries + numberOfIDEntries)).map fun childs =>
        .directory id name
          { characteristics := characteristics, timeDateStamp := timeDateStamp,
            majorVersion := majorVersion, minorVersion := minorVersion,
            numberOfNameEntries := numberOfNameEntries,
            numberOfIDEntries := numberOfIDEntries } childs
    else
      (read32 buf off).bind fun DataRVA =>
      (read32 buf (off + 4)).bind fun Size =>
      (read32 buf (off + 8)).bind fun Codepage =>
      (readAt buf ((DataRVA + 2 ^ 32 - baseRVA % 2 ^ 32) % 2 ^ 32) Size).map fun content =>
        .data id name content Codepage

/-- Reading a whole resource section: the root is the directory table at offset 0; no entry
leads to it, so it gets the id 0 and no name. -/
def read_resources (fuel : Nat) (buf : List Nat) (baseRVA : Nat) : Option ResourceNode :=
  read_node fuel buf baseRVA 0 [] true 0

mutual
/-- The depth of a tree (a single node has depth 1). -/
def depth : ResourceNode → Nat
  | .directory _ _ _ childs => 1 + depthL childs
  | .data _ _ _ _ => 1
/-- The largest depth among a list of trees. -/
def depthL : List ResourceNode → Nat
  | [] => 0
  | child :: rest => max (depth child) (depthL rest)
end

/-- The assignment of a name to a node. -/
def ResourceNode.setName (v : List Nat) : ResourceNode → ResourceNode
  | .directory i _ a cs => .directory i v a cs
  | .data i _ c p => .data i v c p

/-! ## Well-formed trees for the round trip -/

/-- The attributes of a directory are in the range of their fields. -/
def attrs_typed (a : DirectoryAttributes) : Bool :=
  decide (a.characteristics < 2 ^ 32) && decide (a.timeDateStamp < 2 ^ 32) &&
  decide (a.majorVersion < 2 ^ 16) && decide (a.minorVersion < 2 ^ 16) &&
  decide (a.numberOfNameEntries < 2 ^ 16) && decide (a.numberOfIDEntries < 2 ^ 16)

/-- A child that an entry can describe: a 32-bit id that agrees with the name (spec §3), a
name short enough for its 16-bit length, made of 16-bit code units. -/
def child_ok (c : ResourceNode) : Bool :=
  decide (c.id < 2 ^ 32) && flag_agrees c && decide (c.name.length < 2 ^ 16) &&
  c.name.all (fun u => decide (u < 2 ^ 16))

mutual
/-- A tree that the on-disk format can describe below its root: every directory records as
many entries (named plus id) as it has children and has typed attributes, every Data node has
a 32-bit code page, and every child is one that an entry can describe. -/
def well_formed : ResourceNode → Bool
  | .directory _ _ attrs childs =>
    attrs_typed attrs &&
    decide (attrs.numberOfNameEntries + attrs.numberOfIDEntries = childs.length) &&
    well_formedL childs
  | .data _ _ _ codePage => decide (codePage < 2 ^ 32)
/-- The same for a list of children. -/
def well_formedL : List ResourceNode → Bool
  | [] => true
  | child :: rest => child_ok child && well_formed child && well_formedL rest
end

/-! ## Isomorphic trees -/

/-- The entry data of a child agrees with that of the child it is compared with: same name,
and same id when the id is a number, the named flag when it is the named sentinel. -/
def same_entry (c c' : ResourceNode) : Bool :=
  c.name == c'.name && (if namedFlag c.id then namedFlag c'.id else c.id == c'.id)

mutual
/-- Two trees are isomorphic: same kind of node, same directory attributes, same content
bytes and code page, same number of children in the same order, pairwise isomorphic and with
agreeing entry data. The id and the name of the two roots themselves are not compared. -/
def isomorphic : ResourceNode → ResourceNode → Bool
  | .directory _ _ a cs, .directory _ _ a' cs' =>
    a.characteristics == a'.characteristics && a.timeDateStamp == a'.timeDateStamp &&
    a.majorVersion == a'.majorVersion && a.minorVersion == a'.minorVersion &&
    a.numberOfNameEntries == a'.numberOfNameEntries &&
    a.numberOfIDEntries == a'.numberOfIDEntries && isomorphicL cs cs'
  | .data _ _ c p, .data _ _ c' p' => c == c' && p == p'
  | _, _ => false
/-- Two lists of children are isomorphic. -/
def isomorphicL : List ResourceNode → List ResourceNode → Bool
  | [], [] => true
  | c :: cs, c' :: cs' => same_entry c c' && isomorphic c c' && isomorphicL cs cs'
  | _, _ => false
end

/-! ## Serializing and reading back -/

/-- Serializing a tree with `build_resources` and reading the produced buffer back with the
reader, following at most `fuel` levels. -/
def serialize_then_read (node : ResourceNode) (file_alignment baseRVA fuel : Nat) :
    Option ResourceNode :=
  (build_resources_content node file_alignment baseRVA).2.content.bind fun buf =>
    read_resources fuel buf baseRVA

/-- A small resource tree: a named sub-directory with one Data node, and an unnamed Data
node. -/
def example_resources : ResourceNode :=
  .directory 0 [] ⟨0, 0, 1, 0, 1, 1⟩
    [.directory 0x80000000 [0x41, 0x42] ⟨0, 0, 0, 0, 0, 1⟩ [.data 1 [] [0xAA] 0x4E4],
     .data 2 [] [0xBB, 0xCC] 0]

/-- Example model that reports resources but has no resource tree root. -/
def example_binary_without_root : Binary :=
  { example_binary [example_section] with resources := none }

/-! ## The three phases of the writers of `Builder::build` -/

/-- Lines 127–129 of `Builder::build`: the DOS header, the file header and the optional
header are written. -/
def Builder.build_headers (ext : Collaborators) (b : Builder) : Builder :=
  let b := Builder.put_DosHeader b b.binary_.dos_header
  let b := Builder.put_Header b b.binary_.header
  Builder.put_OptionalHeader ext b b.binary_.optional_header

/-- Lines 131–139 of `Builder::build`: every data directory of the model is written, then the
zero-valued `last_one`. -/
def Builder.build_data_directories (b : Builder) : Builder :=
  let b := b.binary_.data_directories.foldl Builder.put_DataDirectory b
  Builder.put_DataDirectory b { RVA := 0, size := 0 }

/-- Lines 143–146 of `Builder::build`: every section of the model is written. -/
def Builder.build_sections (b : Builder) : Builder :=
  b.binary_.sections.foldl Builder.put_Section b

/-- Consecutive data-directory entries from `offset` on: one 8-byte record per descriptor, in
order, each at the offset where the one before it ends. -/
def directory_writes (offset : Nat) : List DataDirectory → List Event
  | [] => []
  | d :: ds =>
    Event.data_directory offset
      { RelativeVirtualAddress := d.RVA % 2 ^ 32, Size := d.size % 2 ^ 32 } ::
    directory_writes (offset + 8) ds

/-- Consecutive section headers from `offset` on: one 40-byte record per section, in order,
each followed by the write of the content of the section at the offset of the section. -/
def section_writes (offset : Nat) : List Section → List Event
  | [] => []
  | s :: ss =>
    Event.section_header offset (Builder.section_header s) ::
    Event.section_content s.offset s.content :: section_writes (offset + 40) ss

/-- Whether an event is the write of a data-directory entry. -/
def Event.isDataDirectory : Event → Bool
  | .data_directory _ _ => true
  | _ => false

/-- The bytes of a data-directory table in the words of spec §4.1: for each descriptor its RVA
and its size, four little-endian bytes each. -/
def directory_table_bytes (ds : List DataDirectory) : List Nat :=
  ds.flatMap fun d => le32 d.RVA ++ le32 d.size

/-- Example model whose DOS header records the new header at 0x10080, beyond 64 KiB. -/
def example_binary_far_header : Binary :=
  { example_binary [example_section] with
    dos_header :=
      { (example_binary [example_section]).dos_header with addressof_new_exeheader := 0x10080 } }

/-- Example section whose content (6 bytes at offset 0x200) is longer than its declared raw
size (4 bytes). -/
def example_oversized_section : Section :=
  { Section.named ".data" (fun i => 0x45 + i) with
                               virtual_address := 0x800, size := 4, offset := 0x200,
                               pointerto_raw_data := 0x200, content := [1, 2, 3, 4, 5, 6] }

/-- Lines 225–229 of `Builder::build_resources`: the three totals that
`compute_resources_size` yields from accumulators set to 0. -/
def resource_totals (node : ResourceNode) : ResourceSizes :=
  compute_resources_size node { headerSize := 0, dataSize := 0, nameSize := 0 }

/-! ## The totals of the size pass in the words of spec §4.2 -/

mutual
/-- Number of Directory nodes of a tree. -/
def directoryCount : ResourceNode → Nat
  | .directory _ _ _ childs => 1 + directoryCountL childs
  | .data _ _ _ _ => 0
/-- Number of Directory nodes of a list of trees. -/
def directoryCountL : List ResourceNode → Nat
  | [] => 0
  | child :: rest => directoryCount child + directoryCountL rest
end

mutual
/-- Number of Data nodes of a tree. -/
def dataCount : ResourceNode → Nat
  | .directory _ _ _ childs => dataCountL childs
  | .data _ _ _ _ => 1
/-- Number of Data nodes of a list of trees. -/
def dataCountL : List ResourceNode → Nat
  | [] => 0
  | child :: rest => dataCount child + dataCountL rest
end

/-- Header-region bytes as spec §4.2 counts them: one directory-entry size per node, one
directory-table size per Directory node, one data-entry size per Data node. -/
def plannedHeaderBytes (n : ResourceNode) : Nat :=
  nodeCount n * ResourceDirectoryEntriesSize + directoryCount n * ResourceDirectoryTableSize
    + dataCount n * ResourceDataEntrySize

/-! ## The iterations of the child loop -/

/-- The iterations of the loop `for (ResourceNode* child : node->childs())` of
`construct_resources` (lines 317–367), in order: the child, the state at the start of the
iteration and the value of `currentOffset` (the states are those of
`construct_resources_childs`). -/
def loop_iterations (childs : List ResourceNode) (st : BuildState)
    (currentOffset baseRVA : Nat) : List (ResourceNode × BuildState × Nat) :=
  match childs with
  | [] => []
  | child :: rest =>
    (child, st, currentOffset) ::
    loop_iterations rest
      (construct_resources child (call_state child st currentOffset) baseRVA).2
      ((currentOffset + ResourceDirectoryEntriesSize) % 2 ^ 32) baseRVA

/-- Lines 343–345 and 355–358: the directory-entry record that the loop builds for `child` in
the iteration that starts in state `st`: its NameID is the id of the child after the name step,
its RVA comes from the header cursor. -/
def entry_record (child : ResourceNode) (st : BuildState) : pe_resource_directory_entries :=
  entryHeader child.isDirectory (construct_name child st).1
    (construct_name child st).2.offsetToHeader

/-- A directory with one Data child. -/
def example_small_directory : ResourceNode :=
  .directory 0 [] ⟨0, 0, 0, 0, 0, 1⟩ [.data 1 [] [0xAA] 0]

/-! ## The tree after the serializer, in the words of spec §4.2 -/

mutual
/-- The tree that spec §4.2 says the serializer leaves, and the name cursor it ends with, for
a node serialized with the name cursor at `nameCursor`: nothing changes but the ids of the
children that carry the named sentinel. -/
def spec_rewrite_ids : ResourceNode → Nat → ResourceNode × Nat
  | .directory id name attrs childs, nameCursor =>
    (.directory id name attrs (spec_rewrite_idsL childs nameCursor).1,
      (spec_rewrite_idsL childs nameCursor).2)
  | .data id name content codePage, nameCursor => (.data id name content codePage, nameCursor)
/-- The children in order: "if the child's id carries the named sentinel: write its name at
nameCursor; rewrite the child's id to sentinel | nameCursor; advance nameCursor by
2 × length + 2 + 1 bytes"; then the subtree of the child, then the next child. -/
def spec_rewrite_idsL : List ResourceNode → Nat → List ResourceNode × Nat
  | [], nameCursor => ([], nameCursor)
  | child :: rest, nameCursor =>
    if namedFlag child.id then
      ((spec_rewrite_ids child
          ((nameCursor + (2 * child.name.length + 2 + 1)) % 2 ^ 32)).1.setId
          (0x80000000 ||| nameCursor) ::
        (spec_rewrite_idsL rest (spec_rewrite_ids child
          ((nameCursor + (2 * child.name.length + 2 + 1)) % 2 ^ 32)).2).1,
       (spec_rewrite_idsL rest (spec_rewrite_ids child
          ((nameCursor + (2 * child.name.length + 2 + 1)) % 2 ^ 32)).2).2)
    else
      ((spec_rewrite_ids child nameCursor).1 ::
        (spec_rewrite_idsL rest (spec_rewrite_ids child nameCursor).2).1,
       (spec_rewrite_idsL rest (spec_rewrite_ids child nameCursor).2).2)
end

/-- What C18 says of one iteration of the child loop of `construct_resources`, on `child`
from the state `st`: when the id of the child carries the named flag, its name is stored at
the name cursor of `st` and its id becomes 0x80000000 | that cursor, which is also the NameID
of its directory entry; when it does not, the id is kept; in both cases the NameID of the entry
is the id after this step (as a 32-bit value), the child that the loop leaves in the tree
has that id, and, when the entry fits in the buffer, the 32-bit value that the buffer holds at
`currentOffset` when `construct_resources` is called on the child is that id. -/
def IdRewritten (baseRVA : Nat) (child : ResourceNode) (st : BuildState) (currentOffset : Nat) :
    Prop :=
  (namedFlag child.id = true →
    (construct_name child st).1 = 0x80000000 ||| st.offsetToName ∧
    (entry_record child st).NameID = 0x80000000 ||| st.offsetToName ∧
    ((name_stores child st).head?).map Store.offset = some st.offsetToName) ∧
  (namedFlag child.id = false → (construct_name child st).1 = child.id) ∧
  (entry_record child st).NameID = (construct_name child st).1 % 2 ^ 32 ∧
  (∀ rest, ((construct_resources_childs (child :: rest) st currentOffset baseRVA).1.head?).map
    ResourceNode.id = some (construct_name child st).1) ∧
  ∀ buf, (construct_name child st).2.content = some buf →
    currentOffset + ResourceDirectoryEntriesSize ≤ buf.length →
    (call_state child st currentOffset).content.bind (fun b => read32 b currentOffset)
      = some ((construct_name child st).1 % 2 ^ 32)

/-- A directory with two Data children, the first with the given content, the second with a
content of one byte. -/
def two_data_tree (content : List Nat) : ResourceNode :=
  .directory 0 [] ⟨0, 0, 0, 0, 0, 2⟩ [.data 1 [] content 0, .data 2 [] [0xAA] 0]

/-! # Properties -/

/-! ## Induction over resource trees -/

theorem ResourceNode.induction (P : ResourceNode → Prop) (Q : List ResourceNode → Prop)
    (hdir : ∀ id name attrs cs, Q cs → P (.directory id name attrs cs))
    (hdata : ∀ id name c p, P (.data id name c p))
    (hnil : Q [])
    (hcons : ∀ c cs, P c → Q cs → Q (c :: cs)) : (∀ n, P n) ∧ (∀ cs, Q cs) :=
  ⟨fun n => @ResourceNode.rec P Q hdir hdata hnil hcons n,
   fun cs => @ResourceNode.rec_1 P Q hdir hdata hnil hcons cs⟩

/-! ## Cursor arithmetic of the two passes -/

theorem construct_name_offsetToHeader (child : ResourceNode) (st : BuildState) :
    (construct_name child st).2.offsetToHeader = st.offsetToHeader := by
  unfold construct_name
  split <;> rfl

theorem construct_name_offsetToData (child : ResourceNode) (st : BuildState) :
    (construct_name child st).2.offsetToData = st.offsetToData := by
  unfold construct_name
  split <;> rfl

theorem construct_name_offsetToName (child : ResourceNode) (st : BuildState)
    (h : st.offsetToName < 2 ^ 32) :
    (construct_name child st).2.offsetToName
      = (st.offsetToName + nameRecordBytes child) % 2 ^ 32 := by
  unfold construct_name nameRecordBytes
  split
  · simp_all
  · simp_all
    omega

theorem compute_headerSize :
    (∀ n : ResourceNode, ∀ acc, (compute_resources_size n acc).headerSize
        = (acc.headerSize + 24 * nodeCount n) % 2 ^ 32) ∧
    (∀ cs : List ResourceNode, ∀ acc, acc.headerSize < 2 ^ 32 →
      (compute_resources_size_childs cs acc).headerSize
        = (acc.headerSize + 24 * nodeCountL cs) % 2 ^ 32) := by
  apply ResourceNode.induction
  · intro id name attrs cs ih acc
    rw [compute_resources_size, ih _ (Nat.mod_lt _ (by norm_num))]
    simp only [ResourceDirectoryTableSize, ResourceDirectoryEntriesSize, nodeCount]
    omega
  · intro id name c p acc
    simp only [compute_resources_size, ResourceDataEntrySize, ResourceDirectoryEntriesSize,
      nodeCount]
    omega
  · intro acc h
    simp only [compute_resources_size_childs, nodeCountL]
    omega
  · intro c cs ihc ihcs acc h
    rw [compute_resources_size_childs, ihcs _ (by rw [ihc]; exact Nat.mod_lt _ (by norm_num)),
      ihc]
    simp only [nodeCountL]
    omega

theorem construct_offsetToHeader :
    (∀ n : ResourceNode, ∀ st baseRVA, (construct_resources n st baseRVA).2.offsetToHeader
        = (st.offsetToHeader + headerBytes n) % 2 ^ 32) ∧
    (∀ cs : List ResourceNode, ∀ st cur baseRVA, st.offsetToHeader < 2 ^ 32 →
      (construct_resources_childs cs st cur baseRVA).2.offsetToHeader
        = (st.offsetToHeader + headerBytesL cs) % 2 ^ 32) := by
  apply ResourceNode.induction
  · intro id name attrs cs ih st baseRVA
    rw [construct_resources]
    simp only []
    rw [ih _ _ _ (Nat.mod_lt _ (by norm_num))]
    simp only [ResourceDirectoryTableSize, ResourceDirectoryEntriesSize, headerBytes]
    omega
  · intro id name c p st baseRVA
    simp only [construct_resources, ResourceDirectoryTableSize, headerBytes]
  · intro st cur baseRVA h
    simp only [construct_resources_childs, headerBytesL]
    omega
  · intro c cs ihc ihcs st cur baseRVA h
    rw [construct_resources_childs]
    simp only []
    rw [ihcs _ _ _ (by rw [ihc]; exact Nat.mod_lt _ (by norm_num)), ihc]
    simp only [headerBytesL, construct_name_offsetToHeader]
    omega

theorem headerBytes_nodeCount :
    (∀ n : ResourceNode, headerBytes n + 8 = 24 * nodeCount n) ∧
    (∀ cs : List ResourceNode, headerBytesL cs + 8 * cs.length = 24 * nodeCountL cs) := by
  apply ResourceNode.induction
  · intro id name attrs cs ih
    simp only [headerBytes, nodeCount, ResourceDirectoryTableSize, ResourceDirectoryEntriesSize]
    omega
  · intro id name c p
    simp only [headerBytes, nodeCount, ResourceDirectoryTableSize]
  · simp [headerBytesL, nodeCountL]
  · intro c cs ihc ihcs
    simp only [headerBytesL, nodeCountL, List.length_cons]
    omega

/-! ## C1: header cursor after serialization versus planned header size -/

/-- C1, counterexample: for the tree that is a single Data root (empty content), serialized by
`build_resources` from header cursor 0, the header cursor ends at 16 while
`compute_resources_size` plans a header region of 24 bytes: the two differ. -/
theorem C1_counterexample :
    (build_resources_content (.data 1 [] [] 0) 512 0x1000).2.offsetToHeader = 16 ∧
    (compute_resources_size (.data 1 [] [] 0)
      { headerSize := 0, dataSize := 0, nameSize := 0 }).headerSize = 24 ∧
    (build_resources_content (.data 1 [] [] 0) 512 0x1000).2.offsetToHeader ≠
      (compute_resources_size (.data 1 [] [] 0)
        { headerSize := 0, dataSize := 0, nameSize := 0 }).headerSize := by
  decide

/-- C1, amended: for every resource tree of any depth, every buffer, every start value of the
name and data cursors and every base RVA, when `construct_resources` starts from header cursor
0 the header cursor it ends with, advanced by one directory-entry size (the entry slot that
the size pass counts for the root, which has no entry), equals modulo 2^32 the `headerSize`
total of `compute_resources_size`. -/
theorem C1_header_cursor_plus_entry_eq_headerSize (node : ResourceNode) (st : BuildState)
    (baseRVA : Nat) (h0 : st.offsetToHeader = 0) :
    ((construct_resources node st baseRVA).2.offsetToHeader + ResourceDirectoryEntriesSize)
        % 2 ^ 32
      = (compute_resources_size node
          { headerSize := 0, dataSize := 0, nameSize := 0 }).headerSize := by
  rw [construct_offsetToHeader.1, compute_headerSize.1, h0]
  have h := headerBytes_nodeCount.1 node
  simp only [ResourceDirectoryEntriesSize]
  omega

/-- C1, witness: the amended statement at the tree of one directory with two Data children. -/
theorem C1_header_cursor_plus_entry_eq_headerSize_witness :
    (64 + ResourceDirectoryEntriesSize) % 2 ^ 32 = 72 ∧
    ((construct_resources
        (.directory 0 [] ⟨0, 0, 0, 0, 0, 2⟩ [.data 1 [] [0xAA] 0, .data 2 [] [0xBB, 0xCC] 0])
        { content := some (List.replicate 77 0), offsetToHeader := 0, offsetToData := 72,
          offsetToName := 72 } 0x1000).2.offsetToHeader + ResourceDirectoryEntriesSize)
        % 2 ^ 32
      = (compute_resources_size
          (.directory 0 [] ⟨0, 0, 0, 0, 0, 2⟩ [.data 1 [] [0xAA] 0, .data 2 [] [0xBB, 0xCC] 0])
          { headerSize := 0, dataSize := 0, nameSize := 0 }).headerSize :=
  ⟨by decide, C1_header_cursor_plus_entry_eq_headerSize _ _ _ rfl⟩

/-! ## Stores into the buffer -/

theorem copy_to_some_append (pre mid post src : List Nat) (off : Nat)
    (hpre : pre.length = off) (hmid : mid.length = src.length) :
    copy_to (some (pre ++ mid ++ post)) off src = some (pre ++ src ++ post) := by
  subst hpre
  simp [copy_to, hmid, List.take_append_eq_append_take, List.drop_append_eq_append_drop]

theorem construct_name_of_not_flag (child : ResourceNode) (st : BuildState)
    (h : namedFlag child.id = false) : construct_name child st = (child.id, st) := by
  simp only [construct_name, h]
  simp

/-! ## C5: the scenario of one directory with two unnamed Data children -/

theorem scenario_sizes (attrs : DirectoryAttributes) : compute_resources_size
      (.directory 0 [] attrs [.data 1 [] [0xAA] 0, .data 2 [] [0xBB, 0xCC] 0])
      { headerSize := 0, dataSize := 0, nameSize := 0 }
      = { headerSize := 72, dataSize := 5, nameSize := 0 } := by
  simp [compute_resources_size, compute_resources_size_childs,
    ResourceDirectoryTableSize, ResourceDirectoryEntriesSize, ResourceDataEntrySize]

theorem scenario_construct (attrs : DirectoryAttributes) (pad : List Nat) (baseRVA : Nat) :
    (construct_resources
      (.directory 0 [] attrs [.data 1 [] [0xAA] 0, .data 2 [] [0xBB, 0xCC] 0])
      { content := some (List.replicate 77 0 ++ pad), offsetToHeader := 0,
        offsetToName := 72, offsetToData := 72 } baseRVA).2.content
    = some ((rsrcHeader attrs).bytes
        ++ (entryHeader false 1 32).bytes ++ (entryHeader false 2 48).bytes
        ++ (dataHeader [0xAA] 0 baseRVA 72).bytes
        ++ (dataHeader [0xBB, 0xCC] 0 baseRVA 74).bytes
        ++ List.replicate 8 0
        ++ [0xAA, 0x00, 0xBB, 0xCC, 0x00]
        ++ pad) := by
  have h1 : namedFlag (ResourceNode.data 1 [] [0xAA] 0).id = false := by decide
  have h2 : namedFlag (ResourceNode.data 2 [] [0xBB, 0xCC] 0).id = false := by decide
  simp only [construct_resources, construct_resources_childs,
    construct_name_of_not_flag _ _ h1, construct_name_of_not_flag _ _ h2,
    ResourceDirectoryTableSize, ResourceDirectoryEntriesSize, ResourceDataEntrySize,
    ResourceNode.id, ResourceNode.isDirectory, List.length_cons, List.length_nil,
    Nat.reduceAdd, Nat.reducePow, Nat.reduceMod, Nat.reduceMul]
  simp [copy_to, pe_resource_directory_table.bytes, pe_resource_directory_entries.bytes,
    pe_resource_data_entry.bytes, le32, le16, List.replicate]

/-- C5, counterexample: for the scenario tree (here with directory attributes 0, 0, 0, 0, 0, 2)
the header region that `build_resources` lays out, `[0, headerSize)`, is 72 bytes long, which
is not the sum of the sizes of one directory-table, two directory-entry and two data-entry
records (64 bytes); the data region starts at offset 72. -/
theorem C5_counterexample :
    (compute_resources_size
      (.directory 0 [] ⟨0, 0, 0, 0, 0, 2⟩ [.data 1 [] [0xAA] 0, .data 2 [] [0xBB, 0xCC] 0])
      { headerSize := 0, dataSize := 0, nameSize := 0 }).headerSize = 72 ∧
    ResourceDirectoryTableSize + 2 * ResourceDirectoryEntriesSize + 2 * ResourceDataEntrySize
      = 64 ∧
    (compute_resources_size
      (.directory 0 [] ⟨0, 0, 0, 0, 0, 2⟩ [.data 1 [] [0xAA] 0, .data 2 [] [0xBB, 0xCC] 0])
      { headerSize := 0, dataSize := 0, nameSize := 0 }).headerSize ≠
    ResourceDirectoryTableSize + 2 * ResourceDirectoryEntriesSize
      + 2 * ResourceDataEntrySize := by
  decide

/-- C5, amended: for the tree of one Directory root (any attributes) with two unnamed Data
children (ids 1 and 2, contents [0xAA] and [0xBB, 0xCC]), any file alignment and any base RVA,
the size pass plans a header region of 72 bytes (the five records plus one directory-entry
size), a name region of 0 bytes and a data region of 5 bytes, and the buffer that
`build_resources` produces is: the directory-table record, the two directory-entry records
(pointing at header offsets 32 and 48), the two data-entry records (data at offsets 72 and 74),
8 zero bytes that end the header region, the data region [0xAA, 0x00, 0xBB, 0xCC, 0x00], and
the zero padding up to the file alignment. -/
theorem C5_scenario_buffer (attrs : DirectoryAttributes) (file_alignment baseRVA : Nat) :
    compute_resources_size
      (.directory 0 [] attrs [.data 1 [] [0xAA] 0, .data 2 [] [0xBB, 0xCC] 0])
      { headerSize := 0, dataSize := 0, nameSize := 0 }
      = { headerSize := ResourceDirectoryTableSize + 2 * ResourceDirectoryEntriesSize
            + 2 * ResourceDataEntrySize + ResourceDirectoryEntriesSize,
          dataSize := 5, nameSize := 0 } ∧
    (build_resources_content
      (.directory 0 [] attrs [.data 1 [] [0xAA] 0, .data 2 [] [0xBB, 0xCC] 0])
      file_alignment baseRVA).2.content
    = some ((rsrcHeader attrs).bytes
        ++ (entryHeader false 1 32).bytes ++ (entryHeader false 2 48).bytes
        ++ (dataHeader [0xAA] 0 baseRVA 72).bytes
        ++ (dataHeader [0xBB, 0xCC] 0 baseRVA 74).bytes
        ++ List.replicate 8 0
        ++ [0xAA, 0x00, 0xBB, 0xCC, 0x00]
        ++ List.replicate (align 77 file_alignment - 77) 0) := by
  refine ⟨scenario_sizes attrs, ?_⟩
  unfold build_resources_content build_resources_state
  rw [scenario_sizes]
  simp only [Nat.reduceAdd, Nat.reducePow, Nat.reduceMod, List.length_replicate]
  exact scenario_construct attrs _ baseRVA

/-! ## Relocation encoder -/

theorem le32_mod (v : Nat) : le32 (v % 2 ^ 32) = le32 v := by
  simp only [le32, List.cons.injEq, and_true]
  refine ⟨?_, ?_, ?_, ?_⟩ <;> omega

theorem le16_mod (v : Nat) : le16 (v % 2 ^ 16) = le16 v := by
  simp only [le16, List.cons.injEq, and_true]
  refine ⟨?_, ?_⟩ <;> omega

theorem le32_length (v : Nat) : (le32 v).length = 4 := rfl

theorem le16_length (v : Nat) : (le16 v).length = 2 := rfl

theorem flatMap_le16_length (xs : List Nat) : (xs.flatMap le16).length = 2 * xs.length := by
  induction xs with
  | nil => rfl
  | cons x xs ih => simp only [List.flatMap_cons, List.length_append, ih, le16_length,
      List.length_cons]; omega

theorem align_four (v : Nat) : align v 4 = roundUp v 4 := by
  unfold align roundUp
  split <;> omega

theorem align_eq_roundUp (v a : Nat) (ha : 0 < a) : align v a = roundUp v a := by
  unfold align roundUp
  have hdm := Nat.div_add_mod v a
  by_cases hr : 0 < v % a
  · rw [if_pos ⟨ha, hr⟩]
    have h1 : v + a - 1 = (v % a - 1) + a * (v / a + 1) := by
      rw [Nat.mul_add, Nat.mul_one]; omega
    have h2 : v % a - 1 < a := by have := Nat.mod_lt v ha; omega
    rw [h1, Nat.add_mul_div_left _ _ ha, Nat.div_eq_of_lt h2, Nat.zero_add, Nat.add_mul,
      Nat.one_mul, Nat.mul_comm (v / a) a]
    omega
  · rw [if_neg (by omega)]
    have h0 : v % a = 0 := by omega
    have h1 : v + a - 1 = (a - 1) + a * (v / a) := by omega
    have h2 : a - 1 < a := by omega
    rw [h1, Nat.add_mul_div_left _ _ ha, Nat.div_eq_of_lt h2, Nat.zero_add,
      Nat.mul_comm (v / a) a]
    omega

theorem align_mod (v a : Nat) (ha : 0 < a) : align v a % a = 0 := by
  rw [align_eq_roundUp v a ha, roundUp]
  exact Nat.mul_mod_left _ _

theorem le_align (v a : Nat) : v ≤ align v a := by
  unfold align
  split <;> omega

theorem align_le_of_multiple (v a m : Nat) (hm : m % a = 0) (hv : v ≤ m) : align v a ≤ m := by
  unfold align
  split
  · rename_i h
    obtain ⟨ha, hr⟩ := h
    have h1 := Nat.div_add_mod v a
    have h2 := Nat.div_add_mod m a
    rw [hm, Nat.add_zero] at h2
    have h3 : v / a < m / a := by
      by_contra hc
      have h4 : m / a ≤ v / a := by omega
      have h5 : a * (m / a) ≤ a * (v / a) := Nat.mul_le_mul_left a h4
      have h6 : v = m := by omega
      rw [h6, hm] at hr
      omega
    have h7 : a * (v / a + 1) ≤ a * (m / a) := Nat.mul_le_mul_left a h3
    rw [Nat.mul_add, Nat.mul_one] at h7
    have := Nat.mod_lt v ha
    omega
  · exact hv

theorem entries_foldl (entries : List Nat) (content : List Nat) :
    entries.foldl (fun c entry => c ++ le16 (entry % 2 ^ 16)) content
      = content ++ entries.flatMap le16 := by
  induction entries generalizing content with
  | nil => simp
  | cons e es ih => rw [List.foldl_cons, ih, le16_mod, List.flatMap_cons, List.append_assoc]

theorem relocation_header_bytes (r : Relocation) :
    (relocation_header r).bytes
      = le32 r.virtual_address ++ le32 (roundUp (r.entries.length * 2 + 8) 4) := by
  have h : align ((r.entries.length * 2 + 8) % 2 ^ 32) 4 % 2 ^ 32
      = roundUp (r.entries.length * 2 + 8) 4 % 2 ^ 32 := by
    unfold align roundUp
    split <;> omega
  simp only [relocation_header, pe_base_relocation_block.bytes, le32_mod, h]

theorem encodeRelocationBlock_length (r : Relocation) :
    (encodeRelocationBlock r).length % 4 = 0 := by
  simp only [encodeRelocationBlock, List.length_append, le32_length, flatMap_le16_length,
    List.length_replicate, roundUp]
  omega

theorem build_relocation_block_eq (content : List Nat) (r : Relocation)
    (h : content.length % 4 = 0) :
    build_relocation_block content r = content ++ encodeRelocationBlock r := by
  simp only [build_relocation_block, entries_foldl, relocation_header_bytes,
    encodeRelocationBlock, List.append_assoc, List.length_append, le32_length,
    flatMap_le16_length, align_four, roundUp]
  congr 5
  omega

theorem build_relocation_foldl (rs : List Relocation) (content : List Nat)
    (h : content.length % 4 = 0) :
    rs.foldl build_relocation_block content = content ++ rs.flatMap encodeRelocationBlock := by
  induction rs generalizing content with
  | nil => simp
  | cons r rs ih =>
    rw [List.foldl_cons, build_relocation_block_eq content r h, ih, List.flatMap_cons,
      List.append_assoc]
    rw [List.length_append]
    have := encodeRelocationBlock_length r
    omega

/-- C6: for every list of relocation blocks the content built by `build_relocation` before the
file-alignment padding is the concatenation, in model order, of the encodings of the blocks
(PageRVA and BlockSize as 4 little-endian bytes each, BlockSize = entryCount × 2 + 8 rounded up
to a multiple of 4, every entry as 2 little-endian bytes, zero bytes up to a 4-byte boundary).
For a single block with PageRVA 0x1000 and two entries this is an 8-byte header followed by
4 bytes of entry data, 12 bytes in total, and the section content is these 12 bytes followed
by zero bytes up to the file alignment. -/
theorem C6_relocation_encoding (relocations : List Relocation) :
    build_relocation_blocks relocations = relocations.flatMap encodeRelocationBlock ∧
    ∀ e1 e2 file_alignment : Nat,
      build_relocation_blocks [{ virtual_address := 0x1000, entries := [e1, e2] }]
        = (le32 0x1000 ++ le32 12) ++ (le16 e1 ++ le16 e2) ∧
      (le32 0x1000 ++ le32 12).length = 8 ∧
      (le16 e1 ++ le16 e2).length = 4 ∧
      (build_relocation_blocks [{ virtual_address := 0x1000, entries := [e1, e2] }]).length
        = 12 ∧
      build_relocation_content [{ virtual_address := 0x1000, entries := [e1, e2] }]
          file_alignment
        = (le32 0x1000 ++ le32 12) ++ (le16 e1 ++ le16 e2)
            ++ List.replicate (roundUp 12 file_alignment - 12) 0 := by
  have key : ∀ rs : List Relocation,
      build_relocation_blocks rs = rs.flatMap encodeRelocationBlock := by
    intro rs
    rw [build_relocation_blocks, build_relocation_foldl rs [] rfl, List.nil_append]
  refine ⟨key relocations, ?_⟩
  intro e1 e2 file_alignment
  have hb : build_relocation_blocks [{ virtual_address := 0x1000, entries := [e1, e2] }]
      = (le32 0x1000 ++ le32 12) ++ (le16 e1 ++ le16 e2) := by
    rw [key]
    simp [encodeRelocationBlock, roundUp]
  refine ⟨hb, rfl, rfl, ?_, ?_⟩
  · rw [hb]; rfl
  · rw [build_relocation_content, hb]
    have hl : ((le32 0x1000 ++ le32 12) ++ (le16 e1 ++ le16 e2)).length = 12 := rfl
    simp only [hl]
    rcases Nat.eq_zero_or_pos file_alignment with h0 | hpos
    · subst h0
      simp [align, roundUp]
    · rw [align_eq_roundUp 12 file_alignment hpos]

/-- C7: for every list of relocation blocks and every positive file alignment, every BlockSize
that `build_relocation` writes is a multiple of 4, and the length of the content given to the
new relocation section is a multiple of the file alignment, is at least the unpadded length,
and is the smallest such multiple. -/
theorem C7_relocation_alignment (relocations : List Relocation) (file_alignment : Nat)
    (hfa : 0 < file_alignment) :
    (∀ r ∈ relocations, (relocation_header r).BlockSize % 4 = 0) ∧
    (build_relocation_content relocations file_alignment).length % file_alignment = 0 ∧
    (build_relocation_blocks relocations).length
      ≤ (build_relocation_content relocations file_alignment).length ∧
    ∀ m : Nat, m % file_alignment = 0 → (build_relocation_blocks relocations).length ≤ m →
      (build_relocation_content relocations file_alignment).length ≤ m := by
  have hlen : (build_relocation_content relocations file_alignment).length
      = align (build_relocation_blocks relocations).length file_alignment := by
    simp only [build_relocation_content, List.length_append, List.length_replicate]
    have := le_align (build_relocation_blocks relocations).length file_alignment
    omega
  refine ⟨?_, ?_, ?_, ?_⟩
  · intro r _
    simp only [relocation_header, align]
    split <;> omega
  · rw [hlen]; exact align_mod _ _ hfa
  · rw [hlen]; exact le_align _ _
  · intro m hm hle
    rw [hlen]; exact align_le_of_multiple _ _ m hm hle

/-- C7, witness: one block with two entries and file alignment 512. -/
theorem C7_relocation_alignment_witness :
    0 < 512 ∧
    (∀ r ∈ [({ virtual_address := 0x1000, entries := [0x3010, 0x3018] } : Relocation)],
      (relocation_header r).BlockSize % 4 = 0) ∧
    (build_relocation_content [{ virtual_address := 0x1000, entries := [0x3010, 0x3018] }]
      512).length % 512 = 0 ∧
    (build_relocation_blocks [{ virtual_address := 0x1000, entries := [0x3010, 0x3018] }]).length
      ≤ (build_relocation_content
          [{ virtual_address := 0x1000, entries := [0x3010, 0x3018] }] 512).length ∧
    ∀ m : Nat, m % 512 = 0 →
      (build_relocation_blocks
        [{ virtual_address := 0x1000, entries := [0x3010, 0x3018] }]).length ≤ m →
      (build_relocation_content
        [{ virtual_address := 0x1000, entries := [0x3010, 0x3018] }] 512).length ≤ m :=
  ⟨by decide,
    C7_relocation_alignment [{ virtual_address := 0x1000, entries := [0x3010, 0x3018] }] 512
      (by decide)⟩

/-! ## The build orchestrator -/

theorem WritesOnly.refl (b : Builder) : WritesOnly b b :=
  ⟨rfl, rfl, rfl, rfl, rfl, rfl, [], by simp, by simp, rfl⟩

theorem WritesOnly.trans {b1 b2 b3 : Builder} (h12 : WritesOnly b1 b2) (h23 : WritesOnly b2 b3) :
    WritesOnly b1 b3 := by
  obtain ⟨a1, a2, a3, a4, a5, a6, e1, he1, hw1, hh1⟩ := h12
  obtain ⟨c1, c2, c3, c4, c5, c6, e2, he2, hw2, hh2⟩ := h23
  refine ⟨c1.trans a1, c2.trans a2, c3.trans a3, c4.trans a4, c5.trans a5, c6.trans a6,
    e1 ++ e2, ?_, ?_, ?_⟩
  · rw [he2, he1, List.append_assoc]
  · intro e he
    rcases List.mem_append.1 he with h | h
    · exact hw1 e h
    · exact hw2 e h
  · simp only [written_headers, List.filterMap_append] at *
    rw [hh1, hh2]; rfl

theorem put_DosHeader_writesOnly (b : Builder) (d : DosHeader) :
    WritesOnly b (Builder.put_DosHeader b d) := by
  simp only [WritesOnly, Builder.put_DosHeader, true_and]
  exact ⟨_, rfl, by simp [Event.isWrite, Event.isStep], by simp [written_headers]⟩

theorem put_OptionalHeader_writesOnly (ext : Collaborators) (b : Builder) (o : OptionalHeader) :
    WritesOnly b (Builder.put_OptionalHeader ext b o) := by
  simp only [WritesOnly, Builder.put_OptionalHeader, true_and]
  exact ⟨_, rfl, by simp [Event.isWrite, Event.isStep], by simp [written_headers]⟩

theorem put_DataDirectory_writesOnly (b : Builder) (d : DataDirectory) :
    WritesOnly b (Builder.put_DataDirectory b d) := by
  simp only [WritesOnly, Builder.put_DataDirectory, true_and]
  exact ⟨_, rfl, by simp [Event.isWrite, Event.isStep], by simp [written_headers]⟩

theorem put_Section_writesOnly (b : Builder) (s : Section) :
    WritesOnly b (Builder.put_Section b s) := by
  simp only [WritesOnly, Builder.put_Section, true_and]
  exact ⟨_, rfl, by simp [Event.isWrite, Event.isStep], by simp [written_headers]⟩

theorem foldl_writesOnly {α : Type} (f : Builder → α → Builder)
    (hf : ∀ b a, WritesOnly b (f b a)) (xs : List α) (b : Builder) :
    WritesOnly b (xs.foldl f b) := by
  induction xs generalizing b with
  | nil => exact WritesOnly.refl b
  | cons x xs ih => exact WritesOnly.trans (hf b x) (ih (f b x))

/-- What `build_writes` does to the builder: the model and the flags are left alone, and the
history grows by the DOS-header write at offset 0, the file-header write (the record computed
from the model as it stands), and then write events that are not file-header writes. -/
theorem build_writes_spec (ext : Collaborators) (b : Builder) :
    (Builder.build_writes ext b).binary_ = b.binary_ ∧
    ∃ rest, (Builder.build_writes ext b).history
      = b.history ++ Event.dos_header 0 (Builder.dosHeader b.binary_.dos_header)
          :: Event.header (b.binary_.dos_header.addressof_new_exeheader % 2 ^ 32)
              (Builder.header b b.binary_.header) :: rest ∧
      (∀ e ∈ rest, e.isWrite = true) ∧ written_headers rest = [] := by
  unfold Builder.build_writes
  simp only []
  generalize hb2 : Builder.put_Header (Builder.put_DosHeader b b.binary_.dos_header)
    (Builder.put_DosHeader b b.binary_.dos_header).binary_.header = b2
  have h2b : b2.binary_ = b.binary_ := by
    rw [← hb2]; simp only [Builder.put_Header, Builder.put_DosHeader]
  have h2h : b2.history = b.history ++ [Event.dos_header 0 (Builder.dosHeader b.binary_.dos_header),
      Event.header (b.binary_.dos_header.addressof_new_exeheader % 2 ^ 32)
        (Builder.header b b.binary_.header)] := by
    rw [← hb2]
    simp only [Builder.put_Header, Builder.put_DosHeader, vector_iostream.seekp,
      vector_iostream.tellp, Builder.header, List.append_assoc, List.singleton_append]
  have w3 := put_OptionalHeader_writesOnly ext b2 b2.binary_.optional_header
  generalize Builder.put_OptionalHeader ext b2 b2.binary_.optional_header = b3 at w3 ⊢
  have w4 := foldl_writesOnly Builder.put_DataDirectory put_DataDirectory_writesOnly
    b3.binary_.data_directories b3
  generalize List.foldl Builder.put_DataDirectory b3 b3.binary_.data_directories = b4 at w4 ⊢
  have w5 := put_DataDirectory_writesOnly b4 { RVA := 0, size := 0 }
  generalize Builder.put_DataDirectory b4 { RVA := 0, size := 0 } = b5 at w5 ⊢
  have w6 := foldl_writesOnly Builder.put_Section put_Section_writesOnly
    b5.binary_.sections b5
  generalize List.foldl Builder.put_Section b5 b5.binary_.sections = b6 at w6 ⊢
  obtain ⟨hb, -, -, -, -, -, evs, hev, hw, hh⟩ :=
    WritesOnly.trans (WritesOnly.trans (WritesOnly.trans w3 w4) w5) w6
  refine ⟨hb.trans h2b, evs, ?_, hw, hh⟩
  rw [hev, h2h]
  simp

theorem build_step_tls_spec (ext : Collaborators) (b : Builder) :
    SameSettings b (Builder.build_step_tls ext b) ∧
    (Builder.build_step_tls ext b).binary_
      = (if b.binary_.has_tls && b.build_tls_ then ext.build_tls b.binary_.type b.binary_
         else b.binary_) ∧
    (Builder.build_step_tls ext b).history
      = b.history ++ (if b.binary_.has_tls && b.build_tls_ then [Event.build_tls] else []) := by
  unfold Builder.build_step_tls SameSettings
  split <;> simp

theorem build_step_relocation_spec (ext : Collaborators) (b : Builder) :
    SameSettings b (Builder.build_step_relocation ext b) ∧
    (Builder.build_step_relocation ext b).binary_
      = (if b.binary_.has_relocations && b.build_relocations_ then
          (ext.add_section b.binary_ (new_relocation_section ext b.binary_)
            SECTION_TYPES.RELOCATION).1
         else b.binary_) ∧
    (Builder.build_step_relocation ext b).history
      = b.history ++ (if b.binary_.has_relocations && b.build_relocations_ then
          [Event.build_relocation] else []) := by
  unfold Builder.build_step_relocation SameSettings
  split <;> simp [Builder.build_relocation, new_relocation_section]

theorem build_resources_frame (ext : Collaborators) (b b' : Builder) (node : ResourceNode)
    (h : Builder.build_resources ext b node = some b') :
    SameSettings b b' ∧ b'.history = b.history := by
  unfold Builder.build_resources at h
  simp only [] at h
  split at h
  · exact absurd h (by simp)
  · simp only [Option.some.injEq] at h
    subst h
    exact ⟨⟨rfl, rfl, rfl, rfl, rfl, rfl⟩, rfl⟩

theorem build_step_resources_spec (ext : Collaborators) (b b' : Builder)
    (h : Builder.build_step_resources ext b = some b') :
    SameSettings b b' ∧
    ((b.binary_.has_resources && b.binary_.resources.isSome && b.build_resources_) = false →
      b'.binary_ = b.binary_) ∧
    b'.history
      = b.history ++ (if b.binary_.has_resources && b.binary_.resources.isSome
          && b.build_resources_ then [Event.build_resources] else []) := by
  unfold Builder.build_step_resources at h
  split at h
  · rename_i node hnode
    split at h
    · rename_i hc
      obtain ⟨hs, hh⟩ := build_resources_frame ext _ b' node h
      simp only [Bool.and_eq_true] at hc
      refine ⟨hs, ?_, ?_⟩
      · simp [hnode, hc.1, hc.2]
      · simp [hh, hnode, hc.1, hc.2]
    · rename_i hc
      simp only [Option.some.injEq] at h
      subst h
      simp only [Bool.and_eq_true, not_and, Bool.not_eq_true] at hc
      refine ⟨⟨rfl, rfl, rfl, rfl, rfl, rfl⟩, fun _ => rfl, ?_⟩
      by_cases h1 : b.binary_.has_resources = true
      · simp [hc h1]
      · simp [h1]
  · rename_i hnone
    simp only [Option.some.injEq] at h
    subst h
    exact ⟨⟨rfl, rfl, rfl, rfl, rfl, rfl⟩, fun _ => rfl, by simp [hnone]⟩

theorem build_step_imports_spec (ext : Collaborators) (b : Builder) :
    SameSettings b (Builder.build_step_imports ext b) ∧
    (Builder.build_step_imports ext b).binary_
      = (if b.binary_.has_imports && b.build_imports_ then
          ext.build_import_table b.binary_.type b.patch_imports_ b.binary_
         else b.binary_) ∧
    (Builder.build_step_imports ext b).history
      = b.history ++ (if b.binary_.has_imports && b.build_imports_ then
          [Event.build_import_table] else []) := by
  unfold Builder.build_step_imports SameSettings
  split <;> simp

theorem build_resources_binary_congr (ext : Collaborators) (b1 b2 : Builder)
    (node : ResourceNode) (h : b1.binary_ = b2.binary_) :
    (Builder.build_resources ext b1 node).map Builder.binary_
      = (Builder.build_resources ext b2 node).map Builder.binary_ := by
  unfold Builder.build_resources
  simp only [h]
  split <;> simp

/-- What `build_steps` does: `m1`, `m2`, `m3` are the models seen by the tests of the
relocation, resource and import steps; each step changes the model only when its test holds;
the history records the calls made, in order; flags and sink are left alone. -/
theorem build_steps_spec (ext : Collaborators) (b s : Builder)
    (h : Builder.build_steps ext b = some s) :
    ∃ m1 m2 m3 : Binary,
      m1 = (if b.binary_.has_tls && b.build_tls_ then ext.build_tls b.binary_.type b.binary_
            else b.binary_) ∧
      m2 = (if m1.has_relocations && b.build_relocations_ then
              (ext.add_section m1 (new_relocation_section ext m1) SECTION_TYPES.RELOCATION).1
            else m1) ∧
      ((m2.has_resources && m2.resources.isSome && b.build_resources_) = false → m3 = m2) ∧
      (∀ node, m2.resources = some node → (m2.has_resources && b.build_resources_) = true →
        (Builder.build_resources ext { b with binary_ := m2 } node).map Builder.binary_
          = some m3) ∧
      s.binary_ = (if m3.has_imports && b.build_imports_ then
                    ext.build_import_table m3.type b.patch_imports_ m3 else m3) ∧
      s.history = b.history
        ++ ((if b.binary_.has_tls && b.build_tls_ then [Event.build_tls] else [])
        ++ (if m1.has_relocations && b.build_relocations_ then [Event.build_relocation] else [])
        ++ (if m2.has_resources && m2.resources.isSome && b.build_resources_ then
              [Event.build_resources] else [])
        ++ (if m3.has_imports && b.build_imports_ then [Event.build_import_table] else [])) ∧
      SameSettings b s := by
  unfold Builder.build_steps at h
  obtain ⟨s1, hm1, hh1⟩ := build_step_tls_spec ext b
  generalize Builder.build_step_tls ext b = b1 at h s1 hm1 hh1
  obtain ⟨s2, hm2, hh2⟩ := build_step_relocation_spec ext b1
  generalize Builder.build_step_relocation ext b1 = b2 at h s2 hm2 hh2
  cases h3 : Builder.build_step_resources ext b2 with
  | none => rw [h3] at h; exact absurd h (by simp)
  | some b3 =>
    rw [h3] at h
    simp only [Option.map_some', Option.some.injEq] at h
    obtain ⟨s3, hm3, hh3⟩ := build_step_resources_spec ext b2 b3 h3
    obtain ⟨s4, hm4, hh4⟩ := build_step_imports_spec ext b3
    rw [h] at s4 hm4 hh4
    obtain ⟨a1, a2, a3, a4, a5, a6⟩ := s1
    obtain ⟨c1, c2, c3, c4, c5, c6⟩ := s2
    obtain ⟨d1, d2, d3, d4, d5, d6⟩ := s3
    obtain ⟨e1, e2, e3, e4, e5, e6⟩ := s4
    refine ⟨b1.binary_, b2.binary_, b3.binary_, hm1, ?_, ?_, ?_, ?_, ?_, ?_⟩
    · rw [hm2, a3]
    · rw [← a5, ← c5]; exact hm3
    · intro node hnode hc
      unfold Builder.build_step_resources at h3
      rw [hnode] at h3
      simp only [] at h3
      rw [← a5, ← c5] at hc
      rw [if_pos hc] at h3
      have hcongr := build_resources_binary_congr ext { b with binary_ := b2.binary_ }
        { b2 with history := b2.history ++ [Event.build_resources] } node rfl
      rw [hcongr, h3]
      rfl
    · rw [hm4, d1, c1, a1, d2, c2, a2]
    · rw [hh4, hh3, hh2, hh1]
      simp only [d1, c1, a1, a3, c5, a5, List.append_assoc]
    · exact ⟨e1.trans (d1.trans (c1.trans a1)), e2.trans (d2.trans (c2.trans a2)),
        e3.trans (d3.trans (c3.trans a3)), e4.trans (d4.trans (c4.trans a4)),
        e5.trans (d5.trans (c5.trans a5)), e6.trans (d6.trans (c6.trans a6))⟩

theorem build_spec (ext : Collaborators) (b r : Builder) (h : Builder.build ext b = some r) :
    ∃ s rest, Builder.build_steps ext b = some s ∧ r.binary_ = s.binary_ ∧
      r.history = s.history ++ Event.dos_header 0 (Builder.dosHeader s.binary_.dos_header)
          :: Event.header (s.binary_.dos_header.addressof_new_exeheader % 2 ^ 32)
              (Builder.header s s.binary_.header) :: rest ∧
      (∀ e ∈ rest, e.isWrite = true) ∧ written_headers rest = [] := by
  unfold Builder.build at h
  cases hs : Builder.build_steps ext b with
  | none => rw [hs] at h; exact absurd h (by simp)
  | some s =>
    rw [hs] at h
    simp only [Option.map_some', Option.some.injEq] at h
    obtain ⟨hb, rest, hh, hw, hn⟩ := build_writes_spec ext s
    rw [h] at hb hh
    exact ⟨s, rest, rfl, hb, hh, hw, hn⟩

theorem build_of_resources_disabled (ext : Collaborators) (b : Builder)
    (hf : b.build_resources_ = false) :
    Builder.build ext b = some (Builder.build_writes ext (Builder.build_step_imports ext
      (Builder.build_step_relocation ext (Builder.build_step_tls ext b)))) := by
  have h1 := (build_step_tls_spec ext b).1
  have h2 := (build_step_relocation_spec ext (Builder.build_step_tls ext b)).1
  have hflag : (Builder.build_step_relocation ext
      (Builder.build_step_tls ext b)).build_resources_ = false := by
    rw [h2.2.2.2.2.1, h1.2.2.2.2.1, hf]
  unfold Builder.build Builder.build_steps
  generalize Builder.build_step_relocation ext (Builder.build_step_tls ext b) = b2 at hflag ⊢
  have h3 : Builder.build_step_resources ext b2 = some b2 := by
    unfold Builder.build_step_resources
    split
    · rw [hflag]; simp
    · rfl
  rw [h3]
  rfl

/-- The example builder: the example model with one section, built with only the relocation
flag enabled. -/
theorem example_build_completes :
    Builder.build example_collaborators
      example_builder
    = some (Builder.build_writes example_collaborators (Builder.build_step_imports
        example_collaborators (Builder.build_step_relocation example_collaborators
          (Builder.build_step_tls example_collaborators example_builder)))) :=
  build_of_resources_disabled _ _ rfl

/-- C10: whenever `build()` completes, with `m1`, `m2`, `m3` the models that the relocation,
resource and import tests see: the TLS, relocation and import steps are executed exactly when
the model has the feature and the flag is enabled, the resource step exactly when moreover the
resource root is present (a step that is not executed leaves the model as it is, a step that
is executed applies its builder to the model); the calls are recorded in the order TLS,
relocations, resources, imports; and every one of them precedes the writes (DOS header first,
then the file header, then the remaining header, data-directory and section writes). -/
theorem C10_steps_gated_and_ordered (ext : Collaborators) (b r : Builder)
    (h : Builder.build ext b = some r) :
    ∃ (m1 m2 m3 : Binary) (writes : List Event),
      m1 = (if b.binary_.has_tls && b.build_tls_ then ext.build_tls b.binary_.type b.binary_
            else b.binary_) ∧
      m2 = (if m1.has_relocations && b.build_relocations_ then
              (ext.add_section m1 (new_relocation_section ext m1) SECTION_TYPES.RELOCATION).1
            else m1) ∧
      ((m2.has_resources && m2.resources.isSome && b.build_resources_) = false → m3 = m2) ∧
      (∀ node, m2.resources = some node → (m2.has_resources && b.build_resources_) = true →
        (Builder.build_resources ext { b with binary_ := m2 } node).map Builder.binary_
          = some m3) ∧
      r.binary_ = (if m3.has_imports && b.build_imports_ then
                    ext.build_import_table m3.type b.patch_imports_ m3 else m3) ∧
      r.history = b.history
        ++ ((if b.binary_.has_tls && b.build_tls_ then [Event.build_tls] else [])
        ++ (if m1.has_relocations && b.build_relocations_ then [Event.build_relocation] else [])
        ++ (if m2.has_resources && m2.resources.isSome && b.build_resources_ then
              [Event.build_resources] else [])
        ++ (if m3.has_imports && b.build_imports_ then [Event.build_import_table] else []))
        ++ Event.dos_header 0 (Builder.dosHeader r.binary_.dos_header)
          :: Event.header (r.binary_.dos_header.addressof_new_exeheader % 2 ^ 32)
              (Builder.header r r.binary_.header) :: writes ∧
      (∀ e ∈ writes, e.isWrite = true) := by
  obtain ⟨s, rest, hs, hb, hh, hw, -⟩ := build_spec ext b r h
  obtain ⟨m1, m2, m3, h1, h2, h3, h3b, h4, hsh, -⟩ := build_steps_spec ext b s hs
  refine ⟨m1, m2, m3, rest, h1, h2, h3, h3b, hb.trans h4, ?_, hw⟩
  rw [hh, hsh]
  simp only [Builder.header, hb]

/-- C10, witness: the example model built with only the relocation flag enabled. -/
theorem C10_steps_gated_and_ordered_witness :
    ∃ r, Builder.build example_collaborators
        example_builder = some r ∧
      ∃ (m1 m2 m3 : Binary) (writes : List Event),
        m1 = (if example_builder.binary_.has_tls && example_builder.build_tls_ then example_collaborators.build_tls example_builder.binary_.type example_builder.binary_
              else example_builder.binary_) ∧
        m2 = (if m1.has_relocations && example_builder.build_relocations_ then
                (example_collaborators.add_section m1 (new_relocation_section example_collaborators m1)
                  SECTION_TYPES.RELOCATION).1
              else m1) ∧
        ((m2.has_resources && m2.resources.isSome && example_builder.build_resources_) = false → m3 = m2) ∧
        (∀ node, m2.resources = some node → (m2.has_resources && example_builder.build_resources_) = true →
          (Builder.build_resources example_collaborators { example_builder with binary_ := m2 } node).map Builder.binary_
            = some m3) ∧
        r.binary_ = (if m3.has_imports && example_builder.build_imports_ then
                      example_collaborators.build_import_table m3.type example_builder.patch_imports_ m3 else m3) ∧
        r.history = example_builder.history
          ++ ((if example_builder.binary_.has_tls && example_builder.build_tls_ then [Event.build_tls] else [])
          ++ (if m1.has_relocations && example_builder.build_relocations_ then [Event.build_relocation] else [])
          ++ (if m2.has_resources && m2.resources.isSome && example_builder.build_resources_ then
                [Event.build_resources] else [])
          ++ (if m3.has_imports && example_builder.build_imports_ then [Event.build_import_table] else []))
          ++ Event.dos_header 0 (Builder.dosHeader r.binary_.dos_header)
            :: Event.header (r.binary_.dos_header.addressof_new_exeheader % 2 ^ 32)
                (Builder.header r r.binary_.header) :: writes ∧
      (∀ e ∈ writes, e.isWrite = true) :=
  ⟨_, example_build_completes,
    C10_steps_gated_and_ordered _ _ _ example_build_completes⟩

theorem replay_append (xs ys : List Store) (c : Option (List Nat)) :
    replay (xs ++ ys) c = replay ys (replay xs c) := by
  simp [replay, List.foldl_append]

theorem replay_cons (x : Store) (xs : List Store) (c : Option (List Nat)) :
    replay (x :: xs) c = replay xs (copy_to c x.offset x.bytes) := rfl

theorem replay_nil (c : Option (List Nat)) : replay [] c = c := rfl

theorem construct_name_content (child : ResourceNode) (st : BuildState) :
    (construct_name child st).2.content = replay (name_stores child st) st.content := by
  unfold construct_name name_stores
  split <;> rfl

/-- The buffer that comes out of `construct_resources` is the buffer that went in with the
stores of the call carried out on it. -/
theorem construct_content :
    (∀ n : ResourceNode, ∀ st baseRVA,
      (construct_resources n st baseRVA).2.content
        = replay (stores n st baseRVA) st.content) ∧
    (∀ cs : List ResourceNode, ∀ st cur baseRVA,
      (construct_resources_childs cs st cur baseRVA).2.content
        = replay (stores_childs cs st cur baseRVA) st.content) := by
  apply ResourceNode.induction
  · intro id name attrs cs ih st baseRVA
    rw [construct_resources, stores]
    simp only [replay_cons]
    rw [ih]
  · intro id name content cp st baseRVA
    simp only [construct_resources, stores, replay_cons, replay_nil]
  · intro st cur baseRVA
    rfl
  · intro child cs ihc ihcs st cur baseRVA
    rw [construct_resources_childs, stores_childs]
    simp only [replay_append, replay_cons]
    rw [ihcs, ihc, construct_name_content]

/-! ## Reading a buffer after stores -/

theorem copy_to_some (buf src : List Nat) (off : Nat) (h : off + src.length ≤ buf.length) :
    copy_to (some buf) off src = some (buf.take off ++ src ++ buf.drop (off + src.length)) := by
  simp [copy_to, h]

theorem copy_to_length (buf buf' src : List Nat) (off : Nat)
    (h : copy_to (some buf) off src = some buf') : buf'.length = buf.length := by
  unfold copy_to at h
  simp only [] at h
  split at h
  · simp only [Option.some.injEq] at h
    subst h
    simp only [List.length_append, List.length_take, List.length_drop]
    omega
  · exact absurd h (by simp)

theorem copy_to_getElem? (buf src : List Nat) (off i : Nat)
    (h : off + src.length ≤ buf.length) :
    (buf.take off ++ src ++ buf.drop (off + src.length))[i]?
      = if off ≤ i ∧ i < off + src.length then src[i - off]? else buf[i]? := by
  have hlt : (buf.take off).length = off := by
    rw [List.length_take]; omega
  by_cases h1 : i < off
  · rw [if_neg (by omega), List.append_assoc, List.getElem?_append_left (by omega),
      List.getElem?_take_of_lt h1]
  · by_cases h2 : i < off + src.length
    · rw [if_pos ⟨by omega, h2⟩, List.append_assoc, List.getElem?_append_right (by omega),
        List.getElem?_append_left (by omega), hlt]
    · rw [if_neg (by omega), List.getElem?_append_right
        (by rw [List.length_append, hlt]; omega), List.getElem?_drop, List.length_append, hlt]
      congr 1
      omega

theorem readAt_eq_some (buf bytes : List Nat) (off : Nat)
    (hlen : off + bytes.length ≤ buf.length)
    (hget : ∀ j, j < bytes.length → buf[off + j]? = bytes[j]?) :
    readAt buf off bytes.length = some bytes := by
  unfold readAt
  rw [if_pos hlen]
  congr 1
  apply List.ext_getElem?
  intro j
  by_cases hj : j < bytes.length
  · rw [List.getElem?_take_of_lt hj, List.getElem?_drop, hget j hj]
  · rw [List.getElem?_eq_none (by rw [List.length_take, List.length_drop]; omega),
      List.getElem?_eq_none (by omega)]

theorem readAt_getElem? (buf bytes : List Nat) (off n : Nat)
    (h : readAt buf off n = some bytes) :
    off + n ≤ buf.length ∧ bytes.length = n ∧
      ∀ j, j < n → buf[off + j]? = bytes[j]? := by
  unfold readAt at h
  split at h
  · rename_i hle
    simp only [Option.some.injEq] at h
    subst h
    refine ⟨hle, by rw [List.length_take, List.length_drop]; omega, ?_⟩
    intro j hj
    rw [List.getElem?_take_of_lt hj, List.getElem?_drop]
  · exact absurd h (by simp)

theorem replay_ok (stores : List Store) (buf : List Nat)
    (hin : ∀ s ∈ stores, s.stop ≤ buf.length) :
    ∃ buf', replay stores (some buf) = some buf' ∧ buf'.length = buf.length ∧
      ∀ i, (∀ s ∈ stores, i < s.offset ∨ s.stop ≤ i) → buf'[i]? = buf[i]? := by
  induction stores generalizing buf with
  | nil => exact ⟨buf, rfl, rfl, fun _ _ => rfl⟩
  | cons s rest ih =>
    have hs : s.offset + s.bytes.length ≤ buf.length := hin s (List.mem_cons_self _ _)
    have hc := copy_to_some buf s.bytes s.offset hs
    have hl := copy_to_length buf _ s.bytes s.offset hc
    obtain ⟨buf', h1, h2, h3⟩ := ih (buf.take s.offset ++ s.bytes
        ++ buf.drop (s.offset + s.bytes.length))
      (fun t ht => by rw [hl]; exact hin t (List.mem_cons_of_mem _ ht))
    refine ⟨buf', by rw [replay_cons, hc, h1], h2.trans hl, ?_⟩
    intro i hi
    rw [h3 i (fun t ht => hi t (List.mem_cons_of_mem _ ht)), copy_to_getElem? buf s.bytes
      s.offset i hs]
    have := hi s (List.mem_cons_self _ _)
    unfold Store.stop at this
    rw [if_neg (by omega)]

theorem replay_holds (stores : List Store) (buf buf' : List Nat)
    (hin : ∀ s ∈ stores, s.stop ≤ buf.length)
    (hpw : stores.Pairwise Store.Disjoint)
    (h : replay stores (some buf) = some buf') :
    ∀ s ∈ stores, readAt buf' s.offset s.bytes.length = some s.bytes := by
  induction stores generalizing buf with
  | nil => intro s hs; exact absurd hs (List.not_mem_nil _)
  | cons s rest ih =>
    have hs : s.offset + s.bytes.length ≤ buf.length := hin s (List.mem_cons_self _ _)
    have hc := copy_to_some buf s.bytes s.offset hs
    have hl := copy_to_length buf _ s.bytes s.offset hc
    rw [replay_cons, hc] at h
    have hin' : ∀ t ∈ rest, t.stop ≤ (buf.take s.offset ++ s.bytes
        ++ buf.drop (s.offset + s.bytes.length)).length :=
      fun t ht => by rw [hl]; exact hin t (List.mem_cons_of_mem _ ht)
    rw [List.pairwise_cons] at hpw
    intro t ht
    rcases List.mem_cons.1 ht with rfl | ht'
    · obtain ⟨b2, h1, h2, h3⟩ := replay_ok rest _ hin'
      rw [h1] at h
      simp only [Option.some.injEq] at h
      subst h
      apply readAt_eq_some
      · rw [h2, hl]; exact hs
      · intro j hj
        rw [h3 (t.offset + j) (fun u hu => by
          have hd := hpw.1 u hu
          unfold Store.Disjoint Store.stop at hd
          unfold Store.stop
          omega), copy_to_getElem? buf t.bytes t.offset _ hs, if_pos (by omega)]
        congr 1
        omega
    · exact ih _ hin' hpw.2 h t ht'

/-! ## Unfolding the serializer one step -/

theorem construct_resources_directory (id : Nat) (name : List Nat) (attrs : DirectoryAttributes)
    (childs : List ResourceNode) (st : BuildState) (baseRVA : Nat) :
    construct_resources (.directory id name attrs childs) st baseRVA
      = (.directory id name attrs
          (construct_resources_childs childs (loop_state attrs childs st)
            ((st.offsetToHeader + ResourceDirectoryTableSize) % 2 ^ 32) baseRVA).1,
         (construct_resources_childs childs (loop_state attrs childs st)
            ((st.offsetToHeader + ResourceDirectoryTableSize) % 2 ^ 32) baseRVA).2) := by
  rw [construct_resources]; rfl

theorem construct_resources_childs_cons (child : ResourceNode) (rest : List ResourceNode)
    (st : BuildState) (cur baseRVA : Nat) :
    construct_resources_childs (child :: rest) st cur baseRVA
      = ((construct_resources child (call_state child st cur) baseRVA).1.setId
            (construct_name child st).1 ::
          (construct_resources_childs rest
            (construct_resources child (call_state child st cur) baseRVA).2
            ((cur + ResourceDirectoryEntriesSize) % 2 ^ 32) baseRVA).1,
         (construct_resources_childs rest
            (construct_resources child (call_state child st cur) baseRVA).2
            ((cur + ResourceDirectoryEntriesSize) % 2 ^ 32) baseRVA).2) := by
  rw [construct_resources_childs]; rfl

theorem stores_directory (id : Nat) (name : List Nat) (attrs : DirectoryAttributes)
    (childs : List ResourceNode) (st : BuildState) (baseRVA : Nat) :
    stores (.directory id name attrs childs) st baseRVA
      = { region := .header, offset := st.offsetToHeader,
          bytes := (rsrcHeader attrs).bytes.take ResourceDirectoryTableSize } ::
        stores_childs childs (loop_state attrs childs st)
          ((st.offsetToHeader + ResourceDirectoryTableSize) % 2 ^ 32) baseRVA := by
  rw [stores]; rfl

theorem stores_childs_cons (child : ResourceNode) (rest : List ResourceNode)
    (st : BuildState) (cur baseRVA : Nat) :
    stores_childs (child :: rest) st cur baseRVA
      = name_stores child st ++
        ({ region := .header, offset := cur,
           bytes := (entryHeader child.isDirectory (construct_name child st).1
            (construct_name child st).2.offsetToHeader).bytes.take
              ResourceDirectoryEntriesSize } ::
         (stores child (call_state child st cur) baseRVA ++
          stores_childs rest (construct_resources child (call_state child st cur) baseRVA).2
            ((cur + ResourceDirectoryEntriesSize) % 2 ^ 32) baseRVA)) := by
  rw [stores_childs]; rfl

/-! ## Exact cursors when nothing wraps -/

theorem loop_state_layout (N0 D0 L id : Nat) (name : List Nat) (attrs : DirectoryAttributes)
    (childs : List ResourceNode) (st : BuildState)
    (h : Layout N0 D0 L (.directory id name attrs childs) st) :
    (st.offsetToHeader + ResourceDirectoryTableSize) % 2 ^ 32 = st.offsetToHeader + 16 ∧
    (loop_state attrs childs st).offsetToHeader
      = st.offsetToHeader + 16 + childs.length * 8 ∧
    (loop_state attrs childs st).offsetToName = st.offsetToName ∧
    (loop_state attrs childs st).offsetToData = st.offsetToData ∧
    LayoutL N0 D0 L childs (loop_state attrs childs st) (st.offsetToHeader + 16) := by
  obtain ⟨h1, h2, h3, h4, h5, h6⟩ := h
  simp only [headerBytes, nameBytes, dataBytes, ResourceDirectoryTableSize,
    ResourceDirectoryEntriesSize] at h1 h3 h5
  have e1 : (st.offsetToHeader + ResourceDirectoryTableSize) % 2 ^ 32
      = st.offsetToHeader + 16 := by
    simp only [ResourceDirectoryTableSize]; omega
  have e2 : (loop_state attrs childs st).offsetToHeader
      = st.offsetToHeader + 16 + childs.length * 8 := by
    simp only [loop_state, ResourceDirectoryTableSize, ResourceDirectoryEntriesSize]; omega
  refine ⟨e1, e2, rfl, rfl, ?_⟩
  unfold LayoutL
  rw [e2]
  simp only [loop_state, ResourceDirectoryEntriesSize]
  omega

theorem construct_name_exact (child : ResourceNode) (st : BuildState)
    (h : st.offsetToName + nameRecordBytes child < 2 ^ 32) :
    (construct_name child st).2.offsetToName = st.offsetToName + nameRecordBytes child ∧
    (construct_name child st).2.offsetToHeader = st.offsetToHeader ∧
    (construct_name child st).2.offsetToData = st.offsetToData := by
  refine ⟨?_, construct_name_offsetToHeader child st, construct_name_offsetToData child st⟩
  rw [construct_name_offsetToName child st (by omega), Nat.mod_eq_of_lt h]

theorem call_state_cursors (child : ResourceNode) (st : BuildState) (cur : Nat)
    (h : st.offsetToName + nameRecordBytes child < 2 ^ 32) :
    (call_state child st cur).offsetToHeader = st.offsetToHeader ∧
    (call_state child st cur).offsetToName = st.offsetToName + nameRecordBytes child ∧
    (call_state child st cur).offsetToData = st.offsetToData := by
  obtain ⟨n1, n2, n3⟩ := construct_name_exact child st h
  exact ⟨n2, n1, n3⟩

theorem construct_exact :
    (∀ n : ResourceNode, ∀ st baseRVA N0 D0 L, Layout N0 D0 L n st →
      (construct_resources n st baseRVA).2.offsetToHeader = st.offsetToHeader + headerBytes n ∧
      (construct_resources n st baseRVA).2.offsetToName = st.offsetToName + nameBytes n ∧
      (construct_resources n st baseRVA).2.offsetToData = st.offsetToData + dataBytes n) ∧
    (∀ cs : List ResourceNode, ∀ st cur baseRVA N0 D0 L, LayoutL N0 D0 L cs st cur →
      (construct_resources_childs cs st cur baseRVA).2.offsetToHeader
        = st.offsetToHeader + headerBytesL cs ∧
      (construct_resources_childs cs st cur baseRVA).2.offsetToName
        = st.offsetToName + nameBytesL cs ∧
      (construct_resources_childs cs st cur baseRVA).2.offsetToData
        = st.offsetToData + dataBytesL cs) := by
  apply ResourceNode.induction
  · intro id name attrs cs ih st baseRVA N0 D0 L hl
    obtain ⟨e1, e2, e3, e4, hL⟩ := loop_state_layout N0 D0 L id name attrs cs st hl
    obtain ⟨r1, r2, r3⟩ := ih _ (st.offsetToHeader + 16) baseRVA N0 D0 L hL
    rw [construct_resources_directory, e1]
    simp only [headerBytes, nameBytes, dataBytes, ResourceDirectoryTableSize,
      ResourceDirectoryEntriesSize]
    rw [r1, r2, r3, e2, e3, e4]
    omega
  · intro id name content cp st baseRVA N0 D0 L hl
    obtain ⟨h1, h2, h3, h4, h5, h6⟩ := hl
    simp only [headerBytes, nameBytes, dataBytes, ResourceDirectoryTableSize] at h1 h3 h5
    simp only [construct_resources, headerBytes, nameBytes, dataBytes,
      ResourceDirectoryTableSize]
    omega
  · intro st cur baseRVA N0 D0 L _
    simp only [construct_resources_childs, headerBytesL, nameBytesL, dataBytesL]
    omega
  · intro c cs ihc ihcs st cur baseRVA N0 D0 L hl
    obtain ⟨h0, h1, h2, h3, h4, h5, h6⟩ := hl
    simp only [headerBytesL, nameBytesL, dataBytesL, List.length_cons,
      ResourceDirectoryEntriesSize] at h0 h1 h3 h5
    obtain ⟨a1, a2, a3⟩ := call_state_cursors c st cur (by omega)
    have hlc : Layout N0 D0 L c (call_state c st cur) := by
      unfold Layout; rw [a1, a2, a3]; omega
    obtain ⟨c1, c2, c3⟩ := ihc _ baseRVA N0 D0 L hlc
    rw [a1] at c1
    rw [a2] at c2
    rw [a3] at c3
    have hlr : LayoutL N0 D0 L cs (construct_resources c (call_state c st cur) baseRVA).2
        ((cur + ResourceDirectoryEntriesSize) % 2 ^ 32) := by
      unfold LayoutL; rw [c1, c2, c3]
      simp only [ResourceDirectoryEntriesSize]; omega
    obtain ⟨r1, r2, r3⟩ := ihcs _ _ baseRVA N0 D0 L hlr
    rw [c1] at r1
    rw [c2] at r2
    rw [c3] at r3
    rw [construct_resources_childs_cons]
    simp only [headerBytesL, nameBytesL, dataBytesL]
    rw [r1, r2, r3]
    omega

/-! ## Where the stores go -/

theorem rsrcHeader_bytes_length (attrs : DirectoryAttributes) :
    ((rsrcHeader attrs).bytes.take ResourceDirectoryTableSize).length = 16 := rfl

theorem entryHeader_bytes_length (d : Bool) (id h : Nat) :
    ((entryHeader d id h).bytes.take ResourceDirectoryEntriesSize).length = 8 := rfl

theorem dataHeader_bytes_length (content : List Nat) (cp base d : Nat) :
    ((dataHeader content cp base d).bytes.take ResourceDataEntrySize).length = 16 := rfl

theorem name_stores_mem (child : ResourceNode) (st : BuildState) (w : Store)
    (hw : w ∈ name_stores child st) :
    w.region = .name ∧ st.offsetToName ≤ w.offset ∧
      w.stop + 1 ≤ st.offsetToName + nameRecordBytes child := by
  unfold name_stores at hw
  unfold nameRecordBytes
  split at hw
  · rename_i hf
    rw [if_pos hf]
    simp only [List.mem_cons, List.mem_singleton, List.not_mem_nil, or_false] at hw
    rcases hw with rfl | rfl
    · refine ⟨rfl, Nat.le_refl _, ?_⟩
      simp only [Store.stop, le16_length]
      omega
    · refine ⟨rfl, ?_, ?_⟩
      · simp only []
        omega
      · simp only [Store.stop, flatMap_le16_length]
        omega
  · exact absurd hw (List.not_mem_nil _)

theorem stores_footprint :
    (∀ n : ResourceNode, ∀ st baseRVA N0 D0 L, Layout N0 D0 L n st →
      ∀ w ∈ stores n st baseRVA, w.InNode n st) ∧
    (∀ cs : List ResourceNode, ∀ st cur baseRVA N0 D0 L, LayoutL N0 D0 L cs st cur →
      ∀ w ∈ stores_childs cs st cur baseRVA, w.InChilds cs st cur) := by
  apply ResourceNode.induction
  · intro id name attrs cs ih st baseRVA N0 D0 L hl w hw
    obtain ⟨e1, e2, e3, e4, hL⟩ := loop_state_layout N0 D0 L id name attrs cs st hl
    rw [stores_directory, e1] at hw
    rcases List.mem_cons.1 hw with rfl | hw'
    · refine ⟨fun _ => ?_, fun h => absurd h (by simp), fun h => absurd h (by simp)⟩
      simp only [Store.stop, rsrcHeader_bytes_length]
      simp only [headerBytes, ResourceDirectoryTableSize]
      omega
    · obtain ⟨wh, wn, wd⟩ := ih _ _ baseRVA N0 D0 L hL w hw'
      rw [e2] at wh
      rw [e3] at wn
      rw [e4] at wd
      simp only [ResourceDirectoryEntriesSize] at wh
      refine ⟨fun h => ?_, fun h => ?_, fun h => ?_⟩
      · have := wh h
        simp only [headerBytes, ResourceDirectoryTableSize, ResourceDirectoryEntriesSize]
        omega
      · exact wn h
      · exact wd h
  · intro id name content cp st baseRVA N0 D0 L hl w hw
    simp only [stores, List.mem_cons, List.mem_singleton, List.not_mem_nil, or_false] at hw
    rcases hw with rfl | rfl
    · refine ⟨fun _ => ?_, fun h => absurd h (by simp), fun h => absurd h (by simp)⟩
      simp only [Store.stop, dataHeader_bytes_length]
      simp only [headerBytes, ResourceDirectoryTableSize]
      omega
    · refine ⟨fun h => absurd h (by simp), fun h => absurd h (by simp), fun _ => ?_⟩
      simp only [Store.stop, dataBytes]
      omega
  · intro st cur baseRVA N0 D0 L _ w hw
    exact absurd hw (List.not_mem_nil _)
  · intro c cs ihc ihcs st cur baseRVA N0 D0 L hl w hw
    obtain ⟨h0, h1, h2, h3, h4, h5, h6⟩ := hl
    simp only [headerBytesL, nameBytesL, dataBytesL, List.length_cons,
      ResourceDirectoryEntriesSize] at h0 h1 h3 h5
    obtain ⟨a1, a2, a3⟩ := call_state_cursors c st cur (by omega)
    have hlc : Layout N0 D0 L c (call_state c st cur) := by
      unfold Layout; rw [a1, a2, a3]; omega
    obtain ⟨c1, c2, c3⟩ := construct_exact.1 c _ baseRVA N0 D0 L hlc
    rw [a1] at c1
    rw [a2] at c2
    rw [a3] at c3
    have hlr : LayoutL N0 D0 L cs (construct_resources c (call_state c st cur) baseRVA).2
        ((cur + ResourceDirectoryEntriesSize) % 2 ^ 32) := by
      unfold LayoutL; rw [c1, c2, c3]
      simp only [ResourceDirectoryEntriesSize]; omega
    have hcur : (cur + ResourceDirectoryEntriesSize) % 2 ^ 32 = cur + 8 := by
      simp only [ResourceDirectoryEntriesSize]; omega
    rw [stores_childs_cons] at hw
    simp only [List.mem_append, List.mem_cons] at hw
    unfold Store.InChilds
    simp only [headerBytesL, nameBytesL, dataBytesL, List.length_cons,
      ResourceDirectoryEntriesSize]
    rcases hw with hw | rfl | hw | hw
    · obtain ⟨r, n1, n2⟩ := name_stores_mem c st w hw
      refine ⟨fun h => absurd (r.symm.trans h) (by simp), fun _ => ⟨n1, by omega⟩,
        fun h => absurd (r.symm.trans h) (by simp)⟩
    · refine ⟨fun _ => Or.inl ?_, fun h => absurd h (by simp), fun h => absurd h (by simp)⟩
      simp only [Store.stop, entryHeader_bytes_length]
      omega
    · obtain ⟨wh, wn, wd⟩ := ihc _ baseRVA N0 D0 L hlc w hw
      rw [a1] at wh
      rw [a2] at wn
      rw [a3] at wd
      refine ⟨fun h => Or.inr ?_, fun h => ?_, fun h => ?_⟩
      · have := wh h; omega
      · have := wn h; omega
      · have := wd h; omega
    · obtain ⟨wh, wn, wd⟩ := ihcs _ _ baseRVA N0 D0 L hlr w hw
      rw [c1, hcur] at wh
      rw [c2] at wn
      rw [c3] at wd
      simp only [ResourceDirectoryEntriesSize] at wh
      refine ⟨fun h => ?_, fun h => ?_, fun h => ?_⟩
      · rcases wh h with x | x
        · left; omega
        · right; omega
      · have := wn h; omega
      · have := wd h; omega

theorem name_stores_pairwise (child : ResourceNode) (st : BuildState) :
    (name_stores child st).Pairwise Store.Disjoint := by
  unfold name_stores
  split
  · simp only [List.pairwise_cons, List.mem_singleton, List.not_mem_nil, forall_eq,
      List.Pairwise.nil, and_true, IsEmpty.forall_iff, implies_true]
    left
    simp only [Store.stop, le16_length]
    omega
  · exact List.Pairwise.nil

theorem stores_pairwise :
    (∀ n : ResourceNode, ∀ st baseRVA N0 D0 L, Layout N0 D0 L n st →
      (stores n st baseRVA).Pairwise Store.Disjoint) ∧
    (∀ cs : List ResourceNode, ∀ st cur baseRVA N0 D0 L, LayoutL N0 D0 L cs st cur →
      (stores_childs cs st cur baseRVA).Pairwise Store.Disjoint) := by
  apply ResourceNode.induction
  · intro id name attrs cs ih st baseRVA N0 D0 L hl
    obtain ⟨e1, e2, e3, e4, hL⟩ := loop_state_layout N0 D0 L id name attrs cs st hl
    obtain ⟨h1, h2, h3, h4, h5, h6⟩ := hl
    simp only [headerBytes, nameBytes, dataBytes, ResourceDirectoryTableSize,
      ResourceDirectoryEntriesSize] at h1 h3 h5
    rw [stores_directory, e1, List.pairwise_cons]
    refine ⟨?_, ih _ _ baseRVA N0 D0 L hL⟩
    intro w hw
    obtain ⟨y1, y2, y3⟩ := stores_footprint.2 cs _ _ baseRVA N0 D0 L hL w hw
    rw [e2] at y1
    rw [e3] at y2
    rw [e4] at y3
    simp only [ResourceDirectoryEntriesSize] at y1
    unfold Store.Disjoint
    simp only [Store.stop, rsrcHeader_bytes_length]
    rcases hr : w.region with _ | _ | _ <;>
      simp only [hr, forall_true_left, reduceCtorEq, false_implies] at y1 y2 y3 <;>
      simp only [Store.stop] at * <;> omega
  · intro id name content cp st baseRVA N0 D0 L hl
    obtain ⟨h1, h2, h3, h4, h5, h6⟩ := hl
    simp only [headerBytes, nameBytes, dataBytes, ResourceDirectoryTableSize] at h1 h3 h5
    simp only [stores, List.pairwise_cons, List.mem_singleton, List.not_mem_nil, forall_eq,
      List.Pairwise.nil, and_true, IsEmpty.forall_iff, implies_true]
    left
    simp only [Store.stop, dataHeader_bytes_length]
    omega
  · intro st cur baseRVA N0 D0 L _
    exact List.Pairwise.nil
  · intro c cs ihc ihcs st cur baseRVA N0 D0 L hl
    obtain ⟨h0, h1, h2, h3, h4, h5, h6⟩ := hl
    simp only [headerBytesL, nameBytesL, dataBytesL, List.length_cons,
      ResourceDirectoryEntriesSize] at h0 h1 h3 h5
    obtain ⟨a1, a2, a3⟩ := call_state_cursors c st cur (by omega)
    have hlc : Layout N0 D0 L c (call_state c st cur) := by
      unfold Layout; rw [a1, a2, a3]; omega
    obtain ⟨c1, c2, c3⟩ := construct_exact.1 c _ baseRVA N0 D0 L hlc
    rw [a1] at c1
    rw [a2] at c2
    rw [a3] at c3
    have hlr : LayoutL N0 D0 L cs (construct_resources c (call_state c st cur) baseRVA).2
        ((cur + ResourceDirectoryEntriesSize) % 2 ^ 32) := by
      unfold LayoutL; rw [c1, c2, c3]
      simp only [ResourceDirectoryEntriesSize]; omega
    have hcur : (cur + ResourceDirectoryEntriesSize) % 2 ^ 32 = cur + 8 := by
      simp only [ResourceDirectoryEntriesSize]; omega
    -- where the stores of the child and of the rest of the loop lie
    have fA : ∀ w ∈ stores c (call_state c st cur) baseRVA,
        (w.region = .header →
          st.offsetToHeader ≤ w.offset ∧ w.stop ≤ st.offsetToHeader + headerBytes c) ∧
        (w.region = .name → st.offsetToName + nameRecordBytes c ≤ w.offset ∧
          w.stop ≤ st.offsetToName + nameRecordBytes c + nameBytes c) ∧
        (w.region = .data →
          st.offsetToData ≤ w.offset ∧ w.stop ≤ st.offsetToData + dataBytes c) := by
      intro w hw
      have := stores_footprint.1 c _ baseRVA N0 D0 L hlc w hw
      unfold Store.InNode at this
      rw [a1, a2, a3] at this
      exact this
    have fB : ∀ w ∈ stores_childs cs (construct_resources c (call_state c st cur) baseRVA).2
          ((cur + ResourceDirectoryEntriesSize) % 2 ^ 32) baseRVA,
        (w.region = .header →
          (cur + 8 ≤ w.offset ∧ w.stop ≤ cur + 8 + cs.length * 8) ∨
          (st.offsetToHeader + headerBytes c ≤ w.offset ∧
            w.stop ≤ st.offsetToHeader + headerBytes c + headerBytesL cs)) ∧
        (w.region = .name → st.offsetToName + nameRecordBytes c + nameBytes c ≤ w.offset ∧
          w.stop ≤ st.offsetToName + nameRecordBytes c + nameBytes c + nameBytesL cs) ∧
        (w.region = .data → st.offsetToData + dataBytes c ≤ w.offset ∧
          w.stop ≤ st.offsetToData + dataBytes c + dataBytesL cs) := by
      intro w hw
      have := stores_footprint.2 cs _ _ baseRVA N0 D0 L hlr w hw
      unfold Store.InChilds at this
      rw [c1, c2, c3, hcur] at this
      simp only [ResourceDirectoryEntriesSize] at this
      exact this
    rw [stores_childs_cons, List.pairwise_append]
    refine ⟨name_stores_pairwise c st, ?_, ?_⟩
    · rw [List.pairwise_cons, List.pairwise_append]
      refine ⟨?_, ihc _ baseRVA N0 D0 L hlc, ihcs _ _ baseRVA N0 D0 L hlr, ?_⟩
      · intro w hw
        unfold Store.Disjoint
        simp only [Store.stop, entryHeader_bytes_length]
        rcases List.mem_append.1 hw with hw | hw
        · obtain ⟨y1, y2, y3⟩ := fA w hw
          rcases hr : w.region with _ | _ | _ <;>
            simp only [hr, forall_true_left, reduceCtorEq, false_implies] at y1 y2 y3 <;>
            simp only [Store.stop] at * <;> omega
        · obtain ⟨y1, y2, y3⟩ := fB w hw
          rcases hr : w.region with _ | _ | _ <;>
            simp only [hr, forall_true_left, reduceCtorEq, false_implies] at y1 y2 y3 <;>
            simp only [Store.stop] at * <;> omega
      · intro w1 hw1 w2 hw2
        obtain ⟨x1, x2, x3⟩ := fA w1 hw1
        obtain ⟨y1, y2, y3⟩ := fB w2 hw2
        unfold Store.Disjoint
        rcases hr1 : w1.region with _ | _ | _ <;> rcases hr2 : w2.region with _ | _ | _ <;>
          simp only [hr1, hr2, forall_true_left, reduceCtorEq, false_implies]
            at x1 x2 x3 y1 y2 y3 <;>
          omega
    · intro w1 hw1 w2 hw2
      obtain ⟨r, n1, n2⟩ := name_stores_mem c st w1 hw1
      unfold Store.Disjoint
      rcases List.mem_cons.1 hw2 with rfl | hw2
      · simp only [Store.stop, entryHeader_bytes_length]
        simp only [Store.stop] at n2
        omega
      · rcases List.mem_append.1 hw2 with hw2 | hw2
        · obtain ⟨y1, y2, y3⟩ := fA w2 hw2
          rcases hr : w2.region with _ | _ | _ <;>
            simp only [hr, forall_true_left, reduceCtorEq, false_implies] at y1 y2 y3 <;>
            omega
        · obtain ⟨y1, y2, y3⟩ := fB w2 hw2
          rcases hr : w2.region with _ | _ | _ <;>
            simp only [hr, forall_true_left, reduceCtorEq, false_implies] at y1 y2 y3 <;>
            omega

/-! ## The totals of the size pass -/

theorem compute_sizes :
    (∀ n : ResourceNode, ∀ acc, acc.dataSize < 2 ^ 32 → acc.nameSize < 2 ^ 32 →
      compute_resources_size n acc
        = { headerSize := (acc.headerSize + 24 * nodeCount n) % 2 ^ 32,
            dataSize := (acc.dataSize + dataBytes n) % 2 ^ 32,
            nameSize := (acc.nameSize + plannedNameBytes n) % 2 ^ 32 }) ∧
    (∀ cs : List ResourceNode, ∀ acc, acc.headerSize < 2 ^ 32 → acc.dataSize < 2 ^ 32 →
      acc.nameSize < 2 ^ 32 →
      compute_resources_size_childs cs acc
        = { headerSize := (acc.headerSize + 24 * nodeCountL cs) % 2 ^ 32,
            dataSize := (acc.dataSize + dataBytesL cs) % 2 ^ 32,
            nameSize := (acc.nameSize + plannedNameBytesL cs) % 2 ^ 32 }) := by
  apply ResourceNode.induction
  · intro id name attrs cs ih acc hd hn
    rw [compute_resources_size, ih]
    · simp only [nodeCount, dataBytes, plannedNameBytes, ResourceDirectoryTableSize,
        ResourceDirectoryEntriesSize, ResourceSizes.mk.injEq]
      refine ⟨by omega, trivial, ?_⟩
      split <;> omega
    · exact Nat.mod_lt _ (by norm_num)
    · exact hd
    · simp only []
      split <;> omega
  · intro id name content cp acc hd hn
    simp only [compute_resources_size, nodeCount, dataBytes, plannedNameBytes,
      ResourceDataEntrySize, ResourceDirectoryEntriesSize, ResourceSizes.mk.injEq]
    refine ⟨by omega, trivial, ?_⟩
    split <;> omega
  · intro acc hh hd hn
    simp only [compute_resources_size_childs, nodeCountL, dataBytesL, plannedNameBytesL,
      Nat.mul_zero, Nat.add_zero, Nat.mod_eq_of_lt hh, Nat.mod_eq_of_lt hd, Nat.mod_eq_of_lt hn]
  · intro c cs ihc ihcs acc hh hd hn
    rw [compute_resources_size_childs, ihc acc hd hn,
      ihcs _ (Nat.mod_lt _ (by norm_num)) (Nat.mod_lt _ (by norm_num))
        (Nat.mod_lt _ (by norm_num))]
    simp only [nodeCountL, dataBytesL, plannedNameBytesL, ResourceSizes.mk.injEq]
    refine ⟨by omega, by omega, by omega⟩

theorem nameRecordBytes_of_agrees (c : ResourceNode) (h : flag_agrees c = true) :
    nameRecordBytes c = if c.name ≠ [] then 2 + c.name.length * 2 + 1 else 0 := by
  unfold flag_agrees at h
  unfold nameRecordBytes
  cases hn : c.name with
  | nil => simp_all
  | cons x xs =>
    simp_all
    omega

theorem planned_eq_nameBytes :
    (∀ n : ResourceNode, names_agree n = true →
      plannedNameBytes n
        = (if n.name ≠ [] then 2 + n.name.length * 2 + 1 else 0) + nameBytes n) ∧
    (∀ cs : List ResourceNode, names_agreeL cs = true →
      plannedNameBytesL cs = nameBytesL cs) := by
  apply ResourceNode.induction
  · intro id name attrs cs ih h
    simp only [names_agree] at h
    simp only [nameBytes, plannedNameBytes, ih h, ResourceNode.name]
  · intro id name content cp _
    simp only [nameBytes, plannedNameBytes, ResourceNode.name, Nat.add_zero]
  · intro _
    rfl
  · intro c cs ihc ihcs h
    simp only [names_agreeL, Bool.and_eq_true] at h
    obtain ⟨⟨h1, h2⟩, h3⟩ := h
    simp only [nameBytesL, plannedNameBytesL, ihcs h3, ihc h2, nameRecordBytes_of_agrees c h1]

theorem nameBytes_le_planned (n : ResourceNode) (h : names_agree n = true) :
    nameBytes n ≤ plannedNameBytes n := by
  rw [planned_eq_nameBytes.1 n h]
  omega

/-! ## The buffer of `build_resources` -/

theorem build_resources_state_eq (n : ResourceNode) (file_alignment : Nat) (hfit : SizesFit n) :
    build_resources_state n file_alignment
      = { content := some (List.replicate
            (align (24 * nodeCount n + plannedNameBytes n + dataBytes n) file_alignment) 0),
          offsetToHeader := 0,
          offsetToName := 24 * nodeCount n,
          offsetToData := 24 * nodeCount n + plannedNameBytes n } := by
  unfold SizesFit at hfit
  have hle := le_align (24 * nodeCount n + plannedNameBytes n + dataBytes n) file_alignment
  unfold build_resources_state
  rw [compute_sizes.1 n _ (by norm_num) (by norm_num)]
  simp only [Nat.zero_add, List.length_replicate]
  have e1 : (24 * nodeCount n) % 2 ^ 32 = 24 * nodeCount n := Nat.mod_eq_of_lt (by omega)
  have e2 : plannedNameBytes n % 2 ^ 32 = plannedNameBytes n := Nat.mod_eq_of_lt (by omega)
  have e3 : dataBytes n % 2 ^ 32 = dataBytes n := Nat.mod_eq_of_lt (by omega)
  rw [e1, e2, e3]
  have e4 : (24 * nodeCount n + dataBytes n + plannedNameBytes n) % 2 ^ 32
      = 24 * nodeCount n + plannedNameBytes n + dataBytes n := by omega
  have e5 : (24 * nodeCount n + plannedNameBytes n) % 2 ^ 32
      = 24 * nodeCount n + plannedNameBytes n := by omega
  rw [e4, e5, List.append_replicate_replicate]
  congr 3
  omega

theorem build_resources_layout (n : ResourceNode) (file_alignment : Nat)
    (hagree : names_agree n = true) (hfit : SizesFit n) :
    Layout (24 * nodeCount n) (24 * nodeCount n + plannedNameBytes n)
      (24 * nodeCount n + plannedNameBytes n + dataBytes n) n
      (build_resources_state n file_alignment) := by
  rw [build_resources_state_eq n file_alignment hfit]
  have h1 := headerBytes_nodeCount.1 n
  have h2 := nameBytes_le_planned n hagree
  unfold SizesFit at hfit
  unfold Layout
  simp only []
  omega

/-- Under the id/name invariant below the root and when the totals add up to less than 2^32,
`build_resources` fills its buffer without any out-of-bounds store; the buffer keeps its
length, holds the bytes of every store at the offset of the store, and is zero wherever no
store went. -/
theorem build_resources_content_spec (n : ResourceNode) (file_alignment baseRVA : Nat)
    (hagree : names_agree n = true) (hfit : SizesFit n) :
    ∃ buf, (build_resources_content n file_alignment baseRVA).2.content = some buf ∧
      buf.length
        = align (24 * nodeCount n + plannedNameBytes n + dataBytes n) file_alignment ∧
      (∀ w ∈ stores n (build_resources_state n file_alignment) baseRVA,
        readAt buf w.offset w.bytes.length = some w.bytes) ∧
      (∀ i, i < buf.length →
        (∀ w ∈ stores n (build_resources_state n file_alignment) baseRVA,
          i < w.offset ∨ w.stop ≤ i) → buf[i]? = some 0) := by
  have hl := build_resources_layout n file_alignment hagree hfit
  have hfoot := stores_footprint.1 n _ baseRVA _ _ _ hl
  have hpw := stores_pairwise.1 n _ baseRVA _ _ _ hl
  have hst := build_resources_state_eq n file_alignment hfit
  have hle := le_align (24 * nodeCount n + plannedNameBytes n + dataBytes n) file_alignment
  obtain ⟨l1, l2, l3, l4, l5, l6⟩ := hl
  have hin : ∀ w ∈ stores n (build_resources_state n file_alignment) baseRVA,
      w.stop ≤ (List.replicate
        (align (24 * nodeCount n + plannedNameBytes n + dataBytes n) file_alignment)
          0).length := by
    intro w hw
    obtain ⟨y1, y2, y3⟩ := hfoot w hw
    rw [List.length_replicate]
    rcases hr : w.region with _ | _ | _ <;>
      simp only [hr, forall_true_left, reduceCtorEq, false_implies] at y1 y2 y3 <;> omega
  obtain ⟨buf, b1, b2, b3⟩ := replay_ok _ _ hin
  have hcontent : (build_resources_content n file_alignment baseRVA).2.content = some buf := by
    unfold build_resources_content
    rw [construct_content.1, ← b1]
    congr 1
    rw [hst]
  refine ⟨buf, hcontent, by rw [b2, List.length_replicate], ?_, ?_⟩
  · exact replay_holds _ _ buf hin hpw b1
  · intro i hi hw
    rw [b2, List.length_replicate] at hi
    rw [b3 i hw, List.getElem?_replicate, if_pos hi]

/-! ## C2: where the content of a Data node ends up -/

theorem data_calls (buf : List Nat) (baseRVA N0 D0 L : Nat) :
    (∀ n : ResourceNode, ∀ st, Layout N0 D0 L n st →
      (∀ w ∈ stores n st baseRVA, readAt buf w.offset w.bytes.length = some w.bytes) →
      (∀ i, st.offsetToData ≤ i → i < st.offsetToData + dataBytes n →
        (∀ w ∈ stores n st baseRVA, w.region = .data → i < w.offset ∨ w.stop ≤ i) →
        buf[i]? = some 0) →
      ForallCalls (DataPlaced buf baseRVA) (fun _ _ _ => True) baseRVA n st) ∧
    (∀ cs : List ResourceNode, ∀ st cur, LayoutL N0 D0 L cs st cur →
      (∀ w ∈ stores_childs cs st cur baseRVA,
        readAt buf w.offset w.bytes.length = some w.bytes) →
      (∀ i, st.offsetToData ≤ i → i < st.offsetToData + dataBytesL cs →
        (∀ w ∈ stores_childs cs st cur baseRVA, w.region = .data →
          i < w.offset ∨ w.stop ≤ i) →
        buf[i]? = some 0) →
      ForallCallsL (DataPlaced buf baseRVA) (fun _ _ _ => True) baseRVA cs st cur) := by
  apply ResourceNode.induction
  · intro id name attrs cs ih st hl hheld hzero
    obtain ⟨e1, e2, e3, e4, hL⟩ := loop_state_layout N0 D0 L id name attrs cs st hl
    rw [ForallCalls]
    refine ⟨fun _ _ _ _ h => absurd h (by simp), ?_⟩
    rw [e1]
    rw [stores_directory, e1] at hheld hzero
    apply ih _ _ hL
    · intro w hw
      exact hheld w (List.mem_cons_of_mem _ hw)
    · intro i hi1 hi2 hw
      rw [e4] at hi1 hi2
      apply hzero i hi1 (by simpa only [dataBytes] using hi2)
      intro w hmem hr
      rcases List.mem_cons.1 hmem with rfl | hw'
      · exact absurd hr (by simp)
      · exact hw w hw' hr
  · intro id name content cp st hl hheld hzero
    obtain ⟨h1, h2, h3, h4, h5, h6⟩ := hl
    simp only [dataBytes] at h5 hzero
    rw [ForallCalls]
    intro id' name' content' cp' heq
    simp only [ResourceNode.data.injEq] at heq
    obtain ⟨rfl, rfl, rfl, rfl⟩ := heq
    simp only [stores, List.mem_cons, List.mem_singleton, List.not_mem_nil, or_false,
      forall_eq_or_imp, forall_eq] at hheld hzero
    refine ⟨?_, ?_, hheld.2, ?_, ?_⟩
    · exact hheld.1
    · simp only [dataHeader]
      omega
    · apply hzero _ (by omega) (by omega)
      refine ⟨fun h => absurd h (by simp), fun _ => ?_⟩
      right
      simp only [Store.stop]
      omega
    · simp only [construct_resources]
      omega
  · intro st cur _ _ _
    trivial
  · intro c cs ihc ihcs st cur hl hheld hzero
    obtain ⟨h0, h1, h2, h3, h4, h5, h6⟩ := hl
    simp only [headerBytesL, nameBytesL, dataBytesL, List.length_cons,
      ResourceDirectoryEntriesSize] at h0 h1 h3 h5
    obtain ⟨a1, a2, a3⟩ := call_state_cursors c st cur (by omega)
    have hlc : Layout N0 D0 L c (call_state c st cur) := by
      unfold Layout; rw [a1, a2, a3]; omega
    obtain ⟨c1, c2, c3⟩ := construct_exact.1 c _ baseRVA N0 D0 L hlc
    rw [a1] at c1
    rw [a2] at c2
    rw [a3] at c3
    have hlr : LayoutL N0 D0 L cs (construct_resources c (call_state c st cur) baseRVA).2
        ((cur + ResourceDirectoryEntriesSize) % 2 ^ 32) := by
      unfold LayoutL; rw [c1, c2, c3]
      simp only [ResourceDirectoryEntriesSize]; omega
    have fA := stores_footprint.1 c _ baseRVA N0 D0 L hlc
    have fB := stores_footprint.2 cs _ _ baseRVA N0 D0 L hlr
    rw [stores_childs_cons] at hheld hzero
    simp only [dataBytesL] at hzero
    rw [ForallCallsL]
    refine ⟨trivial, ?_, ?_⟩
    · apply ihc _ hlc
      · intro w hw
        exact hheld w (by simp only [List.mem_append, List.mem_cons]; exact Or.inr (Or.inr
          (Or.inl hw)))
      · intro i hi1 hi2 hw
        rw [a3] at hi1 hi2
        apply hzero i hi1 (by omega)
        intro w hmem hr
        simp only [List.mem_append, List.mem_cons] at hmem
        rcases hmem with hm | rfl | hm | hm
        · exact absurd ((name_stores_mem c st w hm).1.symm.trans hr) (by simp)
        · exact absurd hr (by simp)
        · exact hw w hm hr
        · have := (fB w hm).2.2 hr
          rw [c3] at this
          left; omega
    · apply ihcs _ _ hlr
      · intro w hw
        exact hheld w (by simp only [List.mem_append, List.mem_cons]; exact Or.inr (Or.inr
          (Or.inr hw)))
      · intro i hi1 hi2 hw
        rw [c3] at hi1 hi2
        apply hzero i (by omega) (by omega)
        intro w hmem hr
        simp only [List.mem_append, List.mem_cons] at hmem
        rcases hmem with hm | rfl | hm | hm
        · exact absurd ((name_stores_mem c st w hm).1.symm.trans hr) (by simp)
        · exact absurd hr (by simp)
        · have := (fA w hm).2.2 hr
          rw [a3] at this
          right; omega
        · exact hw w hm hr

theorem copy_to_none_of_short (c : Option (List Nat)) (off : Nat) (src : List Nat) (n : Nat)
    (hc : ∀ b, c = some b → b.length = n) (h : n < off + src.length) :
    copy_to c off src = none := by
  cases c with
  | none => rfl
  | some b =>
    have := hc b rfl
    simp only [copy_to]
    rw [if_neg (by omega)]

theorem oversized_data_root (content : List Nat) (h : content.length = 4294967295) :
    id_name_invariant (.data 1 [] content 0) = true ∧
    (compute_resources_size (.data 1 [] content 0)
      { headerSize := 0, dataSize := 0, nameSize := 0 }).dataSize = 0 ∧
    (build_resources_content (.data 1 [] content 0) 512 0x1000).2.content = none := by
  have hsz : compute_resources_size (.data 1 [] content 0)
      { headerSize := 0, dataSize := 0, nameSize := 0 }
      = { headerSize := 24, dataSize := 0, nameSize := 0 } := by
    simp [compute_resources_size, h, ResourceDataEntrySize, ResourceDirectoryEntriesSize]
  refine ⟨?_, by rw [hsz], ?_⟩
  · simp [id_name_invariant, flag_agrees, names_agree, namedFlag, ResourceNode.id,
      ResourceNode.name]
  · unfold build_resources_content build_resources_state
    rw [hsz]
    simp only [construct_resources]
    apply copy_to_none_of_short _ _ _ 512
    · intro b hb
      rw [copy_to_length _ b _ _ hb]
      simp only [List.length_append, List.length_replicate]
      decide
    · rw [h]
      decide

/-- C2, counterexample: the tree that is one Data root with id 1, no name and a content of
2^32 - 1 bytes satisfies the id/name invariant; the size pass wraps its data total to 0, the
buffer is allocated with 512 bytes, and the store of the content at the data cursor is out of
bounds: there is no final buffer holding the content of the node. -/
theorem C2_counterexample :
    id_name_invariant (.data 1 [] (List.replicate 4294967295 0) 0) = true ∧
    (compute_resources_size (.data 1 [] (List.replicate 4294967295 0) 0)
      { headerSize := 0, dataSize := 0, nameSize := 0 }).dataSize = 0 ∧
    (build_resources_content (.data 1 [] (List.replicate 4294967295 0) 0) 512 0x1000).2.content
      = none :=
  oversized_data_root _ (List.length_replicate _ _)

/-- C2, amended: for every resource tree that satisfies the id/name invariant and whose three
size totals add up to less than 2^32, `build_resources` produces a final buffer, and for every
call of `construct_resources` on a Data node: the data-entry record of the node is in the
buffer at the header cursor of the call, its DataRVA minus `baseRVA` (32-bit arithmetic) equals
the data
cursor of the call, the bytes of the buffer at that offset are exactly the content of the
node, one zero pad byte follows them, and the data cursor is left just past the pad byte,
where the content of the next Data node begins. -/
theorem C2_data_placement (root : ResourceNode) (file_alignment baseRVA : Nat)
    (hinv : id_name_invariant root = true) (hfit : SizesFit root) :
    ∃ buf, (build_resources_content root file_alignment baseRVA).2.content = some buf ∧
      ForallCalls (DataPlaced buf baseRVA) (fun _ _ _ => True) baseRVA root
        (build_resources_state root file_alignment) := by
  have hagree : names_agree root = true := by
    unfold id_name_invariant at hinv
    simp only [Bool.and_eq_true] at hinv
    exact hinv.2
  obtain ⟨buf, h1, h2, h3, h4⟩ :=
    build_resources_content_spec root file_alignment baseRVA hagree hfit
  have hl := build_resources_layout root file_alignment hagree hfit
  have hfoot := stores_footprint.1 root _ baseRVA _ _ _ hl
  have hle := le_align (24 * nodeCount root + plannedNameBytes root + dataBytes root)
    file_alignment
  refine ⟨buf, h1, (data_calls buf baseRVA _ _ _).1 root _ hl h3 ?_⟩
  intro i hi1 hi2 hw
  obtain ⟨l1, l2, l3, l4, l5, l6⟩ := hl
  apply h4 i (by omega)
  intro w hmem
  obtain ⟨y1, y2, y3⟩ := hfoot w hmem
  rcases hr : w.region with _ | _ | _
  · have := y1 hr; right; omega
  · have := y2 hr; right; omega
  · exact hw w hmem hr

/-- C2, witness: the tree of one directory with a named and an unnamed Data child. -/
theorem C2_data_placement_witness :
    ∃ buf, (build_resources_content
        (.directory 0 [] ⟨0, 0, 0, 0, 1, 1⟩
          [.data 0x80000000 [0x41, 0x42] [0xAA] 0, .data 2 [] [0xBB, 0xCC] 0])
        512 0x1000).2.content = some buf ∧
      ForallCalls (DataPlaced buf 0x1000) (fun _ _ _ => True) 0x1000
        (.directory 0 [] ⟨0, 0, 0, 0, 1, 1⟩
          [.data 0x80000000 [0x41, 0x42] [0xAA] 0, .data 2 [] [0xBB, 0xCC] 0])
        (build_resources_state
          (.directory 0 [] ⟨0, 0, 0, 0, 1, 1⟩
            [.data 0x80000000 [0x41, 0x42] [0xAA] 0, .data 2 [] [0xBB, 0xCC] 0]) 512) :=
  C2_data_placement _ 512 0x1000 (by decide) (by unfold SizesFit; decide)

/-! ## Properties of every call and every loop iteration -/

theorem forallCalls_mono (P P' : ResourceNode → BuildState → Prop)
    (Q Q' : ResourceNode → BuildState → Nat → Prop) (baseRVA : Nat)
    (hP : ∀ n st, P n st → P' n st) (hQ : ∀ c st cur, Q c st cur → Q' c st cur) :
    (∀ n : ResourceNode, ∀ st, ForallCalls P Q baseRVA n st → ForallCalls P' Q' baseRVA n st) ∧
    (∀ cs : List ResourceNode, ∀ st cur, ForallCallsL P Q baseRVA cs st cur →
      ForallCallsL P' Q' baseRVA cs st cur) := by
  apply ResourceNode.induction
  · intro id name attrs cs ih st h
    rw [ForallCalls] at h ⊢
    exact ⟨hP _ _ h.1, ih _ _ h.2⟩
  · intro id name content cp st h
    rw [ForallCalls] at h ⊢
    exact hP _ _ h
  · intro st cur _
    trivial
  · intro c cs ihc ihcs st cur h
    rw [ForallCallsL] at h ⊢
    exact ⟨hQ _ _ _ h.1, ihc _ h.2.1, ihcs _ _ h.2.2⟩

theorem forallCalls_and (P P' : ResourceNode → BuildState → Prop)
    (Q Q' : ResourceNode → BuildState → Nat → Prop) (baseRVA : Nat) :
    (∀ n : ResourceNode, ∀ st, ForallCalls P Q baseRVA n st → ForallCalls P' Q' baseRVA n st →
      ForallCalls (fun n st => P n st ∧ P' n st) (fun c st cur => Q c st cur ∧ Q' c st cur)
        baseRVA n st) ∧
    (∀ cs : List ResourceNode, ∀ st cur, ForallCallsL P Q baseRVA cs st cur →
      ForallCallsL P' Q' baseRVA cs st cur →
      ForallCallsL (fun n st => P n st ∧ P' n st) (fun c st cur => Q c st cur ∧ Q' c st cur)
        baseRVA cs st cur) := by
  apply ResourceNode.induction
  · intro id name attrs cs ih st h h'
    rw [ForallCalls] at h h' ⊢
    exact ⟨⟨h.1, h'.1⟩, ih _ _ h.2 h'.2⟩
  · intro id name content cp st h h'
    rw [ForallCalls] at h h' ⊢
    exact ⟨h, h'⟩
  · intro st cur _ _
    trivial
  · intro c cs ihc ihcs st cur h h'
    rw [ForallCallsL] at h h' ⊢
    exact ⟨⟨h.1, h'.1⟩, ihc _ h.2.1 h'.2.1, ihcs _ _ h.2.2 h'.2.2⟩

/-- A property shared by all the stores of a call is shared by the stores of every call and
every loop iteration inside it. -/
theorem forallCalls_stores (S : Store → Prop) (baseRVA : Nat) :
    (∀ n : ResourceNode, ∀ st, (∀ w ∈ stores n st baseRVA, S w) →
      ForallCalls (fun n st => ∀ w ∈ stores n st baseRVA, S w)
        (fun c st cur => (∀ w ∈ name_stores c st, S w) ∧ S (entry_store c st cur))
        baseRVA n st) ∧
    (∀ cs : List ResourceNode, ∀ st cur, (∀ w ∈ stores_childs cs st cur baseRVA, S w) →
      ForallCallsL (fun n st => ∀ w ∈ stores n st baseRVA, S w)
        (fun c st cur => (∀ w ∈ name_stores c st, S w) ∧ S (entry_store c st cur))
        baseRVA cs st cur) := by
  apply ResourceNode.induction
  · intro id name attrs cs ih st h
    rw [ForallCalls]
    refine ⟨h, ih _ _ ?_⟩
    intro w hw
    apply h
    rw [stores_directory]
    exact List.mem_cons_of_mem _ hw
  · intro id name content cp st h
    rw [ForallCalls]
    exact h
  · intro st cur _
    trivial
  · intro c cs ihc ihcs st cur h
    rw [stores_childs_cons] at h
    simp only [List.mem_append, List.mem_cons] at h
    rw [ForallCallsL]
    refine ⟨⟨fun w hw => h w (Or.inl hw), h _ (Or.inr (Or.inl rfl))⟩, ihc _ ?_, ihcs _ _ ?_⟩
    · intro w hw
      exact h w (Or.inr (Or.inr (Or.inl hw)))
    · intro w hw
      exact h w (Or.inr (Or.inr (Or.inr hw)))

/-! ## C3: the name records -/

theorem fromLE_le16 (v : Nat) : fromLE (le16 v) = v % 2 ^ 16 := by
  simp only [le16, fromLE]
  omega

theorem construct_name_id (child : ResourceNode) (st : BuildState)
    (h : namedFlag child.id = true) :
    (construct_name child st).1 = (0x80000000 ||| st.offsetToName) % 2 ^ 32 := by
  simp only [construct_name, h, if_true]

theorem namePlaced_of_held (buf : List Nat) (child : ResourceNode) (st : BuildState)
    (h : ∀ w ∈ name_stores child st, readAt buf w.offset w.bytes.length = some w.bytes) :
    NamePlaced buf child st := by
  intro hflag
  unfold name_stores at h
  rw [if_pos hflag] at h
  simp only [List.mem_cons, List.mem_singleton, List.not_mem_nil, or_false, forall_eq_or_imp,
    forall_eq, le16_length, flatMap_le16_length] at h
  exact h

/-- The name record right after `construct_name` has stored it. -/
theorem construct_name_placed (child : ResourceNode) (st : BuildState) (buf : List Nat)
    (hbuf : st.content = some buf)
    (hfit : st.offsetToName + 2 + 2 * child.name.length ≤ buf.length) :
    ∃ buf', (construct_name child st).2.content = some buf' ∧ buf'.length = buf.length ∧
      NamePlaced buf' child st := by
  have hin : ∀ w ∈ name_stores child st, w.stop ≤ buf.length := by
    intro w hw
    unfold name_stores at hw
    split at hw
    · simp only [List.mem_cons, List.mem_singleton, List.not_mem_nil, or_false] at hw
      rcases hw with rfl | rfl
      · simp only [Store.stop, le16_length]; omega
      · simp only [Store.stop, flatMap_le16_length]; omega
    · exact absurd hw (List.not_mem_nil _)
  obtain ⟨buf', b1, b2, -⟩ := replay_ok _ _ hin
  refine ⟨buf', by rw [construct_name_content, hbuf, b1], b2, ?_⟩
  exact namePlaced_of_held buf' child st
    (replay_holds _ _ buf' hin (name_stores_pairwise child st) b1)

/-- The name records in the final buffer of `build_resources`. -/
theorem names_placed (root : ResourceNode) (file_alignment baseRVA : Nat)
    (hagree : names_agree root = true) (hfit : SizesFit root) :
    ∃ buf, (build_resources_content root file_alignment baseRVA).2.content = some buf ∧
      ForallCalls (fun _ _ => True) (fun child st _ => NamePlaced buf child st) baseRVA root
        (build_resources_state root file_alignment) := by
  obtain ⟨buf, h1, -, h3, -⟩ :=
    build_resources_content_spec root file_alignment baseRVA hagree hfit
  refine ⟨buf, h1, ?_⟩
  have h := (forallCalls_stores
    (fun w => readAt buf w.offset w.bytes.length = some w.bytes) baseRVA).1 root _ h3
  exact (forallCalls_mono _ _ _ _ baseRVA (fun _ _ _ => trivial)
    (fun c st _ hq => namePlaced_of_held buf c st hq.1)).1 root _ h

theorem long_name_record (name : List Nat) (h : name.length = 65536) :
    names_agree (.directory 0 [] ⟨0, 0, 0, 0, 1, 0⟩ [.data 0x80000000 name [] 0]) = true ∧
    ((build_resources_content
        (.directory 0 [] ⟨0, 0, 0, 0, 1, 0⟩ [.data 0x80000000 name [] 0]) 512 0x1000).1
      = .directory 0 [] ⟨0, 0, 0, 0, 1, 0⟩ [.data 0x80000030 name [] 0]) ∧
    ((build_resources_content
        (.directory 0 [] ⟨0, 0, 0, 0, 1, 0⟩ [.data 0x80000000 name [] 0]) 512
        0x1000).2.content.bind (fun buf => readAt buf 0x30 2)) = some [0, 0] := by
  have hne : name ≠ [] := by
    intro h0; rw [h0] at h; simp at h
  have hagree : names_agree
      (.directory 0 [] ⟨0, 0, 0, 0, 1, 0⟩ [.data 0x80000000 name [] 0]) = true := by
    cases name with
    | nil => exact absurd rfl hne
    | cons x xs =>
      simp [names_agree, names_agreeL, flag_agrees, namedFlag, ResourceNode.id,
        ResourceNode.name]
  have hfit : SizesFit (.directory 0 [] ⟨0, 0, 0, 0, 1, 0⟩ [.data 0x80000000 name [] 0]) := by
    simp only [SizesFit, nodeCount, nodeCountL, plannedNameBytes, plannedNameBytesL, dataBytes,
      dataBytesL, h, List.length_nil]
    rw [if_pos hne]
    decide
  have hst := build_resources_state_eq
    (.directory 0 [] ⟨0, 0, 0, 0, 1, 0⟩ [.data 0x80000000 name [] 0]) 512 hfit
  have hN : (build_resources_state
      (.directory 0 [] ⟨0, 0, 0, 0, 1, 0⟩ [.data 0x80000000 name [] 0]) 512).offsetToName
      = 48 := by
    rw [hst]
    simp only [nodeCount, nodeCountL]
  have hflag : namedFlag (ResourceNode.data 0x80000000 name [] 0).id = true :=
    (by decide : namedFlag 0x80000000 = true)
  refine ⟨hagree, ?_, ?_⟩
  · unfold build_resources_content
    rw [construct_resources_directory, construct_resources_childs_cons]
    simp only [construct_resources, construct_resources_childs, ResourceNode.setId]
    rw [construct_name_id _ _ hflag]
    simp only [loop_state, hN]
    rfl
  · obtain ⟨buf, h1, h2⟩ := names_placed _ 512 0x1000 hagree hfit
    rw [h1, Option.some_bind]
    rw [ForallCalls, ForallCallsL] at h2
    have h3 := h2.2.1 hflag
    simp only [loop_state, hN, ResourceNode.name, h] at h3
    exact h3.1

/-- C3, counterexample: the directory with one child whose id is 0x80000000 and whose name
has 65536 code units (the tree satisfies the id/name invariant below the root): the child gets
the id 0x80000030, its name offset is 0x30, and the 16-bit length prefix at that offset in the
final buffer is 0, not 65536. -/
theorem C3_counterexample :
    (List.replicate 65536 0x41).length = 65536 ∧
    fromLE [0, 0] = 0 ∧
    names_agree (.directory 0 [] ⟨0, 0, 0, 0, 1, 0⟩
      [.data 0x80000000 (List.replicate 65536 0x41) [] 0]) = true ∧
    ((build_resources_content
        (.directory 0 [] ⟨0, 0, 0, 0, 1, 0⟩
          [.data 0x80000000 (List.replicate 65536 0x41) [] 0]) 512 0x1000).1
      = .directory 0 [] ⟨0, 0, 0, 0, 1, 0⟩
          [.data 0x80000030 (List.replicate 65536 0x41) [] 0]) ∧
    ((build_resources_content
        (.directory 0 [] ⟨0, 0, 0, 0, 1, 0⟩
          [.data 0x80000000 (List.replicate 65536 0x41) [] 0]) 512
        0x1000).2.content.bind (fun buf => readAt buf 0x30 2)) = some [0, 0] :=
  ⟨List.length_replicate _ _, rfl, long_name_record _ (List.length_replicate _ _)⟩

/-- C3, amended: (1) for every child whose id carries the named flag when the loop of
`construct_resources` reaches it, if the stores of its name fit in the buffer, then right
after them the child's new id is 0x80000000 | name offset, the 16-bit length prefix at the
name offset is the number of code units of the name modulo 2^16, and the bytes from name
offset + 2 are the code units of the name in order (two little-endian bytes each); (2) for a
tree that satisfies the id/name invariant below the root and whose size totals add up to less
than 2^32, the same holds in the final buffer of `build_resources` for every named child;
(3) the prefix reads back as the number of code units whenever the name is shorter than 65536
units. -/
theorem C3_name_record :
    (∀ (child : ResourceNode) (st : BuildState) (buf : List Nat),
      namedFlag child.id = true → st.content = some buf →
      st.offsetToName + 2 + 2 * child.name.length ≤ buf.length →
      ∃ buf', (construct_name child st).2.content = some buf' ∧
        (construct_name child st).1 = (0x80000000 ||| st.offsetToName) % 2 ^ 32 ∧
        NamePlaced buf' child st) ∧
    (∀ (root : ResourceNode) (file_alignment baseRVA : Nat),
      names_agree root = true → SizesFit root →
      ∃ buf, (build_resources_content root file_alignment baseRVA).2.content = some buf ∧
        ForallCalls (fun _ _ => True) (fun child st _ => NamePlaced buf child st) baseRVA root
          (build_resources_state root file_alignment)) ∧
    (∀ name : List Nat, name.length < 2 ^ 16 →
      fromLE (le16 (name.length % 2 ^ 16)) = name.length) := by
  refine ⟨?_, names_placed, ?_⟩
  · intro child st buf hflag hbuf hfit
    obtain ⟨buf', h1, -, h3⟩ := construct_name_placed child st buf hbuf hfit
    exact ⟨buf', h1, construct_name_id child st hflag, h3⟩
  · intro name h
    rw [fromLE_le16, Nat.mod_mod, Nat.mod_eq_of_lt h]

/-- C3, witness: the three parts at a named Data child called "AB". -/
theorem C3_name_record_witness :
    (∃ buf', (construct_name (.data 0x80000000 [0x41, 0x42] [0xAA] 0)
        { content := some (List.replicate 64 0), offsetToHeader := 0, offsetToData := 55,
          offsetToName := 48 }).2.content = some buf' ∧
      (construct_name (.data 0x80000000 [0x41, 0x42] [0xAA] 0)
        { content := some (List.replicate 64 0), offsetToHeader := 0, offsetToData := 55,
          offsetToName := 48 }).1 = (0x80000000 ||| 48) % 2 ^ 32 ∧
      NamePlaced buf' (.data 0x80000000 [0x41, 0x42] [0xAA] 0)
        { content := some (List.replicate 64 0), offsetToHeader := 0, offsetToData := 55,
          offsetToName := 48 }) ∧
    (∃ buf, (build_resources_content
        (.directory 0 [] ⟨0, 0, 0, 0, 1, 0⟩ [.data 0x80000000 [0x41, 0x42] [0xAA] 0])
        512 0x1000).2.content = some buf ∧
      ForallCalls (fun _ _ => True) (fun child st _ => NamePlaced buf child st) 0x1000
        (.directory 0 [] ⟨0, 0, 0, 0, 1, 0⟩ [.data 0x80000000 [0x41, 0x42] [0xAA] 0])
        (build_resources_state
          (.directory 0 [] ⟨0, 0, 0, 0, 1, 0⟩ [.data 0x80000000 [0x41, 0x42] [0xAA] 0])
          512)) ∧
    fromLE (le16 ([0x41, 0x42].length % 2 ^ 16)) = [0x41, 0x42].length :=
  ⟨C3_name_record.1 _ _ _ (by decide) rfl (by decide),
   C3_name_record.2.1 _ 512 0x1000 (by decide) (by unfold SizesFit; decide),
   C3_name_record.2.2 [0x41, 0x42] (by decide)⟩

/-! ## Reading back what was stored -/

theorem fromLE_le32 (v : Nat) : fromLE (le32 v) = v % 2 ^ 32 := by
  simp only [le32, fromLE]
  omega

theorem readAt_sub (buf bytes : List Nat) (off n k m : Nat)
    (h : readAt buf off n = some bytes) (hk : k + m ≤ n) :
    readAt buf (off + k) m = some ((bytes.drop k).take m) := by
  obtain ⟨h1, h2, h3⟩ := readAt_getElem? buf bytes off n h
  have hlen : ((bytes.drop k).take m).length = m := by
    rw [List.length_take, List.length_drop]; omega
  have := readAt_eq_some buf ((bytes.drop k).take m) (off + k) (by rw [hlen]; omega) (by
    intro j hj
    rw [hlen] at hj
    rw [List.getElem?_take_of_lt hj, List.getElem?_drop, ← h3 (k + j) (by omega)]
    congr 1
    omega)
  rw [hlen] at this
  exact this

theorem decode16_flatMap (name : List Nat) (h : ∀ u ∈ name, u < 2 ^ 16) :
    decode16 (name.flatMap le16) = name := by
  induction name with
  | nil => rfl
  | cons u us ih =>
    have hu := h u (List.mem_cons_self _ _)
    have hcons : (u :: us).flatMap le16 = u % 256 :: (u / 256 % 256) :: us.flatMap le16 := rfl
    rw [hcons, decode16, ih (fun v hv => h v (List.mem_cons_of_mem _ hv))]
    congr 1
    omega

theorem namedFlag_iff (id : Nat) : namedFlag id = true ↔ 2 ^ 31 ≤ id % 2 ^ 32 := by
  unfold namedFlag
  have h : (0x80000000 : Nat) = 2 ^ 31 := by norm_num
  rw [decide_eq_true_iff, h, Nat.and_comm, Nat.two_pow_and, Nat.testBit_to_div_mod]
  by_cases hc : id % 2 ^ 32 / 2 ^ 31 % 2 = 1
  · simp [hc]; omega
  · simp [hc]; omega

theorem lor_flag (x : Nat) (h : x < 2 ^ 31) : (0x80000000 ||| x) % 2 ^ 32 = 2 ^ 31 + x := by
  have := Nat.mul_add_lt_is_or h 1
  rw [Nat.mul_one] at this
  have h2 : (0x80000000 : Nat) = 2 ^ 31 := by norm_num
  rw [h2, ← this]
  omega

theorem read_entry (buf : List Nat) (off a b : Nat)
    (h : readAt buf off 8 = some (le32 a ++ le32 b)) :
    read32 buf off = some (a % 2 ^ 32) ∧ read32 buf (off + 4) = some (b % 2 ^ 32) := by
  have h1 := readAt_sub buf _ off 8 0 4 h (by omega)
  have h2 := readAt_sub buf _ off 8 4 4 h (by omega)
  simp only [Nat.add_zero] at h1
  unfold read32
  rw [h1, h2]
  exact ⟨congrArg some (fromLE_le32 a), congrArg some (fromLE_le32 b)⟩

theorem read_data_entry (buf : List Nat) (off a b c d : Nat)
    (h : readAt buf off 16 = some (le32 a ++ le32 b ++ le32 c ++ le32 d)) :
    read32 buf off = some (a % 2 ^ 32) ∧ read32 buf (off + 4) = some (b % 2 ^ 32) ∧
      read32 buf (off + 8) = some (c % 2 ^ 32) := by
  have h1 := readAt_sub buf _ off 16 0 4 h (by omega)
  have h2 := readAt_sub buf _ off 16 4 4 h (by omega)
  have h3 := readAt_sub buf _ off 16 8 4 h (by omega)
  simp only [Nat.add_zero] at h1
  unfold read32
  rw [h1, h2, h3]
  exact ⟨congrArg some (fromLE_le32 a), congrArg some (fromLE_le32 b),
    congrArg some (fromLE_le32 c)⟩

theorem read_table (buf : List Nat) (off a b c d e f : Nat)
    (h : readAt buf off 16
      = some (le32 a ++ le32 b ++ le16 c ++ le16 d ++ le16 e ++ le16 f)) :
    read32 buf off = some (a % 2 ^ 32) ∧ read32 buf (off + 4) = some (b % 2 ^ 32) ∧
      read16 buf (off + 8) = some (c % 2 ^ 16) ∧ read16 buf (off + 10) = some (d % 2 ^ 16) ∧
      read16 buf (off + 12) = some (e % 2 ^ 16) ∧ read16 buf (off + 14) = some (f % 2 ^ 16) := by
  have h1 := readAt_sub buf _ off 16 0 4 h (by omega)
  have h2 := readAt_sub buf _ off 16 4 4 h (by omega)
  have h3 := readAt_sub buf _ off 16 8 2 h (by omega)
  have h4 := readAt_sub buf _ off 16 10 2 h (by omega)
  have h5 := readAt_sub buf _ off 16 12 2 h (by omega)
  have h6 := readAt_sub buf _ off 16 14 2 h (by omega)
  simp only [Nat.add_zero] at h1
  unfold read32 read16
  rw [h1, h2, h3, h4, h5, h6]
  exact ⟨congrArg some (fromLE_le32 a), congrArg some (fromLE_le32 b),
    congrArg some (fromLE_le16 c), congrArg some (fromLE_le16 d),
    congrArg some (fromLE_le16 e), congrArg some (fromLE_le16 f)⟩

theorem construct_resources_name (n : ResourceNode) (st : BuildState) (baseRVA : Nat) :
    (construct_resources n st baseRVA).1.name = n.name := by
  cases n with
  | directory id name attrs cs => rw [construct_resources_directory]; rfl
  | data id name content cp => simp only [construct_resources, ResourceNode.name]

theorem setId_setName_name (n : ResourceNode) (i : Nat) :
    (n.setId i).setName n.name = n.setId i := by
  cases n <;> rfl

theorem read_name_placed (buf : List Nat) (child : ResourceNode) (st : BuildState)
    (hp : NamePlaced buf child st) (hflag : namedFlag child.id = true)
    (hlen : child.name.length < 2 ^ 16) (hunits : ∀ u ∈ child.name, u < 2 ^ 16) :
    read_name buf st.offsetToName = some child.name := by
  obtain ⟨h1, h2⟩ := hp hflag
  unfold read_name read16
  rw [h1]
  simp only [Option.map_some', Option.some_bind, fromLE_le16, Nat.mod_mod,
    Nat.mod_eq_of_lt hlen]
  rw [h2]
  simp only [Option.map_some', decode16_flatMap child.name hunits]

/-- What the entry of a child says: the id that the child ends up with, and the offset and
kind of its record. -/
theorem read_child_entry (buf : List Nat) (c : ResourceNode) (st : BuildState) (cur : Nat)
    (hok : child_ok c = true) (hh : st.offsetToHeader < 2 ^ 31)
    (hn : st.offsetToName + nameRecordBytes c ≤ 2 ^ 31)
    (hname : ∀ w ∈ name_stores c st, readAt buf w.offset w.bytes.length = some w.bytes)
    (hentry : readAt buf cur 8 = some (entry_store c st cur).bytes) :
    read32 buf cur = some (construct_name c st).1 ∧
    (if 2 ^ 31 ≤ (construct_name c st).1 then
        read_name buf ((construct_name c st).1 % 2 ^ 31) else some []) = some c.name ∧
    ∃ RVA, read32 buf (cur + 4) = some RVA ∧ decide (2 ^ 31 ≤ RVA) = c.isDirectory ∧
      RVA % 2 ^ 31 = st.offsetToHeader := by
  unfold child_ok at hok
  simp only [Bool.and_eq_true, decide_eq_true_eq, List.all_eq_true] at hok
  obtain ⟨⟨⟨hid, hagree⟩, hlen⟩, hunits⟩ := hok
  have hE : (entry_store c st cur).bytes
      = le32 ((construct_name c st).1 % 2 ^ 32)
        ++ le32 (if c.isDirectory then (0x80000000 ||| st.offsetToHeader) % 2 ^ 32
                 else st.offsetToHeader % 2 ^ 32) := by
    simp only [entry_store, construct_name_offsetToHeader]
    rfl
  rw [hE] at hentry
  obtain ⟨r1, r2⟩ := read_entry buf cur _ _ hentry
  simp only [Nat.mod_mod] at r1 r2
  have hidlt : (construct_name c st).1 < 2 ^ 32 := by
    unfold construct_name
    split
    · exact Nat.mod_lt _ (by norm_num)
    · exact hid
  rw [Nat.mod_eq_of_lt hidlt] at r1
  refine ⟨r1, ?_, ?_⟩
  · by_cases hflag : namedFlag c.id = true
    · have hrec : nameRecordBytes c = c.name.length * 2 + 2 + 1 := by
        unfold nameRecordBytes; rw [if_pos hflag]
      have hid' := construct_name_id c st hflag
      rw [lor_flag _ (by omega)] at hid'
      rw [hid', if_pos (by omega)]
      have : (2 ^ 31 + st.offsetToName) % 2 ^ 31 = st.offsetToName := by omega
      rw [this]
      exact read_name_placed buf c st (namePlaced_of_held buf c st hname) hflag hlen
        (fun u hu => by simpa using hunits u hu)
    · have hid' : (construct_name c st).1 = c.id := by
        rw [construct_name_of_not_flag c st (by simpa using hflag)]
      have hnf : ¬ 2 ^ 31 ≤ c.id % 2 ^ 32 := fun h => hflag ((namedFlag_iff c.id).2 h)
      rw [Nat.mod_eq_of_lt hid] at hnf
      rw [hid', if_neg hnf]
      unfold flag_agrees at hagree
      simp only [Bool.not_eq_true] at hflag
      rw [hflag] at hagree
      cases hn : c.name with
      | nil => rfl
      | cons x xs => rw [hn] at hagree; simp at hagree
  · refine ⟨_, r2, ?_, ?_⟩
    · cases hd : c.isDirectory
      · simp only [Bool.false_eq_true, if_false, decide_eq_false_iff_not]
        omega
      · simp only [if_true, lor_flag _ hh, decide_eq_true_eq]
        omega
    · cases hd : c.isDirectory
      · simp only [Bool.false_eq_true, if_false]
        omega
      · simp only [if_true, lor_flag _ hh]
        omega

/-- The reader, run on a buffer that holds the stores of a call of `construct_resources`,
gives back the node that the call returns (with the id and name handed to the reader). -/
theorem read_correct (buf : List Nat) (baseRVA N0 D0 L : Nat) (hD : D0 ≤ 2 ^ 31) :
    (∀ n : ResourceNode, ∀ st fuel id name, Layout N0 D0 L n st → well_formed n = true →
      (∀ w ∈ stores n st baseRVA, readAt buf w.offset w.bytes.length = some w.bytes) →
      depth n ≤ fuel →
      read_node fuel buf baseRVA id name n.isDirectory st.offsetToHeader
        = some (((construct_resources n st baseRVA).1.setId id).setName name)) ∧
    (∀ cs : List ResourceNode, ∀ st cur fuel, LayoutL N0 D0 L cs st cur →
      well_formedL cs = true →
      (∀ w ∈ stores_childs cs st cur baseRVA,
        readAt buf w.offset w.bytes.length = some w.bytes) →
      depthL cs ≤ fuel →
      read_entries (read_node fuel buf baseRVA) buf cur cs.length
        = some (construct_resources_childs cs st cur baseRVA).1) := by
  apply ResourceNode.induction
  · intro nid nname attrs cs ih st fuel id name hl hwf hheld hfuel
    obtain ⟨e1, e2, e3, e4, hL⟩ := loop_state_layout N0 D0 L nid nname attrs cs st hl
    simp only [well_formed, attrs_typed, Bool.and_eq_true, decide_eq_true_eq] at hwf
    obtain ⟨⟨⟨⟨⟨⟨⟨t1, t2⟩, t3⟩, t4⟩, t5⟩, t6⟩, hcount⟩, hwfL⟩ := hwf
    simp only [depth] at hfuel
    obtain ⟨fuel', rfl⟩ : ∃ f, fuel = f + 1 := ⟨fuel - 1, by omega⟩
    rw [stores_directory, e1] at hheld
    have htable := hheld _ (List.mem_cons_self _ _)
    have hT : (rsrcHeader attrs).bytes.take ResourceDirectoryTableSize
        = le32 (attrs.characteristics % 2 ^ 32) ++ le32 (attrs.timeDateStamp % 2 ^ 32)
          ++ le16 (attrs.majorVersion % 2 ^ 16) ++ le16 (attrs.minorVersion % 2 ^ 16)
          ++ le16 (attrs.numberOfNameEntries % 2 ^ 16)
          ++ le16 (attrs.numberOfIDEntries % 2 ^ 16) := rfl
    simp only [rsrcHeader_bytes_length] at htable
    rw [hT] at htable
    obtain ⟨r1, r2, r3, r4, r5, r6⟩ := read_table buf _ _ _ _ _ _ _ htable
    simp only [Nat.mod_mod] at r1 r2 r3 r4 r5 r6
    rw [Nat.mod_eq_of_lt t1] at r1
    rw [Nat.mod_eq_of_lt t2] at r2
    rw [Nat.mod_eq_of_lt t3] at r3
    rw [Nat.mod_eq_of_lt t4] at r4
    rw [Nat.mod_eq_of_lt t5] at r5
    rw [Nat.mod_eq_of_lt t6] at r6
    have hrec := ih (loop_state attrs cs st) (st.offsetToHeader + 16) fuel' hL hwfL
      (fun w hw => hheld w (List.mem_cons_of_mem _ hw)) (by omega)
    rw [construct_resources_directory, e1]
    simp only [read_node, ResourceNode.isDirectory, if_true, r1, r2, r3, r4, r5, r6,
      Option.some_bind, hcount, hrec, Option.map_some', ResourceNode.setId,
      ResourceNode.setName]
  · intro nid nname content cp st fuel id name hl hwf hheld hfuel
    obtain ⟨h1, h2, h3, h4, h5, h6⟩ := hl
    simp only [dataBytes] at h5
    simp only [well_formed, decide_eq_true_eq] at hwf
    simp only [depth] at hfuel
    obtain ⟨fuel', rfl⟩ : ∃ f, fuel = f + 1 := ⟨fuel - 1, by omega⟩
    simp only [stores, List.mem_cons, List.mem_singleton, List.not_mem_nil, or_false,
      forall_eq_or_imp, forall_eq, dataHeader_bytes_length] at hheld
    obtain ⟨hrecord, hcontent⟩ := hheld
    have hT : (dataHeader content cp baseRVA st.offsetToData).bytes.take ResourceDataEntrySize
        = le32 ((baseRVA + st.offsetToData) % 2 ^ 32) ++ le32 (content.length % 2 ^ 32)
          ++ le32 (cp % 2 ^ 32) ++ le32 0 := rfl
    rw [hT] at hrecord
    obtain ⟨r1, r2, r3⟩ := read_data_entry buf _ _ _ _ _ hrecord
    simp only [Nat.mod_mod] at r1 r2 r3
    rw [Nat.mod_eq_of_lt (by omega : content.length < 2 ^ 32)] at r2
    rw [Nat.mod_eq_of_lt hwf] at r3
    have hoff : ((baseRVA + st.offsetToData) % 2 ^ 32 + 2 ^ 32 - baseRVA % 2 ^ 32) % 2 ^ 32
        = st.offsetToData := by omega
    simp only [read_node, ResourceNode.isDirectory, Bool.false_eq_true, if_false, r1, r2, r3,
      Option.some_bind, hoff, hcontent, Option.map_some', construct_resources,
      ResourceNode.setId, ResourceNode.setName]
  · intro st cur fuel _ _ _ _
    rfl
  · intro c cs ihc ihcs st cur fuel hl hwf hheld hfuel
    obtain ⟨h0, h1, h2, h3, h4, h5, h6⟩ := hl
    simp only [headerBytesL, nameBytesL, dataBytesL, List.length_cons,
      ResourceDirectoryEntriesSize] at h0 h1 h3 h5
    simp only [well_formedL, Bool.and_eq_true] at hwf
    obtain ⟨⟨hok, hwfc⟩, hwfL⟩ := hwf
    simp only [depthL] at hfuel
    obtain ⟨a1, a2, a3⟩ := call_state_cursors c st cur (by omega)
    have hlc : Layout N0 D0 L c (call_state c st cur) := by
      unfold Layout; rw [a1, a2, a3]; omega
    obtain ⟨c1, c2, c3⟩ := construct_exact.1 c _ baseRVA N0 D0 L hlc
    rw [a1] at c1
    rw [a2] at c2
    rw [a3] at c3
    have hlr : LayoutL N0 D0 L cs (construct_resources c (call_state c st cur) baseRVA).2
        ((cur + ResourceDirectoryEntriesSize) % 2 ^ 32) := by
      unfold LayoutL; rw [c1, c2, c3]
      simp only [ResourceDirectoryEntriesSize]; omega
    have hcur : (cur + ResourceDirectoryEntriesSize) % 2 ^ 32 = cur + 8 := by
      simp only [ResourceDirectoryEntriesSize]; omega
    rw [stores_childs_cons] at hheld
    simp only [List.mem_append, List.mem_cons] at hheld
    have hhb : headerBytes c ≥ 16 := by
      cases c <;> simp only [headerBytes, ResourceDirectoryTableSize] <;> omega
    obtain ⟨e1, e2, RVA, e3, e4, e5⟩ := read_child_entry buf c st cur hok (by omega) (by omega)
      (fun w hw => hheld w (Or.inl hw))
      (by
        have := hheld (entry_store c st cur) (Or.inr (Or.inl rfl))
        simpa only [entry_store, entryHeader_bytes_length] using this)
    have hchild := ihc (call_state c st cur) fuel (construct_name c st).1 c.name hlc hwfc
      (fun w hw => hheld w (Or.inr (Or.inr (Or.inl hw)))) (by omega)
    have hsn := setId_setName_name (construct_resources c (call_state c st cur) baseRVA).1
      (construct_name c st).1
    rw [construct_resources_name] at hsn
    rw [a1, hsn] at hchild
    have hrest := ihcs _ _ fuel hlr hwfL
      (fun w hw => hheld w (Or.inr (Or.inr (Or.inr hw)))) (by omega)
    rw [hcur] at hrest
    rw [construct_resources_childs_cons, hcur]
    simp only [read_entries, e1, e2, e3, e4, e5, Option.some_bind, hchild, hrest,
      Option.map_some']

/-! ## C4: the round trip -/

theorem namedFlag_lor (x : Nat) : namedFlag ((0x80000000 ||| x) % 2 ^ 32) = true := by
  have h : (0x80000000 : Nat) = 2 ^ 31 := by norm_num
  unfold namedFlag
  rw [decide_eq_true_iff, h, Nat.mod_mod, Nat.and_comm, Nat.two_pow_and,
    Nat.testBit_mod_two_pow, Nat.testBit_or, Nat.testBit_two_pow_self]
  simp

theorem construct_name_same_entry (c : ResourceNode) (st : BuildState) (x : ResourceNode)
    (hx : x.name = c.name) : same_entry c (x.setId (construct_name c st).1) = true := by
  have hn : (x.setId (construct_name c st).1).name = c.name := by
    rw [← hx]; cases x <;> rfl
  have hi : (x.setId (construct_name c st).1).id = (construct_name c st).1 := by
    cases x <;> rfl
  unfold same_entry
  rw [hn, hi]
  by_cases hflag : namedFlag c.id = true
  · rw [if_pos hflag, construct_name_id c st hflag, namedFlag_lor]
    simp
  · rw [if_neg hflag, construct_name_of_not_flag c st (by simpa using hflag)]
    simp

theorem isomorphic_setId (n m : ResourceNode) (i : Nat) :
    isomorphic n (m.setId i) = isomorphic n m := by
  cases n <;> cases m <;> simp [ResourceNode.setId, isomorphic]

theorem isomorphic_setName (n m : ResourceNode) (v : List Nat) :
    isomorphic n (m.setName v) = isomorphic n m := by
  cases n <;> cases m <;> simp [ResourceNode.setName, isomorphic]

/-- The tree that `construct_resources` returns is isomorphic to the tree it was given. -/
theorem construct_isomorphic (baseRVA : Nat) :
    (∀ n : ResourceNode, ∀ st, isomorphic n (construct_resources n st baseRVA).1 = true) ∧
    (∀ cs : List ResourceNode, ∀ st cur,
      isomorphicL cs (construct_resources_childs cs st cur baseRVA).1 = true) := by
  apply ResourceNode.induction
  · intro id name attrs cs ih st
    rw [construct_resources_directory]
    simp only [isomorphic, beq_self_eq_true, Bool.true_and, ih]
  · intro id name content cp st
    simp only [construct_resources, isomorphic, beq_self_eq_true, Bool.and_self]
  · intro st cur
    rfl
  · intro c cs ihc ihcs st cur
    rw [construct_resources_childs_cons]
    simp only [isomorphicL, Bool.and_eq_true]
    exact ⟨⟨construct_name_same_entry c st _ (construct_resources_name c _ baseRVA),
      by rw [isomorphic_setId]; exact ihc _⟩, ihcs _ _⟩

theorem well_formed_names_agree :
    (∀ n : ResourceNode, well_formed n = true → names_agree n = true) ∧
    (∀ cs : List ResourceNode, well_formedL cs = true → names_agreeL cs = true) := by
  apply ResourceNode.induction
  · intro id name attrs cs ih h
    simp only [well_formed, Bool.and_eq_true] at h
    simp only [names_agree, ih h.2]
  · intro id name content cp _
    rfl
  · intro _
    rfl
  · intro c cs ihc ihcs h
    simp only [well_formedL, child_ok, Bool.and_eq_true] at h
    simp only [names_agreeL, Bool.and_eq_true]
    exact ⟨⟨h.1.1.1.1.2, ihc h.1.2⟩, ihcs h.2⟩

set_option maxRecDepth 100000 in
/-- C4 as stated fails: (1) a tree that satisfies the data-model invariant, with one named Data
child: the child is read back with the id 0x80000030 (flag and name offset), not 0x80000000;
(2) a directory whose entry counts are 0 while it has one child is read back without children;
(3) a child with a name but an id without the named flag is read back without its name;
(4) a Data root is read back as a directory. -/
theorem C4_counterexample :
    (id_name_invariant
        (.directory 0 [] ⟨0, 0, 0, 0, 1, 0⟩ [.data 0x80000000 [0x41] [0xAA] 0]) = true ∧
      serialize_then_read
        (.directory 0 [] ⟨0, 0, 0, 0, 1, 0⟩ [.data 0x80000000 [0x41] [0xAA] 0]) 512 0x1000 8
        = some (.directory 0 [] ⟨0, 0, 0, 0, 1, 0⟩ [.data 0x80000030 [0x41] [0xAA] 0])) ∧
    (id_name_invariant (.directory 0 [] ⟨0, 0, 0, 0, 0, 0⟩ [.data 1 [] [0xAA] 0]) = true ∧
      serialize_then_read
        (.directory 0 [] ⟨0, 0, 0, 0, 0, 0⟩ [.data 1 [] [0xAA] 0]) 512 0x1000 8
        = some (.directory 0 [] ⟨0, 0, 0, 0, 0, 0⟩ [])) ∧
    serialize_then_read
        (.directory 0 [] ⟨0, 0, 0, 0, 0, 1⟩ [.data 1 [0x41] [0xAA] 0]) 512 0x1000 8
      = some (.directory 0 [] ⟨0, 0, 0, 0, 0, 1⟩ [.data 1 [] [0xAA] 0]) ∧
    (id_name_invariant (.data 1 [] [0xAA] 0) = true ∧
      serialize_then_read (.data 1 [] [0xAA] 0) 512 0x1000 8
        = some (.directory 0 [] ⟨0x1018, 1, 0, 0, 0, 0⟩ [])) :=
  ⟨⟨by decide, by rfl⟩, ⟨by decide, by rfl⟩, by rfl, by decide, by rfl⟩

/-- C4 (amended): for a Directory root whose tree is well formed below the root (entry counts
equal to the number of children, typed fields, ids that agree with the names, names shorter
than 65536 code units) and whose sizes fit (totals below 2^32, header and name regions within
2^31), `build_resources` produces a buffer, the reader returns from it the tree that the
serializer leaves in the model (the root with id 0 and no name), and that tree is isomorphic to
the original: same shape and child order, same attributes, content bytes and code pages, same
names, same ids for unnamed children and the named flag for named children. -/
theorem C4_round_trip (root : ResourceNode) (file_alignment baseRVA : Nat)
    (hdir : root.isDirectory = true) (hwf : well_formed root = true) (hfit : SizesFit root)
    (h31 : 24 * nodeCount root + plannedNameBytes root ≤ 2 ^ 31) :
    ∃ buf, (build_resources_content root file_alignment baseRVA).2.content = some buf ∧
      (∀ fuel, depth root ≤ fuel →
        read_resources fuel buf baseRVA
          = some (((build_resources_content root file_alignment baseRVA).1.setId 0).setName
              []) ∧
        serialize_then_read root file_alignment baseRVA fuel
          = some (((build_resources_content root file_alignment baseRVA).1.setId 0).setName
              [])) ∧
      isomorphic root
        (((build_resources_content root file_alignment baseRVA).1.setId 0).setName [])
        = true := by
  have hagree := well_formed_names_agree.1 root hwf
  obtain ⟨buf, h1, -, h3, -⟩ :=
    build_resources_content_spec root file_alignment baseRVA hagree hfit
  have hl := build_resources_layout root file_alignment hagree hfit
  have hst := build_resources_state_eq root file_alignment hfit
  have hread : ∀ fuel, depth root ≤ fuel →
      read_resources fuel buf baseRVA
        = some (((build_resources_content root file_alignment baseRVA).1.setId 0).setName
            []) := by
    intro fuel hfuel
    have := (read_correct buf baseRVA _ _ _ h31).1 root _ fuel 0 [] hl hwf h3 hfuel
    rw [hdir] at this
    have h0 : (build_resources_state root file_alignment).offsetToHeader = 0 := by rw [hst]
    rw [h0] at this
    exact this
  refine ⟨buf, h1, ?_, ?_⟩
  · intro fuel hfuel
    refine ⟨hread fuel hfuel, ?_⟩
    unfold serialize_then_read
    rw [h1, Option.some_bind]
    exact hread fuel hfuel
  · rw [isomorphic_setName, isomorphic_setId]
    exact (construct_isomorphic baseRVA).1 root _

theorem C4_round_trip_witness :
    example_resources.isDirectory = true ∧ well_formed example_resources = true ∧
    SizesFit example_resources ∧
    24 * nodeCount example_resources + plannedNameBytes example_resources ≤ 2 ^ 31 ∧
    ∃ buf, (build_resources_content example_resources 512 0x1000).2.content = some buf ∧
      (∀ fuel, depth example_resources ≤ fuel →
        read_resources fuel buf 0x1000
          = some (((build_resources_content example_resources 512 0x1000).1.setId 0).setName
              []) ∧
        serialize_then_read example_resources 512 0x1000 fuel
          = some (((build_resources_content example_resources 512 0x1000).1.setId 0).setName
              [])) ∧
      isomorphic example_resources
        (((build_resources_content example_resources 512 0x1000).1.setId 0).setName [])
        = true :=
  ⟨rfl, by decide, by unfold SizesFit; decide, by decide,
   C4_round_trip example_resources 512 0x1000 rfl (by decide) (by unfold SizesFit; decide)
     (by decide)⟩

/-! ## C11: a model without resource root -/

theorem set_build_resources_step_tls (ext : Collaborators) (b : Builder) (f : Bool) :
    Builder.build_step_tls ext (b.set_build_resources f)
      = (Builder.build_step_tls ext b).set_build_resources f := by
  unfold Builder.build_step_tls Builder.set_build_resources
  split <;> rfl

theorem set_build_resources_step_relocation (ext : Collaborators) (b : Builder) (f : Bool) :
    Builder.build_step_relocation ext (b.set_build_resources f)
      = (Builder.build_step_relocation ext b).set_build_resources f := by
  unfold Builder.build_step_relocation Builder.set_build_resources Builder.build_relocation
  split <;> rfl

theorem set_build_resources_step_imports (ext : Collaborators) (b : Builder) (f : Bool) :
    Builder.build_step_imports ext (b.set_build_resources f)
      = (Builder.build_step_imports ext b).set_build_resources f := by
  unfold Builder.build_step_imports Builder.set_build_resources
  split <;> rfl

theorem set_build_resources_foldl {α : Type} (g : Builder → α → Builder) (f : Bool)
    (hg : ∀ b a, g (b.set_build_resources f) a = (g b a).set_build_resources f)
    (xs : List α) (b : Builder) :
    xs.foldl g (b.set_build_resources f) = (xs.foldl g b).set_build_resources f := by
  induction xs generalizing b with
  | nil => rfl
  | cons x xs ih => rw [List.foldl_cons, hg, ih, List.foldl_cons]

theorem set_build_resources_writes (ext : Collaborators) (b : Builder) (f : Bool) :
    Builder.build_writes ext (b.set_build_resources f)
      = (Builder.build_writes ext b).set_build_resources f := by
  have h1 : ∀ (b : Builder) d, Builder.put_DosHeader (b.set_build_resources f) d
      = (Builder.put_DosHeader b d).set_build_resources f := fun _ _ => rfl
  have h2 : ∀ (b : Builder) d, Builder.put_Header (b.set_build_resources f) d
      = (Builder.put_Header b d).set_build_resources f := fun _ _ => rfl
  have h3 : ∀ (b : Builder) d, Builder.put_OptionalHeader ext (b.set_build_resources f) d
      = (Builder.put_OptionalHeader ext b d).set_build_resources f := fun _ _ => rfl
  have h4 : ∀ (b : Builder) d, Builder.put_DataDirectory (b.set_build_resources f) d
      = (Builder.put_DataDirectory b d).set_build_resources f := fun _ _ => rfl
  have h5 : ∀ (b : Builder) d, Builder.put_Section (b.set_build_resources f) d
      = (Builder.put_Section b d).set_build_resources f := fun _ _ => rfl
  have hb : ∀ b : Builder, (b.set_build_resources f).binary_ = b.binary_ := fun _ => rfl
  unfold Builder.build_writes
  simp only [hb, h1, h2, h3, h4, set_build_resources_foldl _ f h4,
    set_build_resources_foldl _ f h5]

/-- C11: when the model has no resource tree root at the moment `build()` reaches the resource
step (whatever `has_resources` reports and whatever the resource flag is), `build()` completes,
the resource step is skipped: the import step and the writers receive the model and the sink
that the relocation step left, and no call of `build_resources` is recorded; and the result is the
one obtained with the resource flag disabled (the two builders differ in that flag only). -/
theorem C11_missing_resource_root_skips_step (ext : Collaborators) (b : Builder)
    (hroot : (Builder.build_step_relocation ext
      (Builder.build_step_tls ext b)).binary_.resources = none) :
    ∃ r, Builder.build ext b = some r ∧
      Builder.build ext (b.set_build_resources false) = some (r.set_build_resources false) ∧
      r = Builder.build_writes ext (Builder.build_step_imports ext
        (Builder.build_step_relocation ext (Builder.build_step_tls ext b))) ∧
      r.binary_ = (Builder.build_step_imports ext
        (Builder.build_step_relocation ext (Builder.build_step_tls ext b))).binary_ ∧
      ∀ e ∈ r.history.drop b.history.length, e ≠ Event.build_resources := by
  have hsteps : Builder.build_steps ext b = some (Builder.build_step_imports ext
      (Builder.build_step_relocation ext (Builder.build_step_tls ext b))) := by
    unfold Builder.build_steps
    have h3 : Builder.build_step_resources ext
        (Builder.build_step_relocation ext (Builder.build_step_tls ext b))
        = some (Builder.build_step_relocation ext (Builder.build_step_tls ext b)) := by
      unfold Builder.build_step_resources
      rw [hroot]
    rw [h3]
    rfl
  have hbuild : Builder.build ext b = some (Builder.build_writes ext
      (Builder.build_step_imports ext
        (Builder.build_step_relocation ext (Builder.build_step_tls ext b)))) := by
    unfold Builder.build
    rw [hsteps]
    rfl
  refine ⟨_, hbuild, ?_, rfl, (build_writes_spec ext _).1, ?_⟩
  · rw [build_of_resources_disabled ext (b.set_build_resources false) rfl,
      set_build_resources_step_tls, set_build_resources_step_relocation,
      set_build_resources_step_imports, set_build_resources_writes]
  · obtain ⟨s, rest, hs, -, hh, hw, -⟩ := build_spec ext b _ hbuild
    obtain ⟨m1, m2, m3, hm1, hm2, -, -, -, hsh, -⟩ := build_steps_spec ext b s hs
    have hm2r : m2.resources = none := by
      have e1 := (build_step_tls_spec ext b).2.1
      have s1 := (build_step_tls_spec ext b).1
      have e2 := (build_step_relocation_spec ext (Builder.build_step_tls ext b)).2.1
      rw [e2, e1, s1.2.2.1, ← hm1, ← hm2] at hroot
      exact hroot
    intro e he heq
    subst heq
    rw [hh, hsh, List.append_assoc, List.drop_left] at he
    simp only [hm2r, Option.isSome_none, Bool.and_false, Bool.false_and, Bool.false_eq_true,
      if_false, List.append_nil, List.mem_append, List.mem_cons] at he
    rcases he with ((h | h) | h) | h
    · split at h
      · simp only [List.mem_singleton, reduceCtorEq] at h
      · exact absurd h (List.not_mem_nil _)
    · split at h
      · simp only [List.mem_singleton, reduceCtorEq] at h
      · exact absurd h (List.not_mem_nil _)
    · split at h
      · simp only [List.mem_singleton, reduceCtorEq] at h
      · exact absurd h (List.not_mem_nil _)
    · rcases h with h | h | h
      · exact absurd h (by simp)
      · exact absurd h (by simp)
      · exact absurd (hw _ h) (by simp [Event.isWrite, Event.isStep])

theorem C11_missing_resource_root_skips_step_witness :
    example_binary_without_root.has_resources = true ∧
    ((Builder.new example_binary_without_root).set_build_resources true).build_resources_
      = true ∧
    (Builder.build_step_relocation example_collaborators
      (Builder.build_step_tls example_collaborators
        ((Builder.new example_binary_without_root).set_build_resources
          true))).binary_.resources = none ∧
    ∃ r, Builder.build example_collaborators
        ((Builder.new example_binary_without_root).set_build_resources true) = some r ∧
      Builder.build example_collaborators
        (((Builder.new example_binary_without_root).set_build_resources
          true).set_build_resources false) = some (r.set_build_resources false) ∧
      r = Builder.build_writes example_collaborators
        (Builder.build_step_imports example_collaborators
          (Builder.build_step_relocation example_collaborators
            (Builder.build_step_tls example_collaborators
              ((Builder.new example_binary_without_root).set_build_resources true)))) ∧
      r.binary_ = (Builder.build_step_imports example_collaborators
        (Builder.build_step_relocation example_collaborators
          (Builder.build_step_tls example_collaborators
            ((Builder.new example_binary_without_root).set_build_resources
              true)))).binary_ ∧
      ∀ e ∈ r.history.drop
          ((Builder.new example_binary_without_root).set_build_resources true).history.length,
        e ≠ Event.build_resources :=
  ⟨rfl, rfl, rfl, C11_missing_resource_root_skips_step example_collaborators _ rfl⟩

/-! ## The output sink -/

theorem write_pos (s : vector_iostream) (bytes : List Nat) :
    (s.write bytes).pos = s.pos + bytes.length := rfl

theorem write_length (s : vector_iostream) (bytes : List Nat) :
    (s.write bytes).raw.length = max s.raw.length (s.pos + bytes.length) := by
  simp only [vector_iostream.write, List.length_append, List.length_take, List.length_drop,
    List.length_replicate]
  omega

theorem write_getElem? (s : vector_iostream) (bytes : List Nat) (i : Nat) :
    (s.write bytes).raw[i]?
      = if i < s.pos then some (s.raw[i]?.getD 0)
        else if i < s.pos + bytes.length then bytes[i - s.pos]? else s.raw[i]? := by
  have hlen : (s.raw ++ List.replicate (s.pos + bytes.length - s.raw.length) 0).length
      = max s.raw.length (s.pos + bytes.length) := by
    rw [List.length_append, List.length_replicate]; omega
  have htake : ((s.raw ++ List.replicate (s.pos + bytes.length - s.raw.length) 0).take
      s.pos).length = s.pos := by
    rw [List.length_take, hlen]; omega
  simp only [vector_iostream.write]
  by_cases h1 : i < s.pos
  · rw [if_pos h1, List.append_assoc, List.getElem?_append_left (by omega),
      List.getElem?_take_of_lt h1]
    by_cases h2 : i < s.raw.length
    · rw [List.getElem?_append_left h2, List.getElem?_eq_getElem h2]
      rfl
    · rw [List.getElem?_append_right (by omega), List.getElem?_replicate,
        if_pos (by omega), List.getElem?_eq_none (by omega)]
      rfl
  · rw [if_neg h1]
    by_cases h2 : i < s.pos + bytes.length
    · rw [if_pos h2, List.append_assoc, List.getElem?_append_right (by omega),
        List.getElem?_append_left (by omega), htake]
    · rw [if_neg h2, List.getElem?_append_right (by rw [List.length_append, htake]; omega),
        List.getElem?_drop, List.length_append, htake]
      have e : s.pos + bytes.length + (i - (s.pos + bytes.length)) = i := by omega
      rw [e]
      by_cases h3 : i < s.raw.length
      · rw [List.getElem?_append_left h3]
      · rw [List.getElem?_eq_none (by rw [hlen]; omega), List.getElem?_eq_none (by omega)]

/-- What was written is in the sink at the position of the write. -/
theorem write_readAt (s : vector_iostream) (bytes : List Nat) :
    readAt (s.write bytes).raw s.pos bytes.length = some bytes := by
  apply readAt_eq_some
  · rw [write_length]; omega
  · intro j hj
    rw [write_getElem?, if_neg (by omega), if_pos (by omega)]
    congr 1
    omega

/-- Consecutive writes: what the writes since position `p` have put in the sink is extended by
the bytes of the next write. -/
theorem write_readAt_append (s : vector_iostream) (p : Nat) (acc bytes : List Nat)
    (hp : p ≤ s.pos) (h : readAt s.raw p (s.pos - p) = some acc) :
    readAt (s.write bytes).raw p (s.pos + bytes.length - p) = some (acc ++ bytes) := by
  obtain ⟨h1, h2, h3⟩ := readAt_getElem? _ _ _ _ h
  have e : s.pos + bytes.length - p = (acc ++ bytes).length := by
    rw [List.length_append, h2]; omega
  rw [e]
  apply readAt_eq_some
  · rw [write_length, List.length_append, h2]; omega
  · intro j hj
    rw [List.length_append] at hj
    rw [write_getElem?]
    by_cases hj1 : j < acc.length
    · rw [if_pos (by omega), h3 j (by omega), List.getElem?_append_left hj1,
        List.getElem?_eq_getElem hj1]
      rfl
    · rw [if_neg (by omega), if_pos (by omega), List.getElem?_append_right (by omega)]
      congr 1
      omega

/-! ## The writers of `build()` phase by phase -/

theorem build_writes_phases (ext : Collaborators) (b : Builder) :
    Builder.build_writes ext b
      = Builder.build_sections (Builder.build_data_directories (Builder.build_headers ext b)) :=
  rfl

theorem put_DataDirectory_bytes (d : DataDirectory) :
    pe_data_directory.bytes
        { RelativeVirtualAddress := d.RVA % 2 ^ 32, Size := d.size % 2 ^ 32 }
      = le32 d.RVA ++ le32 d.size := by
  simp only [pe_data_directory.bytes, le32_mod]

theorem directory_writes_length (p : Nat) (ds : List DataDirectory) :
    (directory_writes p ds).length = ds.length := by
  induction ds generalizing p with
  | nil => rfl
  | cons d ds ih => simp only [directory_writes, List.length_cons, ih]

theorem directory_table_bytes_length (ds : List DataDirectory) :
    (directory_table_bytes ds).length = 8 * ds.length := by
  induction ds with
  | nil => rfl
  | cons d ds ih =>
    simp only [directory_table_bytes, List.flatMap_cons, List.length_append, le32_length,
      List.length_cons] at ih ⊢
    omega

/-- The loop over the data directories: model and flags untouched, one event per descriptor at
consecutive offsets, the cursor advanced by 8 bytes per descriptor, and the bytes written
since `p` extended by the table. -/
theorem foldl_put_DataDirectory (ds : List DataDirectory) (b : Builder) :
    (ds.foldl Builder.put_DataDirectory b).binary_ = b.binary_ ∧
    (ds.foldl Builder.put_DataDirectory b).history
      = b.history ++ directory_writes b.ios_.pos ds ∧
    (ds.foldl Builder.put_DataDirectory b).ios_.pos = b.ios_.pos + 8 * ds.length ∧
    ∀ p acc, p ≤ b.ios_.pos → readAt b.ios_.raw p (b.ios_.pos - p) = some acc →
      readAt (ds.foldl Builder.put_DataDirectory b).ios_.raw p
        (b.ios_.pos + 8 * ds.length - p) = some (acc ++ directory_table_bytes ds) := by
  induction ds generalizing b with
  | nil =>
    refine ⟨rfl, by simp [directory_writes], rfl, ?_⟩
    intro p acc _ h
    simpa [directory_table_bytes] using h
  | cons d ds ih =>
    obtain ⟨i1, i2, i3, i4⟩ := ih (Builder.put_DataDirectory b d)
    have hpos : (Builder.put_DataDirectory b d).ios_.pos = b.ios_.pos + 8 := by
      simp only [Builder.put_DataDirectory, write_pos]
      rfl
    have hhist : (Builder.put_DataDirectory b d).history
        = b.history ++ [Event.data_directory b.ios_.pos
            { RelativeVirtualAddress := d.RVA % 2 ^ 32, Size := d.size % 2 ^ 32 }] := by
      simp only [Builder.put_DataDirectory, vector_iostream.tellp]
    have hbin : (Builder.put_DataDirectory b d).binary_ = b.binary_ := by
      simp only [Builder.put_DataDirectory]
    rw [List.foldl_cons]
    refine ⟨i1.trans hbin, ?_, ?_, ?_⟩
    · rw [i2, hhist, hpos, List.append_assoc]
      rfl
    · rw [i3, hpos, List.length_cons]; omega
    · intro p acc hp h
      have hw := write_readAt_append b.ios_ p acc
        (pe_data_directory.bytes
          { RelativeVirtualAddress := d.RVA % 2 ^ 32, Size := d.size % 2 ^ 32 }) hp h
      have hraw : (Builder.put_DataDirectory b d).ios_.raw
          = (b.ios_.write (pe_data_directory.bytes
              { RelativeVirtualAddress := d.RVA % 2 ^ 32, Size := d.size % 2 ^ 32 })).raw := by
        simp only [Builder.put_DataDirectory]
      have hl : (pe_data_directory.bytes
          { RelativeVirtualAddress := d.RVA % 2 ^ 32, Size := d.size % 2 ^ 32 }).length
          = 8 := rfl
      rw [hl] at hw
      have := i4 p (acc ++ pe_data_directory.bytes
          { RelativeVirtualAddress := d.RVA % 2 ^ 32, Size := d.size % 2 ^ 32 })
        (by rw [hpos]; omega) (by rw [hpos, hraw]; exact hw)
      rw [hpos] at this
      rw [List.length_cons]
      have e : b.ios_.pos + 8 + 8 * ds.length - p = b.ios_.pos + 8 * (ds.length + 1) - p := by
        omega
      rw [← e, this, put_DataDirectory_bytes, List.append_assoc]
      rfl

theorem fixed8_length (n : Nat) (xs : List Nat) : (fixed8 n xs).length = n := by
  simp only [fixed8, List.length_map, List.length_append, List.length_take,
    List.length_replicate]
  omega

theorem pe_header_bytes_length (r : pe_header) : r.bytes.length = 24 := by
  simp only [pe_header.bytes, List.length_append, fixed8_length, le16_length, le32_length]

theorem pe_section_bytes_length (r : pe_section) : r.bytes.length = 40 := by
  simp only [pe_section.bytes, List.length_append, fixed8_length, le16_length, le32_length]

theorem directory_writes_append (p : Nat) (xs ys : List DataDirectory) :
    directory_writes p (xs ++ ys)
      = directory_writes p xs ++ directory_writes (p + 8 * xs.length) ys := by
  induction xs generalizing p with
  | nil => rfl
  | cons x xs ih =>
    have e : p + 8 * (xs.length + 1) = p + 8 + 8 * xs.length := by omega
    rw [List.cons_append, directory_writes, directory_writes, ih, List.length_cons, e,
      List.cons_append]

/-- The header phase: the DOS header at offset 0, the file header at the address of the new
header recorded in the model, the optional header right after it. -/
theorem build_headers_spec (ext : Collaborators) (b : Builder) :
    (Builder.build_headers ext b).binary_ = b.binary_ ∧
    (Builder.build_headers ext b).history
      = b.history ++ [Event.dos_header 0 (Builder.dosHeader b.binary_.dos_header),
          Event.header (b.binary_.dos_header.addressof_new_exeheader % 2 ^ 32)
            (Builder.header b b.binary_.header),
          Event.optional_header (b.binary_.dos_header.addressof_new_exeheader % 2 ^ 32 + 24)] ∧
    (Builder.build_headers ext b).ios_.pos
      = b.binary_.dos_header.addressof_new_exeheader % 2 ^ 32 + 24
        + (ext.build_optional_header b.binary_.type b.binary_.optional_header).length ∧
    (Builder.build_headers ext b).ios_.pos ≤ (Builder.build_headers ext b).ios_.raw.length := by
  refine ⟨?_, ?_, ?_, ?_⟩
  · simp only [Builder.build_headers, Builder.put_OptionalHeader, Builder.put_Header,
      Builder.put_DosHeader]
  · simp only [Builder.build_headers, Builder.put_OptionalHeader, Builder.put_Header,
      Builder.put_DosHeader, vector_iostream.seekp, vector_iostream.tellp, write_pos,
      pe_header_bytes_length, Builder.header, List.append_assoc, List.singleton_append,
      List.cons_append, List.nil_append]
  · simp only [Builder.build_headers, Builder.put_OptionalHeader, Builder.put_Header,
      Builder.put_DosHeader, vector_iostream.seekp, write_pos, pe_header_bytes_length]
  · simp only [Builder.build_headers, Builder.put_OptionalHeader, write_pos, write_length]
    omega

/-- The data-directory phase. -/
theorem build_data_directories_spec (b : Builder)
    (hpos : b.ios_.pos ≤ b.ios_.raw.length) :
    (Builder.build_data_directories b).binary_ = b.binary_ ∧
    (Builder.build_data_directories b).history
      = b.history ++ directory_writes b.ios_.pos
          (b.binary_.data_directories ++ [{ RVA := 0, size := 0 }]) ∧
    (Builder.build_data_directories b).ios_.pos
      = b.ios_.pos + 8 * (b.binary_.data_directories.length + 1) ∧
    readAt (Builder.build_data_directories b).ios_.raw b.ios_.pos
        (8 * (b.binary_.data_directories.length + 1))
      = some (directory_table_bytes b.binary_.data_directories ++ List.replicate 8 0) := by
  obtain ⟨f1, f2, f3, f4⟩ := foldl_put_DataDirectory b.binary_.data_directories b
  obtain ⟨g1, g2, g3, g4⟩ := foldl_put_DataDirectory [{ RVA := 0, size := 0 }]
    (b.binary_.data_directories.foldl Builder.put_DataDirectory b)
  have hstart : readAt b.ios_.raw b.ios_.pos (b.ios_.pos - b.ios_.pos) = some [] := by
    rw [Nat.sub_self]
    simp only [readAt, Nat.add_zero, if_pos hpos, List.take_zero]
  have h4 := f4 b.ios_.pos [] (Nat.le_refl _) hstart
  have e1 : b.ios_.pos + 8 * b.binary_.data_directories.length - b.ios_.pos
      = b.ios_.pos + 8 * b.binary_.data_directories.length
        - b.ios_.pos := rfl
  have h5 := g4 b.ios_.pos (directory_table_bytes b.binary_.data_directories)
    (by rw [f3]; omega) (by rw [f3]; simpa using h4)
  have hdef : Builder.build_data_directories b
      = List.foldl Builder.put_DataDirectory
          (b.binary_.data_directories.foldl Builder.put_DataDirectory b)
          [{ RVA := 0, size := 0 }] := by
    simp only [Builder.build_data_directories, List.foldl_cons, List.foldl_nil, f1]
  rw [hdef]
  refine ⟨g1.trans f1, ?_, ?_, ?_⟩
  · rw [g2, f2, f3, directory_writes_append, List.append_assoc]
  · rw [g3, f3, List.length_singleton]; omega
  · rw [f3] at h5
    have e : b.ios_.pos + 8 * b.binary_.data_directories.length
        + 8 * [({ RVA := 0, size := 0 } : DataDirectory)].length - b.ios_.pos
        = 8 * (b.binary_.data_directories.length + 1) := by
      rw [List.length_singleton]; omega
    rw [e] at h5
    rw [h5]
    rfl

/-- The loop over the sections: one header event and one content event per section, the
headers at consecutive offsets 40 bytes apart. -/
theorem foldl_put_Section (ss : List Section) (b : Builder) :
    (ss.foldl Builder.put_Section b).binary_ = b.binary_ ∧
    (ss.foldl Builder.put_Section b).history = b.history ++ section_writes b.ios_.pos ss ∧
    (ss.foldl Builder.put_Section b).ios_.pos = b.ios_.pos + 40 * ss.length := by
  induction ss generalizing b with
  | nil => exact ⟨rfl, by simp [section_writes], rfl⟩
  | cons s ss ih =>
    obtain ⟨i1, i2, i3⟩ := ih (Builder.put_Section b s)
    have hpos : (Builder.put_Section b s).ios_.pos = b.ios_.pos + 40 := by
      simp only [Builder.put_Section, vector_iostream.seekp, vector_iostream.tellp, write_pos,
        pe_section_bytes_length]
    have hhist : (Builder.put_Section b s).history
        = b.history ++ [Event.section_header b.ios_.pos (Builder.section_header s),
            Event.section_content s.offset s.content] := by
      simp only [Builder.put_Section, vector_iostream.tellp]
    have hbin : (Builder.put_Section b s).binary_ = b.binary_ := by
      simp only [Builder.put_Section]
    rw [List.foldl_cons]
    refine ⟨i1.trans hbin, ?_, ?_⟩
    · rw [i2, hhist, hpos, List.append_assoc]
      rfl
    · rw [i3, hpos, List.length_cons]; omega

/-- The whole history of the writers of `build()`. -/
theorem build_writes_history (ext : Collaborators) (b : Builder) :
    (Builder.build_writes ext b).history
      = b.history ++ ([Event.dos_header 0 (Builder.dosHeader b.binary_.dos_header),
          Event.header (b.binary_.dos_header.addressof_new_exeheader % 2 ^ 32)
            (Builder.header b b.binary_.header),
          Event.optional_header (b.binary_.dos_header.addressof_new_exeheader % 2 ^ 32 + 24)]
        ++ (directory_writes (Builder.build_headers ext b).ios_.pos
              (b.binary_.data_directories ++ [{ RVA := 0, size := 0 }])
        ++ section_writes ((Builder.build_headers ext b).ios_.pos
              + 8 * (b.binary_.data_directories.length + 1)) b.binary_.sections)) := by
  obtain ⟨h1, h2, h3, h4⟩ := build_headers_spec ext b
  obtain ⟨d1, d2, d3, d4⟩ := build_data_directories_spec (Builder.build_headers ext b) h4
  obtain ⟨s1, s2, s3⟩ := foldl_put_Section
    (Builder.build_data_directories (Builder.build_headers ext b)).binary_.sections
    (Builder.build_data_directories (Builder.build_headers ext b))
  rw [build_writes_phases]
  unfold Builder.build_sections
  rw [s2, d2, h2, d3, d1, h1]
  simp only [List.append_assoc]

/-! ## C12: the data-directory table -/

theorem filter_isDataDirectory_steps (c1 c2 c3 c4 : Bool) :
    ((if c1 then [Event.build_tls] else [])
      ++ (if c2 then [Event.build_relocation] else [])
      ++ (if c3 then [Event.build_resources] else [])
      ++ (if c4 then [Event.build_import_table] else [])).filter Event.isDataDirectory = [] := by
  cases c1 <;> cases c2 <;> cases c3 <;> cases c4 <;> rfl

theorem filter_directory_writes (p : Nat) (ds : List DataDirectory) :
    (directory_writes p ds).filter Event.isDataDirectory = directory_writes p ds := by
  induction ds generalizing p with
  | nil => rfl
  | cons d ds ih => simp only [directory_writes, List.filter_cons, Event.isDataDirectory, ih,
      if_true]

theorem filter_section_writes (p : Nat) (ss : List Section) :
    (section_writes p ss).filter Event.isDataDirectory = [] := by
  induction ss generalizing p with
  | nil => rfl
  | cons s ss ih => simp [section_writes, List.filter_cons, Event.isDataDirectory, ih]

/-- C12: whenever the rebuild steps of `build()` complete, leaving a model with n data-directory
descriptors, `build()` completes and its data-directory writes are exactly n + 1 entries, at
consecutive offsets 8 bytes apart starting where the optional header ends; right after the
last of them the sink holds there, for each descriptor in model order, its RVA then its size as
4 little-endian bytes each, followed by 8 zero bytes; the section writes come after. -/
theorem C12_data_directory_entries (ext : Collaborators) (b s : Builder)
    (hs : Builder.build_steps ext b = some s) :
    ∃ r, Builder.build ext b = some r ∧
      r = Builder.build_sections
        (Builder.build_data_directories (Builder.build_headers ext s)) ∧
      (r.history.drop b.history.length).filter Event.isDataDirectory
        = directory_writes (Builder.build_headers ext s).ios_.pos
            (s.binary_.data_directories ++ [{ RVA := 0, size := 0 }]) ∧
      (directory_writes (Builder.build_headers ext s).ios_.pos
        (s.binary_.data_directories ++ [{ RVA := 0, size := 0 }])).length
        = s.binary_.data_directories.length + 1 ∧
      (Builder.build_data_directories (Builder.build_headers ext s)).ios_.pos
        = (Builder.build_headers ext s).ios_.pos
          + 8 * (s.binary_.data_directories.length + 1) ∧
      readAt (Builder.build_data_directories (Builder.build_headers ext s)).ios_.raw
          (Builder.build_headers ext s).ios_.pos (8 * (s.binary_.data_directories.length + 1))
        = some (directory_table_bytes s.binary_.data_directories ++ List.replicate 8 0) ∧
      (directory_table_bytes s.binary_.data_directories).length
        = 8 * s.binary_.data_directories.length := by
  have hbuild : Builder.build ext b = some (Builder.build_writes ext s) := by
    unfold Builder.build
    rw [hs]
    rfl
  obtain ⟨h1, h2, h3, h4⟩ := build_headers_spec ext s
  obtain ⟨d1, d2, d3, d4⟩ := build_data_directories_spec (Builder.build_headers ext s) h4
  rw [h1] at d2 d3 d4
  obtain ⟨m1, m2, m3, -, -, -, -, -, hsh, -⟩ := build_steps_spec ext b s hs
  refine ⟨_, hbuild, build_writes_phases ext s, ?_, ?_, d3, d4,
    directory_table_bytes_length _⟩
  · rw [build_writes_history, hsh, List.append_assoc, List.drop_left]
    rw [List.filter_append, filter_isDataDirectory_steps, List.nil_append, List.filter_append,
      List.filter_append, filter_directory_writes, filter_section_writes, List.append_nil]
    rfl
  · rw [directory_writes_length, List.length_append, List.length_singleton]

theorem C12_data_directory_entries_witness :
    Builder.build_steps example_collaborators (Builder.new (example_binary [example_section]))
      = some (Builder.new (example_binary [example_section])) ∧
    ∃ r, Builder.build example_collaborators (Builder.new (example_binary [example_section]))
        = some r ∧
      r = Builder.build_sections (Builder.build_data_directories
        (Builder.build_headers example_collaborators
          (Builder.new (example_binary [example_section])))) ∧
      (r.history.drop (Builder.new (example_binary [example_section])).history.length).filter
          Event.isDataDirectory
        = directory_writes (Builder.build_headers example_collaborators
            (Builder.new (example_binary [example_section]))).ios_.pos
            ((Builder.new (example_binary [example_section])).binary_.data_directories
              ++ [{ RVA := 0, size := 0 }]) ∧
      (directory_writes (Builder.build_headers example_collaborators
          (Builder.new (example_binary [example_section]))).ios_.pos
        ((Builder.new (example_binary [example_section])).binary_.data_directories
          ++ [{ RVA := 0, size := 0 }])).length
        = (Builder.new (example_binary [example_section])).binary_.data_directories.length
          + 1 ∧
      (Builder.build_data_directories (Builder.build_headers example_collaborators
          (Builder.new (example_binary [example_section])))).ios_.pos
        = (Builder.build_headers example_collaborators
            (Builder.new (example_binary [example_section]))).ios_.pos
          + 8 * ((Builder.new
              (example_binary [example_section])).binary_.data_directories.length + 1) ∧
      readAt (Builder.build_data_directories (Builder.build_headers example_collaborators
            (Builder.new (example_binary [example_section])))).ios_.raw
          (Builder.build_headers example_collaborators
            (Builder.new (example_binary [example_section]))).ios_.pos
          (8 * ((Builder.new
            (example_binary [example_section])).binary_.data_directories.length + 1))
        = some (directory_table_bytes
            (Builder.new (example_binary [example_section])).binary_.data_directories
            ++ List.replicate 8 0) ∧
      (directory_table_bytes
          (Builder.new (example_binary [example_section])).binary_.data_directories).length
        = 8 * (Builder.new (example_binary [example_section])).binary_.data_directories.length :=
  ⟨rfl, C12_data_directory_entries example_collaborators _ _ rfl⟩

/-! ## C13: the address of the new header in the DOS header record -/

theorem build_without_flags (ext : Collaborators) (m : Binary) :
    Builder.build ext (Builder.new m) = some (Builder.build_writes ext (Builder.new m)) := by
  have h1 : Builder.build_step_tls ext (Builder.new m) = Builder.new m := by
    unfold Builder.build_step_tls
    rw [if_neg (by simp [Builder.new])]
  have h2 : Builder.build_step_relocation ext (Builder.new m) = Builder.new m := by
    unfold Builder.build_step_relocation
    rw [if_neg (by simp [Builder.new])]
  have h3 : Builder.build_step_imports ext (Builder.new m) = Builder.new m := by
    unfold Builder.build_step_imports
    rw [if_neg (by simp [Builder.new])]
  rw [build_of_resources_disabled ext (Builder.new m) rfl, h1, h2, h3]

/-- C13 at a model whose DOS header records the new header at 0x10080: `build()` writes the DOS
header record at offset 0 and the file header record at offset 0x10080, while the field
AddressOfNewExeHeader of the emitted DOS header record holds 0x80 (bytes 80 00 00 00 at offset
60 of the record): the cast of line 424 keeps 16 bits of a 32-bit field. -/
theorem C13_new_header_address_truncated :
    example_binary_far_header.dos_header.addressof_new_exeheader = 0x10080 ∧
    ∃ r rest, Builder.build example_collaborators (Builder.new example_binary_far_header)
        = some r ∧
      r.history
        = Event.dos_header 0 (Builder.dosHeader example_binary_far_header.dos_header) ::
          Event.header 0x10080
            (Builder.header (Builder.new example_binary_far_header)
              example_binary_far_header.header) :: rest ∧
      (Builder.dosHeader example_binary_far_header.dos_header).AddressOfNewExeHeader = 0x80 ∧
      (Builder.dosHeader example_binary_far_header.dos_header).bytes.length = 64 ∧
      (Builder.dosHeader example_binary_far_header.dos_header).bytes.drop 60
        = [0x80, 0, 0, 0] := by
  obtain ⟨-, rest, hh, -, -⟩ :=
    build_writes_spec example_collaborators (Builder.new example_binary_far_header)
  refine ⟨rfl, _, rest, build_without_flags _ _, ?_, by decide, by decide, by decide⟩
  rw [hh]
  rfl

/-! ## C14: writing a section -/

theorem section_name_length (s : Section) :
    ((s.name.toUTF8.data.toList.map (fun c => c.toNat)
      ++ 0 :: (List.range 7).map s.name_tail).take 8).length = 8 := by
  simp only [List.length_take, List.length_append, List.length_cons, List.length_map,
    List.length_range]
  omega

/-- The 40 bytes of the header record of a section, field by field (lines 488–499). -/
theorem section_header_bytes (s : Section) :
    (Builder.section_header s).bytes
      = ((s.name.toUTF8.data.toList.map (fun c => c.toNat)
            ++ 0 :: (List.range 7).map s.name_tail).take 8).map (fun b => b % 256)
        ++ le32 s.virtual_size ++ le32 s.virtual_address ++ le32 s.size
        ++ le32 s.pointerto_raw_data ++ le32 s.pointerto_relocation
        ++ le32 s.pointerto_line_numbers ++ le16 s.numberof_relocations
        ++ le16 s.numberof_line_numbers ++ le32 s.characteristics := by
  have hl := section_name_length s
  simp only [pe_section.bytes, Builder.section_header, le32_mod, le16_mod, fixed8, hl,
    Nat.sub_self, List.replicate_zero, List.append_nil]
  rw [List.take_of_length_le (by rw [hl])]

/-- C14: for every builder and every section, `operator<<(const Section&)` records the write of
the 40-byte header record at the current cursor and then the write of the content at the
offset of the section. The header record is, field by field: 8 bytes read from the name (its
bytes, then the terminator and what follows it in the storage of the name when it is shorter
than 8 bytes), the virtual size, the virtual address, the raw size, the pointer to raw data,
the pointers to relocations and line numbers (4 little-endian bytes each), the two 16-bit
counts, and the characteristics. The sink holds the whole content at the offset of the section
afterwards, whatever the declared raw size is; the header record is in the sink at the cursor
right after its write, and stays there afterwards wherever the content did not go; the cursor
is left 40 bytes further, right after the header record; so the section loop of `build()`
writes the headers of the sections of the model at consecutive offsets 40 bytes apart, in
model order. -/
theorem C14_section_write (b : Builder) (s : Section) :
    (Builder.section_header s).bytes
      = ((s.name.toUTF8.data.toList.map (fun c => c.toNat)
            ++ 0 :: (List.range 7).map s.name_tail).take 8).map (fun b => b % 256)
        ++ le32 s.virtual_size ++ le32 s.virtual_address ++ le32 s.size
        ++ le32 s.pointerto_raw_data ++ le32 s.pointerto_relocation
        ++ le32 s.pointerto_line_numbers ++ le16 s.numberof_relocations
        ++ le16 s.numberof_line_numbers ++ le32 s.characteristics ∧
    (Builder.section_header s).bytes.length = 40 ∧
    (Builder.put_Section b s).history
      = b.history ++ [Event.section_header b.ios_.pos (Builder.section_header s),
          Event.section_content s.offset s.content] ∧
    readAt (b.ios_.write (Builder.section_header s).bytes).raw b.ios_.pos 40
      = some (Builder.section_header s).bytes ∧
    readAt (Builder.put_Section b s).ios_.raw s.offset s.content.length = some s.content ∧
    (∀ i, b.ios_.pos ≤ i → i < b.ios_.pos + 40 →
      (i < s.offset ∨ s.offset + s.content.length ≤ i) →
      (Builder.put_Section b s).ios_.raw[i]?
        = (Builder.section_header s).bytes[i - b.ios_.pos]?) ∧
    (Builder.put_Section b s).ios_.pos = b.ios_.pos + 40 ∧
    (∀ ss : List Section,
      (ss.foldl Builder.put_Section b).history = b.history ++ section_writes b.ios_.pos ss ∧
      (ss.foldl Builder.put_Section b).ios_.pos = b.ios_.pos + 40 * ss.length) ∧
    (Builder.build_sections b).history
      = b.history ++ section_writes b.ios_.pos b.binary_.sections := by
  have hlen := pe_section_bytes_length (Builder.section_header s)
  have hraw : (Builder.put_Section b s).ios_.raw
      = (((b.ios_.write (Builder.section_header s).bytes).seekp s.offset).write
          s.content).raw := by
    simp only [Builder.put_Section, vector_iostream.seekp]
  refine ⟨section_header_bytes s, hlen, ?_, ?_, ?_, ?_, ?_, ?_, ?_⟩
  · simp only [Builder.put_Section, vector_iostream.tellp]
  · rw [← hlen]; exact write_readAt _ _
  · rw [hraw]
    exact write_readAt ((b.ios_.write (Builder.section_header s).bytes).seekp s.offset)
      s.content
  · intro i h1 h2 h3
    have hget : (b.ios_.write (Builder.section_header s).bytes).raw[i]?
        = (Builder.section_header s).bytes[i - b.ios_.pos]? := by
      rw [write_getElem?, if_neg (by omega), if_pos (by omega)]
    have hsome : (Builder.section_header s).bytes[i - b.ios_.pos]?
        = some ((Builder.section_header s).bytes[i - b.ios_.pos]?.getD 0) := by
      rw [List.getElem?_eq_getElem (by omega)]
      rfl
    rw [hraw, write_getElem?]
    simp only [vector_iostream.seekp]
    rcases h3 with h3 | h3
    · rw [if_pos h3, hget, ← hsome]
    · rw [if_neg (by omega), if_neg (by omega), hget]
  · simp only [Builder.put_Section, vector_iostream.seekp, vector_iostream.tellp, write_pos,
      hlen]
  · intro ss
    exact (foldl_put_Section ss b).2
  · exact (foldl_put_Section b.binary_.sections b).2.1

set_option maxRecDepth 20000 in
/-- C14, witness: the section `.data` whose content is longer than its declared raw size,
written by a builder whose sink is empty: the header record starts with the bytes of `.data`,
the terminator and the two bytes 0x45, 0x46 that follow it in the storage of the name; the
sink holds the header at offset 0 and the six content bytes at offset 0x200. -/
theorem C14_section_write_witness :
    example_oversized_section.size < example_oversized_section.content.length ∧
    ((Builder.section_header example_oversized_section).bytes
        = ((example_oversized_section.name.toUTF8.data.toList.map (fun c => c.toNat)
              ++ 0 :: (List.range 7).map example_oversized_section.name_tail).take 8).map
              (fun b => b % 256)
          ++ le32 example_oversized_section.virtual_size
          ++ le32 example_oversized_section.virtual_address
          ++ le32 example_oversized_section.size
          ++ le32 example_oversized_section.pointerto_raw_data
          ++ le32 example_oversized_section.pointerto_relocation
          ++ le32 example_oversized_section.pointerto_line_numbers
          ++ le16 example_oversized_section.numberof_relocations
          ++ le16 example_oversized_section.numberof_line_numbers
          ++ le32 example_oversized_section.characteristics ∧
      (Builder.section_header example_oversized_section).bytes.length = 40 ∧
      (Builder.put_Section example_builder example_oversized_section).history
        = example_builder.history
          ++ [Event.section_header example_builder.ios_.pos
                (Builder.section_header example_oversized_section),
              Event.section_content example_oversized_section.offset
                example_oversized_section.content] ∧
      readAt (example_builder.ios_.write
          (Builder.section_header example_oversized_section).bytes).raw
          example_builder.ios_.pos 40
        = some (Builder.section_header example_oversized_section).bytes ∧
      readAt (Builder.put_Section example_builder example_oversized_section).ios_.raw
          example_oversized_section.offset example_oversized_section.content.length
        = some example_oversized_section.content ∧
      (∀ i, example_builder.ios_.pos ≤ i → i < example_builder.ios_.pos + 40 →
        (i < example_oversized_section.offset ∨
          example_oversized_section.offset + example_oversized_section.content.length ≤ i) →
        (Builder.put_Section example_builder example_oversized_section).ios_.raw[i]?
          = (Builder.section_header example_oversized_section).bytes[
              i - example_builder.ios_.pos]?) ∧
      (Builder.put_Section example_builder example_oversized_section).ios_.pos
        = example_builder.ios_.pos + 40 ∧
      (∀ ss : List Section,
        (ss.foldl Builder.put_Section example_builder).history
          = example_builder.history ++ section_writes example_builder.ios_.pos ss ∧
        (ss.foldl Builder.put_Section example_builder).ios_.pos
          = example_builder.ios_.pos + 40 * ss.length) ∧
      (Builder.build_sections example_builder).history
        = example_builder.history
          ++ section_writes example_builder.ios_.pos example_builder.binary_.sections) ∧
    (Builder.section_header example_oversized_section).bytes
      = [0x2e, 0x64, 0x61, 0x74, 0x61, 0x00, 0x45, 0x46,
         0, 0, 0, 0, 0x00, 0x08, 0, 0, 4, 0, 0, 0, 0x00, 0x02, 0, 0,
         0, 0, 0, 0, 0, 0, 0, 0, 0, 0, 0, 0, 0, 0, 0, 0] ∧
    (Builder.put_Section example_builder example_oversized_section).ios_.raw.take 40
      = [0x2e, 0x64, 0x61, 0x74, 0x61, 0x00, 0x45, 0x46,
         0, 0, 0, 0, 0x00, 0x08, 0, 0, 4, 0, 0, 0, 0x00, 0x02, 0, 0,
         0, 0, 0, 0, 0, 0, 0, 0, 0, 0, 0, 0, 0, 0, 0, 0] ∧
    (Builder.put_Section example_builder example_oversized_section).ios_.raw.drop 0x200
      = [1, 2, 3, 4, 5, 6] :=
  ⟨by decide, C14_section_write example_builder example_oversized_section,
   by decide, by decide, by decide⟩

/-! ## C15: the buffer of `build_resources` -/

theorem replay_none (stores : List Store) : replay stores none = none := by
  induction stores with
  | nil => rfl
  | cons s rest ih => rw [replay_cons]; exact ih

/-- When all the stores of a list are carried out in bounds, the buffer keeps its length and
every byte outside the stores keeps its value. -/
theorem replay_some (stores : List Store) (buf buf' : List Nat)
    (h : replay stores (some buf) = some buf') :
    buf'.length = buf.length ∧
    ∀ i, (∀ s ∈ stores, i < s.offset ∨ s.stop ≤ i) → buf'[i]? = buf[i]? := by
  induction stores generalizing buf with
  | nil =>
    simp only [replay_nil, Option.some.injEq] at h
    subst h
    exact ⟨rfl, fun _ _ => rfl⟩
  | cons s rest ih =>
    rw [replay_cons] at h
    cases hc : copy_to (some buf) s.offset s.bytes with
    | none => rw [hc, replay_none] at h; exact absurd h (by simp)
    | some b1 =>
      rw [hc] at h
      obtain ⟨i1, i2⟩ := ih b1 h
      have hl := copy_to_length buf b1 s.bytes s.offset hc
      have hin : s.offset + s.bytes.length ≤ buf.length := by
        by_contra hcon
        simp only [copy_to, if_neg hcon] at hc
        exact absurd hc (by simp)
      rw [copy_to_some buf s.bytes s.offset hin, Option.some.injEq] at hc
      refine ⟨i1.trans hl, ?_⟩
      intro i hi
      rw [i2 i (fun t ht => hi t (List.mem_cons_of_mem _ ht)), ← hc,
        copy_to_getElem? buf s.bytes s.offset i hin]
      have := hi s (List.mem_cons_self _ _)
      unfold Store.stop at this
      rw [if_neg (by omega)]

/-- The state that `build_resources` starts the serializer from. -/
theorem build_resources_state_spec (node : ResourceNode) (file_alignment : Nat) :
    build_resources_state node file_alignment
      = { content := some (List.replicate
            (align (((compute_resources_size node
                { headerSize := 0, dataSize := 0, nameSize := 0 }).headerSize
              + (compute_resources_size node
                { headerSize := 0, dataSize := 0, nameSize := 0 }).dataSize
              + (compute_resources_size node
                { headerSize := 0, dataSize := 0, nameSize := 0 }).nameSize) % 2 ^ 32)
              file_alignment) 0),
          offsetToHeader := 0,
          offsetToName := (compute_resources_size node
            { headerSize := 0, dataSize := 0, nameSize := 0 }).headerSize,
          offsetToData := ((compute_resources_size node
              { headerSize := 0, dataSize := 0, nameSize := 0 }).headerSize
            + (compute_resources_size node
              { headerSize := 0, dataSize := 0, nameSize := 0 }).nameSize) % 2 ^ 32 } := by
  unfold build_resources_state
  simp only [List.length_replicate, List.append_replicate_replicate]
  congr 3
  have := le_align (((compute_resources_size node
      { headerSize := 0, dataSize := 0, nameSize := 0 }).headerSize
    + (compute_resources_size node
      { headerSize := 0, dataSize := 0, nameSize := 0 }).dataSize
    + (compute_resources_size node
      { headerSize := 0, dataSize := 0, nameSize := 0 }).nameSize) % 2 ^ 32) file_alignment
  omega

/-- A Data root with a content of 2^32 - 24 bytes: each of the three totals fits in 32 bits,
their sum does not; the buffer is allocated with 512 bytes and the store of the content is out
of bounds. -/
theorem wrapped_sum_data_root (content : List Nat) (h : content.length = 4294967272) :
    id_name_invariant (.data 1 [] content 0) = true ∧
    compute_resources_size (.data 1 [] content 0)
        { headerSize := 0, dataSize := 0, nameSize := 0 }
      = { headerSize := 24, dataSize := 4294967273, nameSize := 0 } ∧
    (build_resources_state (.data 1 [] content 0) 512).content
      = some (List.replicate 512 0) ∧
    (build_resources_state (.data 1 [] content 0) 512).offsetToData = 24 ∧
    (build_resources_content (.data 1 [] content 0) 512 0x1000).2.content = none := by
  have hsz : compute_resources_size (.data 1 [] content 0)
      { headerSize := 0, dataSize := 0, nameSize := 0 }
      = { headerSize := 24, dataSize := 4294967273, nameSize := 0 } := by
    simp [compute_resources_size, h, ResourceDataEntrySize, ResourceDirectoryEntriesSize]
  have hst := build_resources_state_spec (.data 1 [] content 0) 512
  rw [hsz] at hst
  have hal : align ((24 + 4294967273 + 0) % 2 ^ 32) 512 = 512 := by decide
  simp only [hal] at hst
  refine ⟨?_, hsz, by rw [hst], by rw [hst]; rfl, ?_⟩
  · simp [id_name_invariant, flag_agrees, names_agree, namedFlag, ResourceNode.id,
      ResourceNode.name]
  · unfold build_resources_content
    rw [hst]
    simp only [construct_resources]
    apply copy_to_none_of_short _ _ _ 512
    · intro b hb
      rw [copy_to_length _ b _ _ hb, List.length_replicate]
    · rw [h]
      decide

/-- C15, counterexample: for the Data root with a content of 2^32 - 24 bytes the three totals
are 24, 0 and 2^32 - 23; their sum rounded up to a multiple of 512 is 2^32 + 512, while the
buffer that `build_resources` allocates has 512 bytes. -/
theorem C15_counterexample :
    resource_totals (.data 1 [] (List.replicate 4294967272 0) 0)
      = { headerSize := 24, dataSize := 4294967273, nameSize := 0 } ∧
    align (24 + 0 + 4294967273) 512 = 4294967808 ∧
    (build_resources_state (.data 1 [] (List.replicate 4294967272 0) 0) 512).content
      = some (List.replicate 512 0) ∧
    (List.replicate 512 0).length = 512 :=
  ⟨(wrapped_sum_data_root _ (List.length_replicate _ _)).2.1, by decide,
   (wrapped_sum_data_root _ (List.length_replicate _ _)).2.2.1, List.length_replicate _ _⟩

/-- C15, amended: for every resource tree and positive file alignment, `build_resources`
allocates a zero-filled buffer whose length is the 32-bit sum headerSize + dataSize + nameSize
of the three totals of `compute_resources_size` (the sum modulo 2^32) rounded up to the next
multiple of the file alignment; serialization starts with the header cursor at 0, the name
cursor at headerSize and the data cursor at the 32-bit sum headerSize + nameSize; these are
the plain sums when the three totals add up to less than 2^32. Whenever the serialization
completes with every store in bounds (it does when the id/name invariant holds below the
root and the sizes fit) the final buffer has the length of the allocated one and every byte
that no store covers is zero. -/
theorem C15_resource_buffer (node : ResourceNode) (file_alignment : Nat)
    (hfa : 0 < file_alignment) :
    ∃ n, build_resources_state node file_alignment
        = { content := some (List.replicate n 0),
            offsetToHeader := 0,
            offsetToName := (resource_totals node).headerSize,
            offsetToData := ((resource_totals node).headerSize
              + (resource_totals node).nameSize) % 2 ^ 32 } ∧
      n = align (((resource_totals node).headerSize + (resource_totals node).dataSize
            + (resource_totals node).nameSize) % 2 ^ 32) file_alignment ∧
      n % file_alignment = 0 ∧
      ((resource_totals node).headerSize + (resource_totals node).dataSize
        + (resource_totals node).nameSize) % 2 ^ 32 ≤ n ∧
      (∀ m, m % file_alignment = 0 →
        ((resource_totals node).headerSize + (resource_totals node).dataSize
          + (resource_totals node).nameSize) % 2 ^ 32 ≤ m → n ≤ m) ∧
      ((resource_totals node).headerSize + (resource_totals node).nameSize
          + (resource_totals node).dataSize < 2 ^ 32 →
        n = align ((resource_totals node).headerSize + (resource_totals node).nameSize
              + (resource_totals node).dataSize) file_alignment ∧
        (build_resources_state node file_alignment).offsetToData
          = (resource_totals node).headerSize + (resource_totals node).nameSize) ∧
      (∀ baseRVA buf',
        (build_resources_content node file_alignment baseRVA).2.content = some buf' →
        buf'.length = n ∧
        ∀ i, i < n →
          (∀ w ∈ stores node (build_resources_state node file_alignment) baseRVA,
            i < w.offset ∨ w.stop ≤ i) → buf'[i]? = some 0) ∧
      (names_agree node = true → SizesFit node → ∀ baseRVA,
        ∃ buf', (build_resources_content node file_alignment baseRVA).2.content
          = some buf') := by
  have hst := build_resources_state_spec node file_alignment
  refine ⟨_, hst, rfl, align_mod _ _ hfa, le_align _ _,
    fun m hm hle => align_le_of_multiple _ _ m hm hle, ?_, ?_, ?_⟩
  · intro hlt
    unfold resource_totals at hlt ⊢
    refine ⟨?_, ?_⟩
    · congr 1
      omega
    · rw [hst]
      simp only []
      omega
  · intro baseRVA buf' hfinal
    unfold build_resources_content at hfinal
    rw [construct_content.1, hst] at hfinal
    obtain ⟨r1, r2⟩ := replay_some _ _ _ hfinal
    rw [List.length_replicate] at r1
    refine ⟨r1, ?_⟩
    intro i hi hw
    rw [hst] at hw
    rw [r2 i hw, List.getElem?_replicate, if_pos hi]
  · intro hagree hfit baseRVA
    obtain ⟨buf, h1, -⟩ := build_resources_content_spec node file_alignment baseRVA hagree hfit
    exact ⟨buf, h1⟩

theorem C15_resource_buffer_witness :
    0 < 512 ∧
    ∃ n, build_resources_state example_resources 512
        = { content := some (List.replicate n 0),
            offsetToHeader := 0,
            offsetToName := (resource_totals example_resources).headerSize,
            offsetToData := ((resource_totals example_resources).headerSize
              + (resource_totals example_resources).nameSize) % 2 ^ 32 } ∧
      n = align (((resource_totals example_resources).headerSize
            + (resource_totals example_resources).dataSize
            + (resource_totals example_resources).nameSize) % 2 ^ 32) 512 ∧
      n % 512 = 0 ∧
      ((resource_totals example_resources).headerSize
        + (resource_totals example_resources).dataSize
        + (resource_totals example_resources).nameSize) % 2 ^ 32 ≤ n ∧
      (∀ m, m % 512 = 0 →
        ((resource_totals example_resources).headerSize
          + (resource_totals example_resources).dataSize
          + (resource_totals example_resources).nameSize) % 2 ^ 32 ≤ m → n ≤ m) ∧
      ((resource_totals example_resources).headerSize
          + (resource_totals example_resources).nameSize
          + (resource_totals example_resources).dataSize < 2 ^ 32 →
        n = align ((resource_totals example_resources).headerSize
              + (resource_totals example_resources).nameSize
              + (resource_totals example_resources).dataSize) 512 ∧
        (build_resources_state example_resources 512).offsetToData
          = (resource_totals example_resources).headerSize
            + (resource_totals example_resources).nameSize) ∧
      (∀ baseRVA buf',
        (build_resources_content example_resources 512 baseRVA).2.content = some buf' →
        buf'.length = n ∧
        ∀ i, i < n →
          (∀ w ∈ stores example_resources (build_resources_state example_resources 512)
              baseRVA, i < w.offset ∨ w.stop ≤ i) → buf'[i]? = some 0) ∧
      (names_agree example_resources = true → SizesFit example_resources → ∀ baseRVA,
        ∃ buf', (build_resources_content example_resources 512 baseRVA).2.content
          = some buf') :=
  ⟨by decide, C15_resource_buffer example_resources 512 (by decide)⟩

/-! ## C16: what the size pass adds -/

theorem nodeCount_split :
    (∀ n : ResourceNode, nodeCount n = directoryCount n + dataCount n) ∧
    (∀ cs : List ResourceNode, nodeCountL cs = directoryCountL cs + dataCountL cs) := by
  apply ResourceNode.induction
  · intro id name attrs cs ih
    simp only [nodeCount, directoryCount, dataCount, ih]
    omega
  · intro id name c p
    rfl
  · rfl
  · intro c cs ihc ihcs
    simp only [nodeCountL, directoryCountL, dataCountL, ihc, ihcs]
    omega

theorem plannedHeaderBytes_eq (n : ResourceNode) : plannedHeaderBytes n = 24 * nodeCount n := by
  have h := nodeCount_split.1 n
  simp only [plannedHeaderBytes, ResourceDirectoryEntriesSize, ResourceDirectoryTableSize,
    ResourceDataEntrySize]
  omega

/-- C16, counterexample: for the Data root with a content of 2^32 - 1 bytes the sum over the
Data nodes of content length + 1 is 2^32, while the `dataSize` total that
`compute_resources_size` yields from 0 is 0. -/
theorem C16_counterexample :
    dataBytes (.data 1 [] (List.replicate 4294967295 0) 0) = 4294967296 ∧
    (compute_resources_size (.data 1 [] (List.replicate 4294967295 0) 0)
      { headerSize := 0, dataSize := 0, nameSize := 0 }).dataSize = 0 :=
  ⟨by rw [dataBytes, List.length_replicate],
   (oversized_data_root _ (List.length_replicate _ _)).2.1⟩

/-- C16, amended: for every resource tree and all 32-bit start values of the accumulators,
`compute_resources_size` adds to the three totals, modulo 2^32: to `headerSize` one
directory-entry size per node, one directory-table size per Directory node and one data-entry
size per Data node; to `nameSize` the sum over the nodes with a non-empty name of
2 + 2 × name length + 1; to `dataSize` the sum over the Data nodes of content length + 1. The
additions are exact whenever the sums stay below 2^32. -/
theorem C16_size_pass_totals (node : ResourceNode) (acc : ResourceSizes)
    (hd : acc.dataSize < 2 ^ 32) (hn : acc.nameSize < 2 ^ 32) :
    compute_resources_size node acc
      = { headerSize := (acc.headerSize + plannedHeaderBytes node) % 2 ^ 32,
          dataSize := (acc.dataSize + dataBytes node) % 2 ^ 32,
          nameSize := (acc.nameSize + plannedNameBytes node) % 2 ^ 32 } ∧
    (acc.headerSize + plannedHeaderBytes node < 2 ^ 32 →
      (compute_resources_size node acc).headerSize
        = acc.headerSize + plannedHeaderBytes node) ∧
    (acc.nameSize + plannedNameBytes node < 2 ^ 32 →
      (compute_resources_size node acc).nameSize = acc.nameSize + plannedNameBytes node) ∧
    (acc.dataSize + dataBytes node < 2 ^ 32 →
      (compute_resources_size node acc).dataSize = acc.dataSize + dataBytes node) := by
  have h := compute_sizes.1 node acc hd hn
  rw [← plannedHeaderBytes_eq] at h
  refine ⟨h, ?_, ?_, ?_⟩
  · intro hlt
    rw [h]
    exact Nat.mod_eq_of_lt hlt
  · intro hlt
    rw [h]
    exact Nat.mod_eq_of_lt hlt
  · intro hlt
    rw [h]
    exact Nat.mod_eq_of_lt hlt

theorem C16_size_pass_totals_witness :
    (0 : Nat) < 2 ^ 32 ∧
    (compute_resources_size example_resources { headerSize := 0, dataSize := 0, nameSize := 0 }
        = { headerSize := (0 + plannedHeaderBytes example_resources) % 2 ^ 32,
            dataSize := (0 + dataBytes example_resources) % 2 ^ 32,
            nameSize := (0 + plannedNameBytes example_resources) % 2 ^ 32 } ∧
      (0 + plannedHeaderBytes example_resources < 2 ^ 32 →
        (compute_resources_size example_resources
          { headerSize := 0, dataSize := 0, nameSize := 0 }).headerSize
          = 0 + plannedHeaderBytes example_resources) ∧
      (0 + plannedNameBytes example_resources < 2 ^ 32 →
        (compute_resources_size example_resources
          { headerSize := 0, dataSize := 0, nameSize := 0 }).nameSize
          = 0 + plannedNameBytes example_resources) ∧
      (0 + dataBytes example_resources < 2 ^ 32 →
        (compute_resources_size example_resources
          { headerSize := 0, dataSize := 0, nameSize := 0 }).dataSize
          = 0 + dataBytes example_resources)) ∧
    plannedHeaderBytes example_resources = 96 ∧ plannedNameBytes example_resources = 7 ∧
    dataBytes example_resources = 5 :=
  ⟨by decide,
   C16_size_pass_totals example_resources { headerSize := 0, dataSize := 0, nameSize := 0 }
     (by decide) (by decide),
   by decide, by decide, by decide⟩

/-! ## C17: the layout of a directory -/

theorem loop_iterations_length (cs : List ResourceNode) (st : BuildState) (cur baseRVA : Nat) :
    (loop_iterations cs st cur baseRVA).length = cs.length := by
  induction cs generalizing st cur with
  | nil => rfl
  | cons c cs ih => simp only [loop_iterations, List.length_cons, ih]

theorem headerBytes_ge (n : ResourceNode) : 16 ≤ headerBytes n := by
  cases n <;> simp only [headerBytes, ResourceDirectoryTableSize] <;> omega

theorem call_state_offsetToHeader (c : ResourceNode) (st : BuildState) (cur : Nat) :
    (call_state c st cur).offsetToHeader = st.offsetToHeader := by
  simp only [call_state, construct_name_offsetToHeader]

/-- Where the iterations of the child loop stand: the i-th iteration is on the i-th child, its
entry slot is 8·i bytes after the first one and the header cursor has advanced by the header
bytes of the subtrees of the children before it. -/
theorem loop_iterations_index (baseRVA : Nat) (cs : List ResourceNode) :
    ∀ (st : BuildState) (cur : Nat), st.offsetToHeader + headerBytesL cs < 2 ^ 32 →
      cur + 8 * cs.length < 2 ^ 32 →
      ∀ i c s k, (loop_iterations cs st cur baseRVA)[i]? = some (c, s, k) →
        cs[i]? = some c ∧ k = cur + 8 * i ∧
        s.offsetToHeader = st.offsetToHeader + headerBytesL (cs.take i) ∧
        s.offsetToHeader + headerBytes c ≤ st.offsetToHeader + headerBytesL cs := by
  induction cs with
  | nil =>
    intro st cur _ _ i c s k h
    simp [loop_iterations] at h
  | cons c0 cs ih =>
    intro st cur h1 h2 i c s k h
    simp only [headerBytesL, List.length_cons] at h1 h2
    cases i with
    | zero =>
      simp only [loop_iterations, List.getElem?_cons_zero, Option.some.injEq,
        Prod.mk.injEq] at h
      obtain ⟨rfl, rfl, rfl⟩ := h
      simp only [List.getElem?_cons_zero, List.take_zero, headerBytesL, true_and]
      omega
    | succ i =>
      simp only [loop_iterations, List.getElem?_cons_succ] at h
      have hcur : (cur + ResourceDirectoryEntriesSize) % 2 ^ 32 = cur + 8 := by
        simp only [ResourceDirectoryEntriesSize]; omega
      have hnext : (construct_resources c0 (call_state c0 st cur) baseRVA).2.offsetToHeader
          = st.offsetToHeader + headerBytes c0 := by
        rw [construct_offsetToHeader.1, call_state_offsetToHeader]
        exact Nat.mod_eq_of_lt (by omega)
      rw [hcur] at h
      obtain ⟨a1, a2, a3, a4⟩ := ih _ (cur + 8) (by rw [hnext]; omega) (by omega) i c s k h
      rw [hnext] at a3 a4
      simp only [List.getElem?_cons_succ, List.take_succ_cons, headerBytesL]
      refine ⟨a1, by omega, by omega, by omega⟩

/-- The stores of an iteration of the child loop are among the stores of the loop. -/
theorem loop_iterations_stores (baseRVA : Nat) (cs : List ResourceNode) :
    ∀ (st : BuildState) (cur : Nat) (c : ResourceNode) (s : BuildState) (k : Nat),
      (c, s, k) ∈ loop_iterations cs st cur baseRVA →
      (∀ w ∈ name_stores c s, w ∈ stores_childs cs st cur baseRVA) ∧
      entry_store c s k ∈ stores_childs cs st cur baseRVA ∧
      ∀ w ∈ stores c (call_state c s k) baseRVA, w ∈ stores_childs cs st cur baseRVA := by
  induction cs with
  | nil =>
    intro st cur c s k h
    simp [loop_iterations] at h
  | cons c0 cs ih =>
    intro st cur c s k h
    rw [stores_childs_cons]
    simp only [loop_iterations, List.mem_cons, Prod.mk.injEq] at h
    rcases h with ⟨rfl, rfl, rfl⟩ | h
    · refine ⟨fun w hw => List.mem_append_left _ hw, ?_, fun w hw => ?_⟩
      · exact List.mem_append_right _ (List.mem_cons_self _ _)
      · exact List.mem_append_right _ (List.mem_cons_of_mem _ (List.mem_append_left _ hw))
    · obtain ⟨a1, a2, a3⟩ := ih _ _ c s k h
      refine ⟨fun w hw => ?_, ?_, fun w hw => ?_⟩
      · exact List.mem_append_right _ (List.mem_cons_of_mem _
          (List.mem_append_right _ (a1 w hw)))
      · exact List.mem_append_right _ (List.mem_cons_of_mem _ (List.mem_append_right _ a2))
      · exact List.mem_append_right _ (List.mem_cons_of_mem _
          (List.mem_append_right _ (a3 w hw)))

/-- The first store of a call of `construct_resources` is the record of the node itself
(directory table or data entry), at the header cursor of the call. -/
theorem stores_head (n : ResourceNode) (st : BuildState) (baseRVA : Nat) :
    ∃ w, (stores n st baseRVA).head? = some w ∧ w.region = .header ∧
      w.offset = st.offsetToHeader ∧ w.bytes.length = 16 := by
  cases n with
  | directory id name attrs cs =>
    rw [stores_directory]
    exact ⟨_, rfl, rfl, rfl, rfl⟩
  | data id name content cp =>
    rw [stores]
    exact ⟨_, rfl, rfl, rfl, rfl⟩

theorem entryHeader_RVA (d : Bool) (id x : Nat) (hx : x < 2 ^ 31) :
    (entryHeader d id x).RVA % 2 ^ 31 = x ∧ (2 ^ 31 ≤ (entryHeader d id x).RVA ↔ d = true) := by
  cases d with
  | true =>
    simp only [entryHeader, if_true, lor_flag x hx]
    refine ⟨by omega, by simp⟩
  | false =>
    simp only [entryHeader, Bool.false_eq_true, if_false]
    rw [Nat.mod_eq_of_lt (a := x) (by omega)]
    refine ⟨Nat.mod_eq_of_lt hx, by simp; omega⟩

theorem stores_high_directory (content : Option (List Nat)) :
    stores example_small_directory
        { content := content, offsetToHeader := 0x7FFFFFE8, offsetToData := 0x80000010,
          offsetToName := 0x80000010 } 0x1000
      = [{ region := .header, offset := 0x7FFFFFE8,
           bytes := (rsrcHeader ⟨0, 0, 0, 0, 0, 1⟩).bytes },
         { region := .header, offset := 0x7FFFFFF8, bytes := le32 1 ++ le32 0x80000000 },
         { region := .header, offset := 0x80000000,
           bytes := (dataHeader [0xAA] 0 0x1000 0x80000010).bytes },
         { region := .data, offset := 0x80000010, bytes := [0xAA] }] := by
  have hflag : namedFlag (ResourceNode.data 1 [] [0xAA] 0).id = false := by decide
  have hflag1 : namedFlag 1 = false := by decide
  unfold example_small_directory
  rw [stores_directory, stores_childs_cons]
  simp only [name_stores, hflag, hflag1, Bool.false_eq_true, if_false, List.nil_append,
    construct_name_of_not_flag _ _ hflag, call_state, loop_state, stores, stores_childs,
    List.append_nil, ResourceNode.isDirectory, ResourceNode.id, entryHeader,
    ResourceDirectoryTableSize, ResourceDirectoryEntriesSize, ResourceDataEntrySize,
    List.length_cons, List.length_nil]
  simp only [pe_resource_directory_entries.bytes, pe_resource_directory_table.bytes,
    pe_resource_data_entry.bytes, le32, le16, rsrcHeader, dataHeader]
  norm_num [hflag1]

theorem high_directory_in_bounds (buf : List Nat) (h : buf.length = 2147483776) :
    ((construct_resources example_small_directory
        { content := some buf, offsetToHeader := 0x7FFFFFE8, offsetToData := 0x80000010,
          offsetToName := 0x80000010 } 0x1000).2.content).isSome = true := by
  have hin : ∀ s ∈ stores example_small_directory
      { content := some buf, offsetToHeader := 0x7FFFFFE8, offsetToData := 0x80000010,
        offsetToName := 0x80000010 } 0x1000, s.stop ≤ buf.length := by
    intro s hs
    rw [stores_high_directory, h] at *
    simp only [List.mem_cons, List.mem_singleton, List.not_mem_nil, or_false] at hs
    rcases hs with rfl | rfl | rfl | rfl <;>
      simp only [Store.stop, pe_resource_directory_table.bytes,
        pe_resource_data_entry.bytes, List.length_append, le32_length, le16_length,
        List.length_cons, List.length_nil] <;> omega
  obtain ⟨buf', h1, -, -⟩ := replay_ok _ buf hin
  rw [construct_content.1, h1]
  rfl

/-- C17, counterexample: the directory with one Data child, serialized at header offset
0x7FFFFFE8 in a buffer of 2^31 + 128 bytes (every store is in bounds): the record of the
child is written at header offset 0x80000000, and the RVA of its directory entry, stored at
0x7FFFFFF8, is 0x80000000: its top bit is set although the child is a Data node, and its low
31 bits are 0, not the offset of the record of the child. -/
theorem C17_counterexample :
    stores example_small_directory
        { content := some (List.replicate 2147483776 0), offsetToHeader := 0x7FFFFFE8,
          offsetToData := 0x80000010, offsetToName := 0x80000010 } 0x1000
      = [{ region := .header, offset := 0x7FFFFFE8,
           bytes := (rsrcHeader ⟨0, 0, 0, 0, 0, 1⟩).bytes },
         { region := .header, offset := 0x7FFFFFF8, bytes := le32 1 ++ le32 0x80000000 },
         { region := .header, offset := 0x80000000,
           bytes := (dataHeader [0xAA] 0 0x1000 0x80000010).bytes },
         { region := .data, offset := 0x80000010, bytes := [0xAA] }] ∧
    ((construct_resources example_small_directory
        { content := some (List.replicate 2147483776 0), offsetToHeader := 0x7FFFFFE8,
          offsetToData := 0x80000010, offsetToName := 0x80000010 } 0x1000).2.content).isSome
      = true ∧
    (entryHeader false 1 0x80000000).RVA = 0x80000000 ∧
    2 ^ 31 ≤ (entryHeader false 1 0x80000000).RVA ∧
    (entryHeader false 1 0x80000000).RVA % 2 ^ 31 = 0 ∧
    (ResourceNode.data 1 [] [0xAA] 0).isDirectory = false :=
  ⟨stores_high_directory _, high_directory_in_bounds _ (List.length_replicate _ _),
   by decide, by decide, by decide, rfl⟩

/-- C17, amended: for every Directory node with k children that `construct_resources`
serializes at header offset h, when the header bytes of the node end at or below 2^31: the
directory-table record is stored at h; the loop has k iterations, the i-th on the i-th child;
the directory-entry record of that child is stored at h + tableSize + i × entrySize; the
header cursor at which `construct_resources` is called on the child, where the record of the
child itself is stored first, is h + tableSize + k × entrySize plus the header bytes consumed
by the subtrees of the children before it; the low 31 bits of the RVA of the entry are that
offset and its top bit is set exactly when the child is a Directory. -/
theorem C17_directory_layout (id : Nat) (name : List Nat) (attrs : DirectoryAttributes)
    (childs : List ResourceNode) (st : BuildState) (baseRVA : Nat)
    (hfit : st.offsetToHeader + headerBytes (.directory id name attrs childs) ≤ 2 ^ 31) :
    (stores (.directory id name attrs childs) st baseRVA).head?
      = some { region := .header, offset := st.offsetToHeader,
               bytes := (rsrcHeader attrs).bytes.take ResourceDirectoryTableSize } ∧
    (loop_iterations childs (loop_state attrs childs st)
      ((st.offsetToHeader + ResourceDirectoryTableSize) % 2 ^ 32) baseRVA).length
      = childs.length ∧
    ∀ i c s k,
      (loop_iterations childs (loop_state attrs childs st)
        ((st.offsetToHeader + ResourceDirectoryTableSize) % 2 ^ 32) baseRVA)[i]?
        = some (c, s, k) →
      childs[i]? = some c ∧
      k = st.offsetToHeader + ResourceDirectoryTableSize + i * ResourceDirectoryEntriesSize ∧
      entry_store c s k ∈ stores (.directory id name attrs childs) st baseRVA ∧
      (entry_store c s k).offset = k ∧
      (entry_store c s k).bytes
        = le32 (entry_record c s).NameID ++ le32 (entry_record c s).RVA ∧
      (call_state c s k).offsetToHeader
        = st.offsetToHeader + ResourceDirectoryTableSize
          + childs.length * ResourceDirectoryEntriesSize + headerBytesL (childs.take i) ∧
      (entry_record c s).RVA % 2 ^ 31 = (call_state c s k).offsetToHeader ∧
      (2 ^ 31 ≤ (entry_record c s).RVA ↔ c.isDirectory = true) ∧
      (∃ w, (stores c (call_state c s k) baseRVA).head? = some w ∧ w.region = .header ∧
        w.offset = (call_state c s k).offsetToHeader) ∧
      (∀ w ∈ stores c (call_state c s k) baseRVA,
        w ∈ stores (.directory id name attrs childs) st baseRVA) := by
  simp only [headerBytes, ResourceDirectoryTableSize, ResourceDirectoryEntriesSize] at hfit
  have e1 : (st.offsetToHeader + ResourceDirectoryTableSize) % 2 ^ 32
      = st.offsetToHeader + 16 := by
    simp only [ResourceDirectoryTableSize]; omega
  have e2 : (loop_state attrs childs st).offsetToHeader
      = st.offsetToHeader + 16 + childs.length * 8 := by
    simp only [loop_state, ResourceDirectoryTableSize, ResourceDirectoryEntriesSize]; omega
  refine ⟨by rw [stores_directory]; rfl, loop_iterations_length _ _ _ _, ?_⟩
  intro i c s k hget
  rw [e1] at hget
  obtain ⟨a1, a2, a3, a4⟩ := loop_iterations_index baseRVA childs _ _
    (by rw [e2]; omega) (by omega) i c s k hget
  obtain ⟨-, b2, b3⟩ := loop_iterations_stores baseRVA childs _ _ c s k (List.getElem?_mem hget)
  rw [e2] at a3 a4
  have hge := headerBytes_ge c
  have hcall : (call_state c s k).offsetToHeader = s.offsetToHeader :=
    call_state_offsetToHeader c s k
  have hrec : (entry_record c s).RVA
      = (entryHeader c.isDirectory (construct_name c s).1 s.offsetToHeader).RVA := by
    simp only [entry_record, construct_name_offsetToHeader]
  obtain ⟨r1, r2⟩ := entryHeader_RVA c.isDirectory (construct_name c s).1 s.offsetToHeader
    (by omega)
  obtain ⟨w, w1, w2, w3, -⟩ := stores_head c (call_state c s k) baseRVA
  simp only [ResourceDirectoryTableSize, ResourceDirectoryEntriesSize]
  refine ⟨a1, by omega, ?_, rfl, rfl, by rw [hcall, a3], by rw [hrec, r1, hcall],
    by rw [hrec]; exact r2, ⟨w, w1, w2, w3⟩, ?_⟩
  · rw [stores_directory, e1]
    exact List.mem_cons_of_mem _ b2
  · intro w' hw'
    rw [stores_directory, e1]
    exact List.mem_cons_of_mem _ (b3 w' hw')

theorem C17_directory_layout_witness :
    ((build_resources_state example_resources 512).offsetToHeader
      + headerBytes example_resources ≤ 2 ^ 31) ∧
    (stores example_resources (build_resources_state example_resources 512) 0x1000).head?
      = some { region := .header,
               offset := (build_resources_state example_resources 512).offsetToHeader,
               bytes := (rsrcHeader ⟨0, 0, 1, 0, 1, 1⟩).bytes.take
                 ResourceDirectoryTableSize } ∧
    (loop_iterations
      [.directory 0x80000000 [0x41, 0x42] ⟨0, 0, 0, 0, 0, 1⟩ [.data 1 [] [0xAA] 0x4E4],
        .data 2 [] [0xBB, 0xCC] 0]
      (loop_state ⟨0, 0, 1, 0, 1, 1⟩
        [.directory 0x80000000 [0x41, 0x42] ⟨0, 0, 0, 0, 0, 1⟩ [.data 1 [] [0xAA] 0x4E4],
          .data 2 [] [0xBB, 0xCC] 0]
        (build_resources_state example_resources 512))
      (((build_resources_state example_resources 512).offsetToHeader
        + ResourceDirectoryTableSize) % 2 ^ 32) 0x1000).length = 2 :=
  ⟨by decide,
   (C17_directory_layout 0 [] ⟨0, 0, 1, 0, 1, 1⟩
      [.directory 0x80000000 [0x41, 0x42] ⟨0, 0, 0, 0, 0, 1⟩ [.data 1 [] [0xAA] 0x4E4],
        .data 2 [] [0xBB, 0xCC] 0]
      (build_resources_state example_resources 512) 0x1000 (by decide)).1,
   (C17_directory_layout 0 [] ⟨0, 0, 1, 0, 1, 1⟩
      [.directory 0x80000000 [0x41, 0x42] ⟨0, 0, 0, 0, 0, 1⟩ [.data 1 [] [0xAA] 0x4E4],
        .data 2 [] [0xBB, 0xCC] 0]
      (build_resources_state example_resources 512) 0x1000 (by decide)).2.1⟩

/-! ## C18: what the serializer changes in the tree -/

theorem construct_resources_id (n : ResourceNode) (st : BuildState) (baseRVA : Nat) :
    (construct_resources n st baseRVA).1.id = n.id := by
  cases n with
  | directory id name attrs cs => rw [construct_resources_directory]; rfl
  | data id name content cp => simp only [construct_resources, ResourceNode.id]

theorem setId_id (n : ResourceNode) (i : Nat) : (n.setId i).id = i := by
  cases n <;> rfl

theorem readAt_copy_to (buf src : List Nat) (off : Nat) (h : off + src.length ≤ buf.length) :
    (copy_to (some buf) off src).bind (fun b => readAt b off src.length) = some src := by
  rw [copy_to_some buf src off h, Option.some_bind]
  apply readAt_eq_some
  · simp only [List.length_append, List.length_take, List.length_drop]
    omega
  · intro j hj
    rw [copy_to_getElem? buf src off (off + j) h, if_pos ⟨by omega, by omega⟩]
    congr 1
    omega

theorem call_state_read_id (child : ResourceNode) (st : BuildState) (cur : Nat)
    (buf : List Nat) (hbuf : (construct_name child st).2.content = some buf)
    (hfit : cur + ResourceDirectoryEntriesSize ≤ buf.length) :
    (call_state child st cur).content.bind (fun b => read32 b cur)
      = some ((construct_name child st).1 % 2 ^ 32) := by
  have hlen : ((entryHeader child.isDirectory (construct_name child st).1
      (construct_name child st).2.offsetToHeader).bytes.take
        ResourceDirectoryEntriesSize).length = 8 := by
    simp only [pe_resource_directory_entries.bytes, ResourceDirectoryEntriesSize,
      List.length_take, List.length_append, le32_length]
    rfl
  have htake : (entryHeader child.isDirectory (construct_name child st).1
      (construct_name child st).2.offsetToHeader).bytes.take ResourceDirectoryEntriesSize
      = le32 (entryHeader child.isDirectory (construct_name child st).1
          (construct_name child st).2.offsetToHeader).NameID
        ++ le32 (entryHeader child.isDirectory (construct_name child st).1
          (construct_name child st).2.offsetToHeader).RVA := by
    apply List.take_of_length_le
    simp only [pe_resource_directory_entries.bytes, ResourceDirectoryEntriesSize,
      List.length_append, le32_length]
    exact Nat.le_refl _
  have hcs : (call_state child st cur).content
      = copy_to (some buf) cur ((entryHeader child.isDirectory (construct_name child st).1
        (construct_name child st).2.offsetToHeader).bytes.take ResourceDirectoryEntriesSize) := by
    simp only [call_state, hbuf]
  have hr := readAt_copy_to buf _ cur (by rw [hlen]; exact hfit)
  rw [← hcs, hlen] at hr
  cases hc : (call_state child st cur).content with
  | none => rw [hc] at hr; exact absurd hr (by simp)
  | some b =>
    rw [hc, Option.some_bind] at hr
    rw [htake] at hr
    rw [Option.some_bind, (read_entry b cur _ _ hr).1]
    simp only [entryHeader, Nat.mod_mod]

theorem idRewritten_of_cursor (baseRVA : Nat) (child : ResourceNode) (st : BuildState)
    (cur : Nat) (hn : st.offsetToName < 2 ^ 32) : IdRewritten baseRVA child st cur := by
  have h31 : (0x80000000 : Nat) < 2 ^ 32 := by norm_num
  have hlt : 0x80000000 ||| st.offsetToName < 2 ^ 32 := Nat.or_lt_two_pow h31 hn
  refine ⟨?_, ?_, ?_, ?_, ?_⟩
  · intro hflag
    have hid := construct_name_id child st hflag
    rw [Nat.mod_eq_of_lt hlt] at hid
    refine ⟨hid, ?_, ?_⟩
    · simp only [entry_record, entryHeader, hid]
      exact Nat.mod_eq_of_lt hlt
    · simp only [name_stores, hflag, if_true, List.head?_cons, Option.map_some']
  · intro hflag
    rw [construct_name_of_not_flag child st hflag]
  · simp only [entry_record, entryHeader]
  · intro rest
    rw [construct_resources_childs_cons]
    simp only [List.head?_cons, Option.map_some', setId_id]
  · intro buf hbuf hfit
    exact call_state_read_id child st cur buf hbuf hfit

theorem construct_name_cursor_lt (child : ResourceNode) (st : BuildState)
    (hn : st.offsetToName < 2 ^ 32) : (construct_name child st).2.offsetToName < 2 ^ 32 := by
  rw [construct_name_offsetToName child st hn]
  exact Nat.mod_lt _ (by norm_num)

/-- Every iteration of the child loop, at every depth, rewrites ids as C18 says. -/
theorem ids_rewritten (baseRVA : Nat) :
    (∀ n : ResourceNode, ∀ st, st.offsetToName < 2 ^ 32 →
      ForallCalls (fun _ _ => True) (IdRewritten baseRVA) baseRVA n st ∧
      (construct_resources n st baseRVA).2.offsetToName < 2 ^ 32) ∧
    (∀ cs : List ResourceNode, ∀ st cur, st.offsetToName < 2 ^ 32 →
      ForallCallsL (fun _ _ => True) (IdRewritten baseRVA) baseRVA cs st cur ∧
      (construct_resources_childs cs st cur baseRVA).2.offsetToName < 2 ^ 32) := by
  apply ResourceNode.induction
  · intro id name attrs cs ih st hn
    obtain ⟨i1, i2⟩ := ih (loop_state attrs cs st)
      ((st.offsetToHeader + ResourceDirectoryTableSize) % 2 ^ 32) hn
    rw [ForallCalls, construct_resources_directory]
    exact ⟨⟨trivial, i1⟩, i2⟩
  · intro id name content cp st hn
    rw [ForallCalls]
    refine ⟨trivial, ?_⟩
    simp only [construct_resources]
    exact hn
  · intro st cur hn
    exact ⟨trivial, hn⟩
  · intro c cs ihc ihcs st cur hn
    have hcall : (call_state c st cur).offsetToName < 2 ^ 32 :=
      construct_name_cursor_lt c st hn
    obtain ⟨c1, c2⟩ := ihc (call_state c st cur) hcall
    obtain ⟨r1, r2⟩ := ihcs _ ((cur + ResourceDirectoryEntriesSize) % 2 ^ 32) c2
    rw [ForallCallsL, construct_resources_childs_cons]
    exact ⟨⟨idRewritten_of_cursor baseRVA c st cur hn, c1, r1⟩, r2⟩

theorem setId_self (n : ResourceNode) : n.setId n.id = n := by
  cases n <;> rfl

/-- The tree and the name cursor that a call of `construct_resources` leaves are those of
spec §4.2. -/
theorem construct_eq_spec_rewrite (baseRVA : Nat) :
    (∀ n : ResourceNode, ∀ st, st.offsetToName < 2 ^ 32 →
      (construct_resources n st baseRVA).1 = (spec_rewrite_ids n st.offsetToName).1 ∧
      (construct_resources n st baseRVA).2.offsetToName
        = (spec_rewrite_ids n st.offsetToName).2) ∧
    (∀ cs : List ResourceNode, ∀ st cur, st.offsetToName < 2 ^ 32 →
      (construct_resources_childs cs st cur baseRVA).1
        = (spec_rewrite_idsL cs st.offsetToName).1 ∧
      (construct_resources_childs cs st cur baseRVA).2.offsetToName
        = (spec_rewrite_idsL cs st.offsetToName).2) := by
  apply ResourceNode.induction
  · intro id name attrs cs ih st hn
    obtain ⟨i1, i2⟩ := ih (loop_state attrs cs st)
      ((st.offsetToHeader + ResourceDirectoryTableSize) % 2 ^ 32) hn
    have hls : (loop_state attrs cs st).offsetToName = st.offsetToName := rfl
    rw [hls] at i1 i2
    rw [construct_resources_directory, spec_rewrite_ids]
    simp only [i1, i2, and_self]
  · intro id name content cp st hn
    simp only [construct_resources, spec_rewrite_ids, and_self]
  · intro st cur hn
    simp only [construct_resources_childs, spec_rewrite_idsL, and_self]
  · intro c cs ihc ihcs st cur hn
    have hlt : 0x80000000 ||| st.offsetToName < 2 ^ 32 :=
      Nat.or_lt_two_pow (by norm_num) hn
    have hcn : (call_state c st cur).offsetToName
        = (construct_name c st).2.offsetToName := rfl
    have hcl : (call_state c st cur).offsetToName < 2 ^ 32 := by
      rw [hcn]; exact construct_name_cursor_lt c st hn
    obtain ⟨c1, c2⟩ := ihc (call_state c st cur) hcl
    have hrl : (construct_resources c (call_state c st cur) baseRVA).2.offsetToName
        < 2 ^ 32 := ((ids_rewritten baseRVA).1 c (call_state c st cur) hcl).2
    obtain ⟨r1, r2⟩ := ihcs (construct_resources c (call_state c st cur) baseRVA).2
      ((cur + ResourceDirectoryEntriesSize) % 2 ^ 32) hrl
    rw [construct_resources_childs_cons, spec_rewrite_idsL]
    by_cases hflag : namedFlag c.id = true
    · have hid := construct_name_id c st hflag
      rw [Nat.mod_eq_of_lt hlt] at hid
      have hcur : (call_state c st cur).offsetToName
          = (st.offsetToName + (2 * c.name.length + 2 + 1)) % 2 ^ 32 := by
        rw [hcn, construct_name_offsetToName c st hn]
        simp only [nameRecordBytes, hflag, if_true]
        congr 1
        omega
      rw [if_pos hflag, hid]
      rw [hcur] at c1 c2
      rw [c2] at r1 r2
      simp only [c1, r1, r2, and_self]
    · have hflag' : namedFlag c.id = false := by simpa using hflag
      have hcs : construct_name c st = (c.id, st) := construct_name_of_not_flag c st hflag'
      have hcur : (call_state c st cur).offsetToName = st.offsetToName := by
        rw [hcn, hcs]
      rw [if_neg hflag, hcs]
      rw [hcur] at c1 c2
      rw [c2] at r1 r2
      have hsame : (construct_resources c (call_state c st cur) baseRVA).1.setId c.id
          = (construct_resources c (call_state c st cur) baseRVA).1 := by
        have := setId_self (construct_resources c (call_state c st cur) baseRVA).1
        rw [construct_resources_id] at this
        exact this
      rw [c1] at hsame
      simp only [hsame, c1, r1, r2, and_self]

/-- C18: for every call of `construct_resources` (the name cursor being a 32-bit value), the
tree that the call leaves differs from the tree it was given only in the ids of the children
that carry the named flag: the root keeps its id and its name; every node keeps its name,
its content, its code page, its directory attributes and its children in their order;
children without the flag keep their id; and in every iteration of the child loop, at every
depth, a child with the flag gets the id 0x80000000 | name cursor, the name cursor being the
offset at which its name is stored, and this id is the NameID of its directory entry, which
the buffer holds at the entry when the entry fits. The tree that the call returns and the name
cursor it ends with are exactly those that spec §4.2 words (`spec_rewrite_ids`). -/
theorem C18_only_named_ids_change (node : ResourceNode) (st : BuildState) (baseRVA : Nat)
    (hn : st.offsetToName < 2 ^ 32) :
    (construct_resources node st baseRVA).1.id = node.id ∧
    (construct_resources node st baseRVA).1.name = node.name ∧
    isomorphic node (construct_resources node st baseRVA).1 = true ∧
    ForallCalls (fun _ _ => True) (IdRewritten baseRVA) baseRVA node st ∧
    (construct_resources node st baseRVA).1 = (spec_rewrite_ids node st.offsetToName).1 ∧
    (construct_resources node st baseRVA).2.offsetToName
      = (spec_rewrite_ids node st.offsetToName).2 :=
  ⟨construct_resources_id node st baseRVA, construct_resources_name node st baseRVA,
   (construct_isomorphic baseRVA).1 node st, ((ids_rewritten baseRVA).1 node st hn).1,
   ((construct_eq_spec_rewrite baseRVA).1 node st hn).1,
   ((construct_eq_spec_rewrite baseRVA).1 node st hn).2⟩

set_option maxRecDepth 100000 in
/-- C18 on the example tree, serialized from the state that `build_resources` prepares: the
name cursor starts at 0x60, the named sub-directory gets the id 0x80000060, which is the
NameID read back from its directory entry at offset 16, and nothing else changes. -/
theorem C18_only_named_ids_change_witness :
    (build_resources_state example_resources 512).offsetToName < 2 ^ 32 ∧
    ((construct_resources example_resources (build_resources_state example_resources 512)
      0x1000).1.id = example_resources.id ∧
    (construct_resources example_resources (build_resources_state example_resources 512)
      0x1000).1.name = example_resources.name ∧
    isomorphic example_resources
      (construct_resources example_resources (build_resources_state example_resources 512)
        0x1000).1 = true ∧
    ForallCalls (fun _ _ => True) (IdRewritten 0x1000) 0x1000 example_resources
      (build_resources_state example_resources 512) ∧
    (construct_resources example_resources (build_resources_state example_resources 512)
      0x1000).1
      = (spec_rewrite_ids example_resources
          (build_resources_state example_resources 512).offsetToName).1 ∧
    (construct_resources example_resources (build_resources_state example_resources 512)
      0x1000).2.offsetToName
      = (spec_rewrite_ids example_resources
          (build_resources_state example_resources 512).offsetToName).2) ∧
    (build_resources_state example_resources 512).offsetToName = 0x60 ∧
    (construct_resources example_resources (build_resources_state example_resources 512)
      0x1000).1
      = .directory 0 [] ⟨0, 0, 1, 0, 1, 1⟩
          [.directory 0x80000060 [0x41, 0x42] ⟨0, 0, 0, 0, 0, 1⟩ [.data 1 [] [0xAA] 0x4E4],
           .data 2 [] [0xBB, 0xCC] 0] ∧
    (construct_resources example_resources (build_resources_state example_resources 512)
      0x1000).2.offsetToName = 0x67 ∧
    (construct_resources example_resources (build_resources_state example_resources 512)
      0x1000).2.content.bind (fun buf => read32 buf 16) = some 0x80000060 :=
  ⟨by decide,
   C18_only_named_ids_change example_resources (build_resources_state example_resources 512)
     0x1000 (by decide), by decide, by rfl, by decide, by rfl⟩

/-! ## C19: the stores stay in their regions -/

theorem resource_totals_of_fit (n : ResourceNode) (hfit : SizesFit n) :
    resource_totals n
      = { headerSize := 24 * nodeCount n, dataSize := dataBytes n,
          nameSize := plannedNameBytes n } := by
  unfold SizesFit at hfit
  unfold resource_totals
  rw [compute_sizes.1 n _ (by norm_num) (by norm_num)]
  simp only [Nat.zero_add]
  rw [Nat.mod_eq_of_lt (a := 24 * nodeCount n) (by omega),
    Nat.mod_eq_of_lt (a := dataBytes n) (by omega),
    Nat.mod_eq_of_lt (a := plannedNameBytes n) (by omega)]

/-- C19, counterexample: the Data root with a content of 2^32 - 24 bytes satisfies the id/name
invariant, and each of its three size totals (24, 0 and 2^32 - 23) fits in 32 bits; the buffer
is allocated with 512 bytes, the data cursor starts at 24, and the store of the content there
is out of the bounds of the buffer. -/
theorem C19_counterexample :
    id_name_invariant (.data 1 [] (List.replicate 4294967272 0xAA) 0) = true ∧
    resource_totals (.data 1 [] (List.replicate 4294967272 0xAA) 0)
      = { headerSize := 24, dataSize := 4294967273, nameSize := 0 } ∧
    (24 < 2 ^ 32 ∧ 0 < 2 ^ 32 ∧ 4294967273 < 2 ^ 32) ∧
    (build_resources_state (.data 1 [] (List.replicate 4294967272 0xAA) 0) 512).content
      = some (List.replicate 512 0) ∧
    (build_resources_state (.data 1 [] (List.replicate 4294967272 0xAA) 0) 512).offsetToData
      = 24 ∧
    (build_resources_content (.data 1 [] (List.replicate 4294967272 0xAA) 0) 512
      0x1000).2.content = none :=
  ⟨(wrapped_sum_data_root _ (List.length_replicate _ _)).1,
   (wrapped_sum_data_root _ (List.length_replicate _ _)).2.1,
   by decide,
   (wrapped_sum_data_root _ (List.length_replicate _ _)).2.2.1,
   (wrapped_sum_data_root _ (List.length_replicate _ _)).2.2.2.1,
   (wrapped_sum_data_root _ (List.length_replicate _ _)).2.2.2.2⟩

/-- C19, amended: for every resource tree that satisfies the id/name invariant below the root
and whose three size totals add up to less than 2^32, every store that `construct_resources`
performs when started by `build_resources` stays inside its own region of the buffer: header
records inside [0, headerSize), name records inside [headerSize, headerSize + nameSize),
content bytes inside [headerSize + nameSize, headerSize + nameSize + dataSize); the three
regions lie inside the buffer, so no store is out of bounds (the serialization completes) and
stores of different regions touch no common byte. -/
theorem C19_stores_stay_in_regions (root : ResourceNode) (file_alignment baseRVA : Nat)
    (hinv : names_agree root = true) (hfit : SizesFit root) :
    ∃ buf, (build_resources_content root file_alignment baseRVA).2.content = some buf ∧
      (resource_totals root).headerSize + (resource_totals root).nameSize
        + (resource_totals root).dataSize ≤ buf.length ∧
      (∀ w ∈ stores root (build_resources_state root file_alignment) baseRVA,
        (w.region = .header → w.stop ≤ (resource_totals root).headerSize) ∧
        (w.region = .name → (resource_totals root).headerSize ≤ w.offset ∧
          w.stop ≤ (resource_totals root).headerSize + (resource_totals root).nameSize) ∧
        (w.region = .data →
          (resource_totals root).headerSize + (resource_totals root).nameSize ≤ w.offset ∧
          w.stop ≤ (resource_totals root).headerSize + (resource_totals root).nameSize
            + (resource_totals root).dataSize)) ∧
      (∀ w ∈ stores root (build_resources_state root file_alignment) baseRVA,
        ∀ w' ∈ stores root (build_resources_state root file_alignment) baseRVA,
        w.region ≠ w'.region → Store.Disjoint w w') := by
  obtain ⟨buf, h1, h2, -, -⟩ :=
    build_resources_content_spec root file_alignment baseRVA hinv hfit
  have hl := build_resources_layout root file_alignment hinv hfit
  have hfoot := stores_footprint.1 root _ baseRVA _ _ _ hl
  have hst := build_resources_state_eq root file_alignment hfit
  have htot := resource_totals_of_fit root hfit
  have hle := le_align (24 * nodeCount root + plannedNameBytes root + dataBytes root)
    file_alignment
  obtain ⟨l1, l2, l3, l4, l5, l6⟩ := hl
  rw [hst] at l1 l2 l3 l4 l5
  simp only [] at l1 l2 l3 l4 l5
  have hreg : ∀ w ∈ stores root (build_resources_state root file_alignment) baseRVA,
      (w.region = .header → w.stop ≤ 24 * nodeCount root) ∧
      (w.region = .name → 24 * nodeCount root ≤ w.offset ∧
        w.stop ≤ 24 * nodeCount root + plannedNameBytes root) ∧
      (w.region = .data → 24 * nodeCount root + plannedNameBytes root ≤ w.offset ∧
        w.stop ≤ 24 * nodeCount root + plannedNameBytes root + dataBytes root) := by
    intro w hw
    obtain ⟨y1, y2, y3⟩ := hfoot w hw
    rw [hst] at y1 y2 y3
    simp only [] at y1 y2 y3
    refine ⟨fun hr => ?_, fun hr => ?_, fun hr => ?_⟩
    · have := y1 hr; omega
    · have := y2 hr; omega
    · have := y3 hr; omega
  rw [htot]
  simp only []
  refine ⟨buf, h1, by rw [h2]; omega, hreg, ?_⟩
  intro w hw w' hw' hne
  obtain ⟨a1, a2, a3⟩ := hreg w hw
  obtain ⟨b1, b2, b3⟩ := hreg w' hw'
  have hoff : w.offset ≤ w.stop := by unfold Store.stop; omega
  have hoff' : w'.offset ≤ w'.stop := by unfold Store.stop; omega
  unfold Store.Disjoint
  rcases hr : w.region with _ | _ | _ <;> rcases hr' : w'.region with _ | _ | _ <;>
    simp only [hr, hr', ne_eq, not_true_eq_false, forall_true_left, reduceCtorEq,
      false_implies, not_false_eq_true] at hne a1 a2 a3 b1 b2 b3 <;> omega

theorem C19_stores_stay_in_regions_witness :
    names_agree example_resources = true ∧ SizesFit example_resources ∧
    ∃ buf, (build_resources_content example_resources 512 0x1000).2.content = some buf ∧
      (resource_totals example_resources).headerSize
        + (resource_totals example_resources).nameSize
        + (resource_totals example_resources).dataSize ≤ buf.length ∧
      (∀ w ∈ stores example_resources (build_resources_state example_resources 512) 0x1000,
        (w.region = .header → w.stop ≤ (resource_totals example_resources).headerSize) ∧
        (w.region = .name → (resource_totals example_resources).headerSize ≤ w.offset ∧
          w.stop ≤ (resource_totals example_resources).headerSize
            + (resource_totals example_resources).nameSize) ∧
        (w.region = .data →
          (resource_totals example_resources).headerSize
            + (resource_totals example_resources).nameSize ≤ w.offset ∧
          w.stop ≤ (resource_totals example_resources).headerSize
            + (resource_totals example_resources).nameSize
            + (resource_totals example_resources).dataSize)) ∧
      (∀ w ∈ stores example_resources (build_resources_state example_resources 512) 0x1000,
        ∀ w' ∈ stores example_resources (build_resources_state example_resources 512) 0x1000,
        w.region ≠ w'.region → Store.Disjoint w w') :=
  ⟨by decide, by unfold SizesFit; decide,
   C19_stores_stay_in_regions example_resources 512 0x1000 (by decide)
     (by unfold SizesFit; decide)⟩

/-! ## C20: the bytes of a block and its BlockSize field -/

theorem blockSize_of_fit (r : Relocation) (h : align (r.entries.length * 2 + 8) 4 < 2 ^ 32) :
    (relocation_header r).BlockSize = roundUp (r.entries.length * 2 + 8) 4 := by
  have hle := le_align (r.entries.length * 2 + 8) 4
  simp only [relocation_header]
  rw [Nat.mod_eq_of_lt (a := r.entries.length * 2 + 8) (by omega), Nat.mod_eq_of_lt h,
    align_four]

theorem encodeRelocationBlock_length_eq (r : Relocation) :
    (encodeRelocationBlock r).length = roundUp (r.entries.length * 2 + 8) 4 := by
  simp only [encodeRelocationBlock, List.length_append, le32_length, flatMap_le16_length,
    List.length_replicate, roundUp]
  omega

theorem encodeRelocationBlock_take (r : Relocation) :
    (encodeRelocationBlock r).take 8 = (relocation_header r).bytes := by
  rw [relocation_header_bytes]
  unfold encodeRelocationBlock
  rw [List.append_assoc, List.take_append_of_le_length (by simp [le32_length]),
    List.take_of_length_le (by simp [le32_length])]

theorem build_relocation_blocks_length (rs : List Relocation)
    (hfit : ∀ r ∈ rs, align (r.entries.length * 2 + 8) 4 < 2 ^ 32) :
    (build_relocation_blocks rs).length
      = (rs.map fun x => (relocation_header x).BlockSize).sum := by
  rw [build_relocation_blocks, build_relocation_foldl rs [] rfl, List.nil_append]
  induction rs with
  | nil => rfl
  | cons r rs ih =>
    rw [List.flatMap_cons, List.length_append, List.map_cons, List.sum_cons,
      ih (fun x hx => hfit x (List.mem_cons_of_mem _ hx)), encodeRelocationBlock_length_eq,
      blockSize_of_fit r (hfit r (List.mem_cons_self _ _))]

theorem build_relocation_blocks_mod (rs : List Relocation) :
    (build_relocation_blocks rs).length % 4 = 0 := by
  rw [build_relocation_blocks, build_relocation_foldl rs [] rfl, List.nil_append]
  induction rs with
  | nil => rfl
  | cons r rs ih =>
    rw [List.flatMap_cons, List.length_append]
    have := encodeRelocationBlock_length r
    omega

/-- C20: for every list of relocation blocks whose BlockSize values fit in 32 bits, and every
block `r` of the list, with the blocks `pre` before it: the loop iteration of `r` appends to
the content built for `pre` a run of bytes (header, entries, padding computed from the
cumulative length) that starts with the header of `r` and whose length is the BlockSize
written in that header; the content built for `pre`, where the block of `r` starts, is as long
as the sum of the BlockSize fields of `pre`; and the unpadded content of the whole list is as
long as the sum of all BlockSize fields. -/
theorem C20_block_bytes_eq_block_size (relocations : List Relocation)
    (hfit : ∀ r ∈ relocations, align (r.entries.length * 2 + 8) 4 < 2 ^ 32) :
    (∀ pre r post, relocations = pre ++ r :: post →
      ∃ block,
        build_relocation_block (build_relocation_blocks pre) r
          = build_relocation_blocks pre ++ block ∧
        build_relocation_blocks (pre ++ [r]) = build_relocation_blocks pre ++ block ∧
        block.length = (relocation_header r).BlockSize ∧
        block.take 8 = (relocation_header r).bytes ∧
        (build_relocation_blocks pre).length
          = (pre.map fun x => (relocation_header x).BlockSize).sum) ∧
    (build_relocation_blocks relocations).length
      = (relocations.map fun x => (relocation_header x).BlockSize).sum := by
  refine ⟨?_, build_relocation_blocks_length relocations hfit⟩
  intro pre r post hsplit
  have hr : align (r.entries.length * 2 + 8) 4 < 2 ^ 32 :=
    hfit r (by rw [hsplit]; simp)
  have hpre : ∀ x ∈ pre, align (x.entries.length * 2 + 8) 4 < 2 ^ 32 :=
    fun x hx => hfit x (by rw [hsplit]; simp [hx])
  have hblock := build_relocation_block_eq (build_relocation_blocks pre) r
    (build_relocation_blocks_mod pre)
  refine ⟨encodeRelocationBlock r, hblock, ?_, ?_, encodeRelocationBlock_take r,
    build_relocation_blocks_length pre hpre⟩
  · rw [← hblock]
    simp only [build_relocation_blocks, List.foldl_append, List.foldl_cons, List.foldl_nil]
  · rw [encodeRelocationBlock_length_eq, blockSize_of_fit r hr]

theorem C20_block_bytes_eq_block_size_witness :
    (∀ r ∈ [({ virtual_address := 0x1000, entries := [0x3010, 0x3018, 0x3020] } : Relocation),
        { virtual_address := 0x2000, entries := [0x3004] }],
      align (r.entries.length * 2 + 8) 4 < 2 ^ 32) ∧
    (∀ pre r post,
      [({ virtual_address := 0x1000, entries := [0x3010, 0x3018, 0x3020] } : Relocation),
        { virtual_address := 0x2000, entries := [0x3004] }] = pre ++ r :: post →
      ∃ block,
        build_relocation_block (build_relocation_blocks pre) r
          = build_relocation_blocks pre ++ block ∧
        build_relocation_blocks (pre ++ [r]) = build_relocation_blocks pre ++ block ∧
        block.length = (relocation_header r).BlockSize ∧
        block.take 8 = (relocation_header r).bytes ∧
        (build_relocation_blocks pre).length
          = (pre.map fun x => (relocation_header x).BlockSize).sum) ∧
    (build_relocation_blocks
        [({ virtual_address := 0x1000, entries := [0x3010, 0x3018, 0x3020] } : Relocation),
          { virtual_address := 0x2000, entries := [0x3004] }]).length
      = ([({ virtual_address := 0x1000, entries := [0x3010, 0x3018, 0x3020] } : Relocation),
          { virtual_address := 0x2000, entries := [0x3004] }].map
            fun x => (relocation_header x).BlockSize).sum :=
  ⟨by intro r hr; simp only [List.mem_cons, List.mem_singleton, List.not_mem_nil,
        or_false] at hr; rcases hr with rfl | rfl <;> decide,
   C20_block_bytes_eq_block_size _ (by
      intro r hr
      simp only [List.mem_cons, List.mem_singleton, List.not_mem_nil, or_false] at hr
      rcases hr with rfl | rfl <;> decide)⟩

/-! ## C21: the cursors of the two passes -/

/-- The name and data cursors after a call of `construct_resources`, in 32-bit arithmetic. -/
theorem construct_cursors_mod :
    (∀ n : ResourceNode, ∀ st baseRVA, st.offsetToName < 2 ^ 32 → st.offsetToData < 2 ^ 32 →
      (construct_resources n st baseRVA).2.offsetToName
        = (st.offsetToName + nameBytes n) % 2 ^ 32 ∧
      (construct_resources n st baseRVA).2.offsetToData
        = (st.offsetToData + dataBytes n) % 2 ^ 32) ∧
    (∀ cs : List ResourceNode, ∀ st cur baseRVA, st.offsetToName < 2 ^ 32 →
      st.offsetToData < 2 ^ 32 →
      (construct_resources_childs cs st cur baseRVA).2.offsetToName
        = (st.offsetToName + nameBytesL cs) % 2 ^ 32 ∧
      (construct_resources_childs cs st cur baseRVA).2.offsetToData
        = (st.offsetToData + dataBytesL cs) % 2 ^ 32) := by
  apply ResourceNode.induction
  · intro id name attrs cs ih st baseRVA hn hd
    obtain ⟨i1, i2⟩ := ih (loop_state attrs cs st)
      ((st.offsetToHeader + ResourceDirectoryTableSize) % 2 ^ 32) baseRVA hn hd
    rw [construct_resources_directory]
    simp only [nameBytes, dataBytes]
    exact ⟨i1, i2⟩
  · intro id name content cp st baseRVA hn hd
    simp only [construct_resources, nameBytes, dataBytes, Nat.add_zero]
    exact ⟨(Nat.mod_eq_of_lt hn).symm, trivial⟩
  · intro st cur baseRVA hn hd
    simp only [construct_resources_childs, nameBytesL, dataBytesL, Nat.add_zero]
    exact ⟨(Nat.mod_eq_of_lt hn).symm, (Nat.mod_eq_of_lt hd).symm⟩
  · intro c cs ihc ihcs st cur baseRVA hn hd
    have hcn : (call_state c st cur).offsetToName
        = (st.offsetToName + nameRecordBytes c) % 2 ^ 32 :=
      construct_name_offsetToName c st hn
    have hcd : (call_state c st cur).offsetToData = st.offsetToData :=
      construct_name_offsetToData c st
    obtain ⟨c1, c2⟩ := ihc (call_state c st cur) baseRVA
      (by rw [hcn]; exact Nat.mod_lt _ (by norm_num)) (by rw [hcd]; exact hd)
    obtain ⟨r1, r2⟩ := ihcs (construct_resources c (call_state c st cur) baseRVA).2
      ((cur + ResourceDirectoryEntriesSize) % 2 ^ 32) baseRVA
      (by rw [c1]; exact Nat.mod_lt _ (by norm_num))
      (by rw [c2]; exact Nat.mod_lt _ (by norm_num))
    rw [construct_resources_childs_cons]
    simp only [nameBytesL, dataBytesL]
    rw [r1, r2, c1, c2, hcn, hcd]
    constructor <;> omega

theorem two_data_tree_totals (c1 : List Nat) (h : c1.length = 4294967223) :
    resource_totals (two_data_tree c1)
      = { headerSize := 72, dataSize := 4294967226, nameSize := 0 } := by
  simp [resource_totals, two_data_tree, compute_resources_size, compute_resources_size_childs,
    h, ResourceDataEntrySize, ResourceDirectoryEntriesSize, ResourceDirectoryTableSize]

theorem two_data_tree_state (c1 : List Nat) (h : c1.length = 4294967223) :
    build_resources_state (two_data_tree c1) 4294967295
      = { content := some (List.replicate 4294967295 0), offsetToHeader := 0,
          offsetToData := 72, offsetToName := 72 } := by
  have hst := build_resources_state_spec (two_data_tree c1) 4294967295
  have htot := two_data_tree_totals c1 h
  unfold resource_totals at htot
  rw [htot] at hst
  have hal : align ((72 + 4294967226 + 0) % 2 ^ 32) 4294967295 = 4294967295 := by decide
  have hd : (72 + 0) % 2 ^ 32 = 72 := by decide
  simp only [hal, hd] at hst
  exact hst

theorem two_data_tree_stores (c1 : List Nat) (h : c1.length = 4294967223)
    (content : Option (List Nat)) :
    stores (two_data_tree c1)
        { content := content, offsetToHeader := 0, offsetToData := 72, offsetToName := 72 }
        0x1000
      = [{ region := .header, offset := 0, bytes := (rsrcHeader ⟨0, 0, 0, 0, 0, 2⟩).bytes },
         { region := .header, offset := 16, bytes := le32 1 ++ le32 32 },
         { region := .header, offset := 32,
           bytes := (dataHeader c1 0 0x1000 72).bytes },
         { region := .data, offset := 72, bytes := c1 },
         { region := .header, offset := 24, bytes := le32 2 ++ le32 48 },
         { region := .header, offset := 48,
           bytes := (dataHeader [0xAA] 0 0x1000 0).bytes },
         { region := .data, offset := 0, bytes := [0xAA] }] := by
  have hflag1 : namedFlag 1 = false := by decide
  have hflag2 : namedFlag 2 = false := by decide
  have hf1 : namedFlag (ResourceNode.data 1 [] c1 0).id = false := hflag1
  have hf2 : namedFlag (ResourceNode.data 2 [] [0xAA] 0).id = false := hflag2
  unfold two_data_tree
  rw [stores_directory, stores_childs_cons, stores_childs_cons]
  simp only [name_stores, hf1, hf2, hflag1, hflag2, Bool.false_eq_true, if_false,
    List.nil_append, construct_name_of_not_flag _ _ hf1, construct_name_of_not_flag _ _ hf2,
    call_state, loop_state, stores, stores_childs, construct_resources,
    List.append_nil, ResourceNode.isDirectory, ResourceNode.id, entryHeader,
    ResourceDirectoryTableSize, ResourceDirectoryEntriesSize, ResourceDataEntrySize,
    List.length_cons, List.length_nil, h]
  simp only [pe_resource_directory_entries.bytes, pe_resource_directory_table.bytes,
    pe_resource_data_entry.bytes, le32, le16, rsrcHeader, dataHeader, h]
  norm_num [hflag1, hflag2]

theorem two_data_tree_invariant (c1 : List Nat) :
    (two_data_tree c1).name = [] ∧ id_name_invariant (two_data_tree c1) = true := by
  have hflag0 : namedFlag 0 = false := by decide
  have hflag1 : namedFlag 1 = false := by decide
  have hflag2 : namedFlag 2 = false := by decide
  refine ⟨rfl, ?_⟩
  simp [id_name_invariant, flag_agrees, names_agree, names_agreeL, hflag0, hflag1, hflag2,
    two_data_tree, ResourceNode.id, ResourceNode.name]

theorem two_data_tree_run (c1 : List Nat) (h : c1.length = 4294967223) :
    ((build_resources_content (two_data_tree c1) 4294967295 0x1000).2.content).isSome = true ∧
    (build_resources_content (two_data_tree c1) 4294967295 0x1000).2.offsetToName = 72 ∧
    (build_resources_content (two_data_tree c1) 4294967295 0x1000).2.offsetToData = 2 := by
  have hst := two_data_tree_state c1 h
  unfold build_resources_content
  rw [hst]
  refine ⟨?_, ?_⟩
  · have hin : ∀ s ∈ stores (two_data_tree c1)
        { content := some (List.replicate 4294967295 0), offsetToHeader := 0,
          offsetToData := 72, offsetToName := 72 } 0x1000,
        s.stop ≤ (List.replicate 4294967295 0).length := by
      intro s hs
      rw [two_data_tree_stores c1 h] at hs
      rw [List.length_replicate]
      simp only [List.mem_cons, List.mem_singleton, List.not_mem_nil, or_false] at hs
      rcases hs with rfl | rfl | rfl | rfl | rfl | rfl | rfl <;>
        simp only [Store.stop, pe_resource_directory_table.bytes,
          pe_resource_data_entry.bytes, List.length_append, le32_length, le16_length,
          List.length_cons, List.length_nil, h] <;> omega
    obtain ⟨buf', h1, -, -⟩ := replay_ok _ _ hin
    rw [construct_content.1, h1]
    rfl
  · obtain ⟨c1n, c1d⟩ := construct_cursors_mod.1 (two_data_tree c1)
      { content := some (List.replicate 4294967295 0), offsetToHeader := 0,
        offsetToData := 72, offsetToName := 72 } 0x1000 (by decide) (by decide)
    have hflag1 : namedFlag 1 = false := by decide
    have hflag2 : namedFlag 2 = false := by decide
    have hnb : nameBytes (two_data_tree c1) = 0 := by
      simp [two_data_tree, nameBytes, nameBytesL, nameRecordBytes, ResourceNode.id, hflag1,
        hflag2]
    have hdb : dataBytes (two_data_tree c1) = 4294967226 := by
      simp [two_data_tree, dataBytes, dataBytesL, h]
    rw [c1n, c1d, hnb, hdb]
    exact ⟨by decide, by decide⟩

/-- C21, counterexample: the unnamed directory with two unnamed Data children, the first with
a content of 2^32 - 73 bytes and the second with one byte, built with file alignment
0xFFFFFFFF. The tree satisfies the id/name invariant; the totals are headerSize 72, nameSize 0
and dataSize 2^32 - 70, so headerSize + nameSize + dataSize is 2^32 + 2; the buffer has
2^32 - 1 bytes and every store is in bounds (the serialization completes); the name cursor
ends at 72 and the data cursor ends at 2, not at 2^32 + 2. -/
theorem C21_counterexample :
    (two_data_tree (List.replicate 4294967223 0)).name = [] ∧
    id_name_invariant (two_data_tree (List.replicate 4294967223 0)) = true ∧
    resource_totals (two_data_tree (List.replicate 4294967223 0))
      = { headerSize := 72, dataSize := 4294967226, nameSize := 0 } ∧
    72 + 0 + 4294967226 = 4294967298 ∧
    build_resources_state (two_data_tree (List.replicate 4294967223 0)) 4294967295
      = { content := some (List.replicate 4294967295 0), offsetToHeader := 0,
          offsetToData := 72, offsetToName := 72 } ∧
    ((build_resources_content (two_data_tree (List.replicate 4294967223 0)) 4294967295
      0x1000).2.content).isSome = true ∧
    (build_resources_content (two_data_tree (List.replicate 4294967223 0)) 4294967295
      0x1000).2.offsetToName = 72 ∧
    (build_resources_content (two_data_tree (List.replicate 4294967223 0)) 4294967295
      0x1000).2.offsetToData = 2 :=
  ⟨(two_data_tree_invariant _).1, (two_data_tree_invariant _).2,
   two_data_tree_totals _ (List.length_replicate _ _), by decide,
   two_data_tree_state _ (List.length_replicate _ _),
   two_data_tree_run _ (List.length_replicate _ _)⟩

/-- C21, amended: for every resource tree with an unnamed root that satisfies the id/name
invariant below the root, after `construct_resources` has serialized the whole tree from the
cursors set by `build_resources`, the name cursor equals headerSize + nameSize and the data
cursor equals headerSize + nameSize + dataSize in 32-bit arithmetic (modulo 2^32), the three
totals being those of `compute_resources_size`; they are the plain sums whenever
headerSize + nameSize + dataSize is below 2^32. -/
theorem C21_cursors_agree_with_totals (root : ResourceNode) (file_alignment baseRVA : Nat)
    (hroot : root.name = []) (hinv : names_agree root = true) :
    (build_resources_content root file_alignment baseRVA).2.offsetToName
      = ((resource_totals root).headerSize + (resource_totals root).nameSize) % 2 ^ 32 ∧
    (build_resources_content root file_alignment baseRVA).2.offsetToData
      = ((resource_totals root).headerSize + (resource_totals root).nameSize
          + (resource_totals root).dataSize) % 2 ^ 32 ∧
    ((resource_totals root).headerSize + (resource_totals root).nameSize
        + (resource_totals root).dataSize < 2 ^ 32 →
      (build_resources_content root file_alignment baseRVA).2.offsetToName
        = (resource_totals root).headerSize + (resource_totals root).nameSize ∧
      (build_resources_content root file_alignment baseRVA).2.offsetToData
        = (resource_totals root).headerSize + (resource_totals root).nameSize
          + (resource_totals root).dataSize) := by
  have hst := build_resources_state_spec root file_alignment
  have htot : resource_totals root
      = { headerSize := (0 + 24 * nodeCount root) % 2 ^ 32,
          dataSize := (0 + dataBytes root) % 2 ^ 32,
          nameSize := (0 + plannedNameBytes root) % 2 ^ 32 } :=
    compute_sizes.1 root _ (by norm_num) (by norm_num)
  have hplan : plannedNameBytes root = nameBytes root := by
    rw [planned_eq_nameBytes.1 root hinv, hroot]
    simp
  have hN : (build_resources_state root file_alignment).offsetToName
      = (resource_totals root).headerSize := by rw [hst]; rfl
  have hD : (build_resources_state root file_alignment).offsetToData
      = ((resource_totals root).headerSize + (resource_totals root).nameSize) % 2 ^ 32 := by
    rw [hst]; rfl
  have hh : (resource_totals root).headerSize < 2 ^ 32 := by
    rw [htot]; exact Nat.mod_lt _ (by norm_num)
  obtain ⟨c1, c2⟩ := construct_cursors_mod.1 root (build_resources_state root file_alignment)
    baseRVA (by rw [hN]; exact hh) (by rw [hD]; exact Nat.mod_lt _ (by norm_num))
  have e1 : (build_resources_content root file_alignment baseRVA).2.offsetToName
      = ((resource_totals root).headerSize + (resource_totals root).nameSize) % 2 ^ 32 := by
    unfold build_resources_content
    rw [c1, hN, htot, hplan]
    simp only []
    omega
  have e2 : (build_resources_content root file_alignment baseRVA).2.offsetToData
      = ((resource_totals root).headerSize + (resource_totals root).nameSize
          + (resource_totals root).dataSize) % 2 ^ 32 := by
    unfold build_resources_content
    rw [c2, hD, htot]
    simp only []
    omega
  refine ⟨e1, e2, ?_⟩
  intro hlt
  rw [e1, e2]
  exact ⟨Nat.mod_eq_of_lt (by omega), Nat.mod_eq_of_lt hlt⟩

theorem C21_cursors_agree_with_totals_witness :
    example_resources.name = [] ∧ names_agree example_resources = true ∧
    ((build_resources_content example_resources 512 0x1000).2.offsetToName
        = ((resource_totals example_resources).headerSize
            + (resource_totals example_resources).nameSize) % 2 ^ 32 ∧
      (build_resources_content example_resources 512 0x1000).2.offsetToData
        = ((resource_totals example_resources).headerSize
            + (resource_totals example_resources).nameSize
            + (resource_totals example_resources).dataSize) % 2 ^ 32 ∧
      ((resource_totals example_resources).headerSize
          + (resource_totals example_resources).nameSize
          + (resource_totals example_resources).dataSize < 2 ^ 32 →
        (build_resources_content example_resources 512 0x1000).2.offsetToName
          = (resource_totals example_resources).headerSize
            + (resource_totals example_resources).nameSize ∧
        (build_resources_content example_resources 512 0x1000).2.offsetToData
          = (resource_totals example_resources).headerSize
            + (resource_totals example_resources).nameSize
            + (resource_totals example_resources).dataSize)) ∧
    resource_totals example_resources = { headerSize := 96, dataSize := 5, nameSize := 7 } ∧
    (build_resources_content example_resources 512 0x1000).2.offsetToName = 103 ∧
    (build_resources_content example_resources 512 0x1000).2.offsetToData = 108 :=
  ⟨rfl, by decide,
   C21_cursors_agree_with_totals example_resources 512 0x1000 rfl (by decide),
   rfl, by decide, by decide⟩

end LIEF.PE
